import Mathlib

/-!
Ankit portfolio scripts, `js/animations.js` and `js/main.js`.

A shallow embedding of the two scripts and the properties proved about them.

* A JavaScript string is a list of characters (`Str`); one `Char` stands for one
  code unit, the unit of `length`, of `trim` and of the regular expressions used.
* Numbers are rationals.  `roundDouble` is IEEE-754 round-to-nearest-even on 53-bit
  significands; overflow to `Infinity` and subnormals are out of its range.
  `parseInt` returns the double nearest to the integer it reads, and the speed of
  a floating shape is computed with `roundDouble`.  The arithmetic of the counter
  and of the parallax offset takes its rounding as a parameter: `roundDouble` is
  what JavaScript does, `id` is exact arithmetic.
* Timers and observers are explicit state; time is a natural number of
  milliseconds and a timer set for time `t` runs before any event at a time `≥ t`.
-/

namespace Portfolio

/-! ## Numbers -/

/-- Nearest integer, ties to the even one. -/
def roundHalfEven (x : ℚ) : ℤ :=
  if x - ⌊x⌋ < 1 / 2 then ⌊x⌋
  else if 1 / 2 < x - ⌊x⌋ then ⌊x⌋ + 1
  else if ⌊x⌋ % 2 = 0 then ⌊x⌋ else ⌊x⌋ + 1

/-- The double nearest to a rational (round to nearest, ties to even, 53-bit
significand): the rounding JavaScript applies after every arithmetic operation. -/
def roundDouble (q : ℚ) : ℚ :=
  if q = 0 then 0
  else (roundHalfEven (q / 2 ^ (Int.log 2 |q| - 52)) : ℚ) * 2 ^ (Int.log 2 |q| - 52)

/-- The Number that JavaScript holds for an integer: the double nearest to it,
which is the integer itself below `2 ^ 53` in magnitude (that case is written
apart so that it is computed without rounding).  An integer that rounds to
`Infinity` (from `2 ^ 1024 - 2 ^ 970` on) is outside the model. -/
def numberOfInt (z : ℤ) : ℤ :=
  if z.natAbs < 9007199254740992 then z else ⌊roundDouble (z : ℚ)⌋

/-- A number with a significand of at most 53 bits: a double, overflow and
subnormals apart. -/
def IsDouble (d : ℚ) : Prop :=
  ∃ m k : ℤ, |m| < 2 ^ 53 ∧ d = m * 2 ^ k

/-! ## Strings, `parseInt` and attribute defaults -/

/-- A JavaScript string. -/
abbrev Str := List Char

/-- White space and line terminators: the class `\s`, which is also what `trim`
strips and what `parseInt` skips. -/
def isWhiteSpace (c : Char) : Bool :=
  c.toNat = 9 || c.toNat = 10 || c.toNat = 11 || c.toNat = 12 || c.toNat = 13 ||
  c.toNat = 32 || c.toNat = 160 || c.toNat = 5760 ||
  (8192 ≤ c.toNat && c.toNat ≤ 8202) ||
  c.toNat = 8232 || c.toNat = 8233 || c.toNat = 8239 || c.toNat = 8287 ||
  c.toNat = 12288 || c.toNat = 65279

/-- The class `\d`, i.e. `[0-9]`. -/
def isDigit (c : Char) : Bool := 48 ≤ c.toNat && c.toNat ≤ 57

/-- Value of a character as a digit of a radix up to 36 (`0-9`, `a-z`, `A-Z`). -/
def digitValue (c : Char) : Option Nat :=
  if 48 ≤ c.toNat ∧ c.toNat ≤ 57 then some (c.toNat - 48)
  else if 97 ≤ c.toNat ∧ c.toNat ≤ 122 then some (c.toNat - 87)
  else if 65 ≤ c.toNat ∧ c.toNat ≤ 90 then some (c.toNat - 55)
  else none

/-- Digit of the given radix, if the character is one. -/
def radixDigit (radix : Nat) (c : Char) : Option Nat :=
  match digitValue c with
  | some d => if d < radix then some d else none
  | none => none

/-- The digits of the longest prefix made of digits of the radix. -/
def digitsPrefix (radix : Nat) : Str → List Nat
  | [] => []
  | c :: cs =>
    match radixDigit radix c with
    | some d => d :: digitsPrefix radix cs
    | none => []

/-- The number written by a list of digits, most significant first. -/
def digitsValue (radix : Nat) (ds : List Nat) : Nat :=
  ds.foldl (fun acc d => acc * radix + d) 0

/-- Whether the string starts with `0x` or `0X`. -/
def hasHexPrefix : Str → Bool
  | c0 :: c1 :: _ => c0 = '0' && (c1 = 'x' || c1 = 'X')
  | _ => false

/-- Removes one leading sign character. -/
def stripSign : Str → Str
  | c :: cs => if c = '-' ∨ c = '+' then cs else c :: cs
  | [] => []

/-- `parseInt(s)` without a radix argument: leading white space is skipped, one
sign is read, `0x`/`0X` selects radix 16, and the longest run of digits is read;
the result is the Number of the integer read, and `none` stands for `NaN`.  (For
more than 20 significant decimal digits an implementation may read the digits
after the 20th as `0`; the model reads them all.) -/
def parseInt (s : Str) : Option Int :=
  let s1 := s.dropWhile isWhiteSpace
  let negative := s1.head? = some '-'
  let s2 := stripSign s1
  let radix := if hasHexPrefix s2 then 16 else 10
  let s3 := if hasHexPrefix s2 then s2.drop 2 else s2
  let ds := digitsPrefix radix s3
  if ds = [] then none
  else if negative then some (numberOfInt (-(digitsValue radix ds : Int)))
  else some (numberOfInt (digitsValue radix ds : Int))

/-- `String(v)` for the result of `getAttribute`: a missing attribute is `null`. -/
def attrString : Option Str → Str
  | some s => s
  | none => ['n', 'u', 'l', 'l']

/-- `parseInt(v) || d`: `NaN` and `0` are falsy. -/
def orDefault (v : Option Int) (d : Int) : Int :=
  match v with
  | some n => if n = 0 then d else n
  | none => d

/-- `s.trim()`. -/
def trim (s : Str) : Str :=
  ((s.dropWhile isWhiteSpace).reverse.dropWhile isWhiteSpace).reverse

/-- `s.replace(/\s/g, '')`. -/
def removeWhiteSpace (s : Str) : Str := s.filter (fun c => !isWhiteSpace c)

/-- `s.replace(/\D/g, '')`. -/
def keepDigits (s : Str) : Str := s.filter isDigit

/-! ## Elements -/

/-- A DOM element, as far as the scripts read and write it.  Nodes are named by
their position in the document. -/
structure Element where
  /-- Its `classList`. -/
  classes : List String := []
  /-- Its attributes, latest value first. -/
  attrs : List (String × Str) := []
  /-- Its `textContent`. -/
  text : Str := []
  /-- Its `children`, in document order. -/
  children : List Nat := []
  /-- The number `parseFloat` reads from its `data-speed` attribute; `none` when the
  attribute is absent or not a number. -/
  dataSpeed : Option ℚ := none
  /-- Inline `style.width`, when set. -/
  width : Option Str := none
  /-- Inline `style.transition`, when set. -/
  transition : Option Str := none
  /-- Inline `style.opacity`, when set. -/
  opacity : Option Str := none
  /-- Inline `style.display`, when set. -/
  display : Option String := none
  /-- Inline `style.transform` when it is `translateY(…px)`: the offset. -/
  translateY : Option ℚ := none
  /-- Whether the selector `.stat h3` matches the element. -/
  isStatHeading : Bool := false
  /-- Whether the selector `.floating-shapes .shape` matches the element. -/
  isFloatingShape : Bool := false
  /-- Whether the element is a `section`. -/
  isSection : Bool := false

/-- `element.getAttribute(name)`; `none` is `null`. -/
def Element.getAttribute (e : Element) (name : String) : Option Str :=
  (e.attrs.find? (fun a => a.1 == name)).map (fun a => a.2)

/-- `element.setAttribute(name, value)`. -/
def Element.setAttribute (e : Element) (name : String) (value : Str) : Element :=
  { e with attrs := (name, value) :: e.attrs.filter (fun a => a.1 != name) }

/-- `element.classList.contains(c)`. -/
def Element.hasClass (e : Element) (c : String) : Bool := e.classes.contains c

/-- `element.classList.add(c)`. -/
def Element.addClass (e : Element) (c : String) : Element :=
  if e.classes.contains c then e else { e with classes := e.classes ++ [c] }

/-- `element.classList.remove(c)`. -/
def Element.removeClass (e : Element) (c : String) : Element :=
  { e with classes := e.classes.filter (fun d => d != c) }

/-- The `delay` read by the observer callback:
`parseInt(element.getAttribute('data-aos-delay')) || 0`. -/
def triggerDelay (e : Element) : Int :=
  orDefault (parseInt (attrString (e.getAttribute "data-aos-delay"))) 0

/-- The `animationType` read by the observer callback:
`element.getAttribute('data-aos') || 'fade-up'`. -/
def animationType (e : Element) : Str :=
  match e.getAttribute "data-aos" with
  | some s => if s = [] then "fade-up".toList else s
  | none => "fade-up".toList

/-- The `target` of `animateCounter`:
`parseInt(element.getAttribute('data-target')) || 0`. -/
def counterTarget (e : Element) : Int :=
  orDefault (parseInt (attrString (e.getAttribute "data-target"))) 0

/-- The `duration` of `animateCounter`:
`parseInt(element.getAttribute('data-duration')) || 2000`. -/
def counterDuration (e : Element) : Int :=
  orDefault (parseInt (attrString (e.getAttribute "data-duration"))) 2000

/-- The `start` of `animateCounter`: `parseInt(element.textContent) || 0`. -/
def counterStart (e : Element) : Int :=
  orDefault (parseInt e.text) 0

/-- The string starts, after optional white space and one optional sign, with a
decimal digit: it has a leading integer. -/
def LeadingInteger (s : Str) : Prop :=
  ∃ ws sign d rest, s = ws ++ sign ++ d :: rest ∧ (∀ c ∈ ws, isWhiteSpace c = true) ∧
    (sign = [] ∨ sign = ['+'] ∨ sign = ['-']) ∧ isDigit d = true

/-- The number written by a run of decimal digit characters. -/
def decimalValue (ds : Str) : Nat :=
  ds.foldl (fun acc c => acc * 10 + (c.toNat - 48)) 0

/-- The integer written by a sign and a run of decimal digits. -/
def signedValue (sign ds : Str) : Int :=
  if sign = ['-'] then -(decimalValue ds : Int) else (decimalValue ds : Int)

/-- The class `[0-9a-fA-F]`. -/
def isHexDigit (c : Char) : Bool :=
  isDigit c || (97 ≤ c.toNat && c.toNat ≤ 102) || (65 ≤ c.toNat && c.toNat ≤ 70)

/-- The value of a hexadecimal digit character. -/
def hexDigit (c : Char) : Nat :=
  if c.toNat ≤ 57 then c.toNat - 48 else if c.toNat ≤ 70 then c.toNat - 55 else c.toNat - 87

/-- The number written by a run of hexadecimal digit characters. -/
def hexValue (hs : Str) : Nat :=
  hs.foldl (fun acc c => acc * 16 + hexDigit c) 0

/-- The integer written by a sign and a run of hexadecimal digits. -/
def signedHexValue (sign hs : Str) : Int :=
  if sign = ['-'] then -(hexValue hs : Int) else (hexValue hs : Int)

/-- The shape `white space, optional sign, decimal digits, rest` of a string with a
leading decimal integer; the form `0x…`, which `parseInt` reads as hexadecimal,
is left out. -/
def DecimalShape (ws sign ds rest : Str) : Prop :=
  (∀ c ∈ ws, isWhiteSpace c = true) ∧ (sign = [] ∨ sign = ['+'] ∨ sign = ['-']) ∧
  ds ≠ [] ∧ (∀ c ∈ ds, isDigit c = true) ∧
  (∀ c, rest.head? = some c → isDigit c = false) ∧
  ¬ (ds = ['0'] ∧ (rest.head? = some 'x' ∨ rest.head? = some 'X'))

/-- The shape `white space, optional sign, 0x or 0X, hexadecimal digits, rest`: the
string is `ws ++ sign ++ '0' :: x :: hs ++ rest`. -/
def HexShape (ws sign : Str) (x : Char) (hs rest : Str) : Prop :=
  (∀ c ∈ ws, isWhiteSpace c = true) ∧ (sign = [] ∨ sign = ['+'] ∨ sign = ['-']) ∧
  (x = 'x' ∨ x = 'X') ∧ hs ≠ [] ∧ (∀ c ∈ hs, isHexDigit c = true) ∧
  (∀ c, rest.head? = some c → isHexDigit c = false)

/-- The shape `white space, optional sign, 0x or 0X, rest` with no hexadecimal digit
after the prefix: the string is `ws ++ sign ++ '0' :: x :: rest`. -/
def BareHexPrefix (ws sign : Str) (x : Char) (rest : Str) : Prop :=
  (∀ c ∈ ws, isWhiteSpace c = true) ∧ (sign = [] ∨ sign = ['+'] ∨ sign = ['-']) ∧
  (x = 'x' ∨ x = 'X') ∧ (∀ c, rest.head? = some c → isHexDigit c = false)

/-- An element with the given attributes and nothing else. -/
def elementWithAttrs (attrs : List (String × String)) : Element :=
  { attrs := attrs.map (fun a => (a.1, a.2.toList)) }

/-! ## `animateCounter` -/

/-- The closure of `animateCounter`: its constants, the running value and the
state of its interval timer. -/
structure CounterTimer where
  /-- The constant `target`. -/
  target : ℤ
  /-- The constant `increment`. -/
  increment : ℚ
  /-- The variable `current`. -/
  current : ℚ
  /-- Whether the interval timer is still set (`clearInterval` not yet called). -/
  running : Bool
  /-- The number last written to `textContent` by the timer, if it has run. -/
  shown : Option ℤ

/-- The call `animateCounter(element)` up to `setInterval`; `rnd` is the rounding
of the arithmetic (`roundDouble` in JavaScript, `id` for exact arithmetic). -/
def animateCounter (rnd : ℚ → ℚ) (e : Element) : CounterTimer :=
  { target := counterTarget e
    increment := rnd ((counterTarget e : ℚ) / rnd ((counterDuration e : ℚ) / 16))
    current := (counterStart e : ℚ)
    running := true
    shown := none }

/-- One run of the interval callback, 16 ms after the previous one; a cleared
timer does not run. -/
def CounterTimer.tick (rnd : ℚ → ℚ) (t : CounterTimer) : CounterTimer :=
  if t.running then
    if (t.target : ℚ) ≤ rnd (t.current + t.increment) then
      { t with current := t.target, running := false, shown := some ⌊(t.target : ℚ)⌋ }
    else
      { t with current := rnd (t.current + t.increment),
               shown := some ⌊rnd (t.current + t.increment)⌋ }
  else t

/-- The state after `n` periods of the timer. -/
def CounterTimer.ticks (rnd : ℚ → ℚ) : Nat → CounterTimer → CounterTimer
  | 0, t => t
  | n + 1, t => (CounterTimer.ticks rnd n t).tick rnd

/-- The running value after `k` additions of the increment, clamping left out. -/
def runningValue (rnd : ℚ → ℚ) (start increment : ℚ) : Nat → ℚ
  | 0 => start
  | k + 1 => rnd (runningValue rnd start increment k + increment)

/-- A counter element as the page writes it: its text, its `data-target` and,
when given, its `data-duration`. -/
def counterElement (text target : String) (duration : Option String) : Element :=
  { classes := ["counter"]
    attrs := ("data-target", target.toList) ::
      (match duration with
       | some d => [("data-duration", d.toList)]
       | none => [])
    text := text.toList }

/-- The counter of the specification's example: text `0`, target `250`, default
duration. -/
def counter250 : Element := counterElement "0" "250" none

/-- A counter whose text is a negative number. -/
def counterNegativeStart : Element := counterElement "-100" "250" none

/-- A counter whose text is a positive number. -/
def counterPositiveStart : Element := counterElement "125" "250" none

/-- A counter with target `1` and a duration of six periods. -/
def counterSixTicks : Element := counterElement "0" "1" (some "96")

/-- A counter with a negative `data-duration`. -/
def counterNegativeDuration : Element := counterElement "0" "250" (some "-2000")

/-- A counter whose text is `-2 ^ 52`, with target `1` and the default duration. -/
def counterAbsorbed : Element := counterElement "-4503599627370496" "1" none

/-! ## The page: observers and timers of `animations.js` -/

/-- `animConfig.staggerDelay`. -/
def staggerDelay : Nat := 100

/-- `animConfig.easing`. -/
def easing : String := "cubic-bezier(0.25, 0.46, 0.45, 0.94)"

/-- A callback handed to `setTimeout` by the scripts. -/
inductive Task where
  /-- The delayed body of the callback of `animationObserver`, for one element. -/
  | trigger (element : Nat)
  /-- The callback of `staggerChildrenAnimation` for one child. -/
  | reveal (child : Nat)
  /-- The callback of `animateProgressBar`. -/
  | setWidth (element : Nat) (width : Str)
deriving DecidableEq, Repr

/-- A pending timer: the time at which it runs and its callback. -/
structure Timer where
  /-- Milliseconds since the page was loaded. -/
  due : Nat
  /-- The callback. -/
  task : Task
deriving DecidableEq, Repr

/-- `setTimeout(task, delay)` called at time `now`; a negative delay counts as `0`. -/
def setTimeout (now : Nat) (delay : Int) (task : Task) : Timer :=
  { due := now + delay.toNat, task := task }

/-- An `IntersectionObserverEntry`. -/
structure Entry where
  /-- The observed element. -/
  target : Nat
  /-- Whether it is in the viewport now. -/
  isIntersecting : Bool
deriving DecidableEq, Repr

/-- The state of the page. -/
structure Page where
  /-- The elements of the document. -/
  doc : List Element := []
  /-- Whether the document has an element with id `typing-text`. -/
  hasTypingText : Bool := false
  /-- The targets of `animationObserver`. -/
  observed : List Nat := []
  /-- The targets of `revealObserver` (`initScrollReveal`). -/
  revealObserved : List Nat := []
  /-- The targets of the observer that `initializeHero` of `main.js` creates. -/
  heroObserved : List Nat := []
  /-- The node list `parallaxElements`. -/
  parallaxElements : List Nat := []
  /-- The pending `setTimeout` timers, in the order they were set. -/
  timers : List Timer := []
  /-- The interval timers started by `animateCounter`, with their element. -/
  counters : List (Nat × CounterTimer) := []
  /-- Every assignment to a `style.width` made from an observer or a timer:
  the time, the element and the value. -/
  widthWrites : List (Nat × Nat × Str) := []

/-- Applies `f` to the element at position `i`. -/
def Page.modify (p : Page) (i : Nat) (f : Element → Element) : Page :=
  { p with doc := p.doc.enum.map (fun x => if x.1 = i then f x.2 else x.2) }

/-- `document.querySelectorAll`, for a selector given as a test on elements. -/
def Page.select (p : Page) (sel : Element → Bool) : List Nat :=
  (p.doc.enum.filter (fun x => sel x.2)).map (fun x => x.1)

/-- `observer.observe(element)`: observing twice is observing once. -/
def observe (targets : List Nat) (i : Nat) : List Nat :=
  if targets.contains i then targets else targets ++ [i]

/-- `observer.unobserve(element)`. -/
def unobserve (targets : List Nat) (i : Nat) : List Nat :=
  targets.filter (fun j => j != i)

/-- `staggerChildrenAnimation(container)` called at time `now`: the timers it sets. -/
def staggerChildrenAnimation (now : Nat) (container : Element) : List Timer :=
  container.children.enum.map
    (fun x => setTimeout now ((x.1 * staggerDelay : Nat) : Int) (Task.reveal x.2))

/-- The callback set by `staggerChildrenAnimation`, on the child. -/
def revealChild (child : Element) : Element :=
  { child with opacity := some "1".toList, translateY := some 0 }

/-- `animateProgressBar(element)` called at time `now`: the element with its
transition set, and the timer that will set its width. -/
def animateProgressBar (now : Nat) (i : Nat) (e : Element) : Element × Timer :=
  let width := match e.getAttribute "data-width" with
    | some w => if w = [] then "0%".toList else w
    | none => "0%".toList
  let duration := orDefault (parseInt (attrString (e.getAttribute "data-duration"))) 1500
  let transition := "width ".toList ++ (toString duration).toList ++ "ms ".toList ++ easing.toList
  ({ e with transition := some transition }, setTimeout now 100 (Task.setWidth i width))

/-- The body that the callback of `animationObserver` delays, run at time `now`
for the element at position `i`. -/
def Page.triggerBody (rnd : ℚ → ℚ) (p : Page) (now : Nat) (i : Nat) : Page :=
  match p.doc[i]? with
  | none => p
  | some e0 =>
    let p1 := p.modify i (fun e => e.addClass "aos-animate")
    let e := e0.addClass "aos-animate"
    let p2 := if e.hasClass "stagger-children"
      then { p1 with timers := p1.timers ++ staggerChildrenAnimation now e } else p1
    let p3 := if e.hasClass "counter"
      then { p2 with counters := p2.counters ++ [(i, animateCounter rnd e)] } else p2
    if e.hasClass "skill-progress"
      then { (p3.modify i (fun e => (animateProgressBar now i e).1)) with
               timers := p3.timers ++ [(animateProgressBar now i e).2] }
      else p3

/-- The callback of `animationObserver` on one entry, at time `now`. -/
def Page.onEntry (p : Page) (now : Nat) (entry : Entry) : Page :=
  if entry.isIntersecting then
    match p.doc[entry.target]? with
    | none => p
    | some element =>
      { p with
        timers := p.timers ++ [setTimeout now (triggerDelay element) (Task.trigger entry.target)]
        observed := unobserve p.observed entry.target }
  else p

/-- The callback of `animationObserver` on the entries of one notification. -/
def Page.animationCallback (p : Page) (now : Nat) (entries : List Entry) : Page :=
  entries.foldl (fun q entry => q.onEntry now entry) p

/-- A notification of `animationObserver` at time `now`: the browser reports the
entries of the elements that are observed at that time. -/
def Page.intersect (p : Page) (now : Nat) (entries : List Entry) : Page :=
  p.animationCallback now (entries.filter (fun entry => p.observed.contains entry.target))

/-- A sequence of notifications of `animationObserver`, each with its time. -/
def Page.intersections (p : Page) (batches : List (Nat × List Entry)) : Page :=
  batches.foldl (fun q b => q.intersect b.1 b.2) p

/-- The callback of `revealObserver` on one entry. -/
def Page.onRevealEntry (p : Page) (entry : Entry) : Page :=
  if entry.isIntersecting then
    { (p.modify entry.target (fun e => e.addClass "revealed")) with
      revealObserved := unobserve p.revealObserved entry.target }
  else p

/-- A notification of `revealObserver`. -/
def Page.revealIntersect (p : Page) (entries : List Entry) : Page :=
  (entries.filter (fun entry => p.revealObserved.contains entry.target)).foldl
    (fun q entry => q.onRevealEntry entry) p

/-- The callback of the observer of `initializeHero` (`main.js`) on one entry:
it sets the width and keeps observing.  An absent `data-width` leaves the empty
width. -/
def Page.onHeroEntry (p : Page) (now : Nat) (entry : Entry) : Page :=
  if entry.isIntersecting then
    match p.doc[entry.target]? with
    | none => p
    | some element =>
      let width := (element.getAttribute "data-width").getD []
      { (p.modify entry.target (fun e => { e with width := some width })) with
        widthWrites := p.widthWrites ++ [(now, entry.target, width)] }
  else p

/-- A notification of the observer of `initializeHero` at time `now`. -/
def Page.heroIntersect (p : Page) (now : Nat) (entries : List Entry) : Page :=
  (entries.filter (fun entry => p.heroObserved.contains entry.target)).foldl
    (fun q entry => q.onHeroEntry now entry) p

/-- Runs the callback of a timer, at the time it is due. -/
def Page.runTask (rnd : ℚ → ℚ) (p : Page) (t : Timer) : Page :=
  match t.task with
  | Task.trigger i => p.triggerBody rnd t.due i
  | Task.reveal c => p.modify c revealChild
  | Task.setWidth i w =>
    { (p.modify i (fun e => { e with width := some w })) with
      widthWrites := p.widthWrites ++ [(t.due, i, w)] }

/-- The first pending timer among those with the least due time, if one is due
by `now`. -/
def nextDue (now : Nat) (timers : List Timer) : Option Timer :=
  timers.foldl (fun best t =>
    if t.due ≤ now then
      match best with
      | none => some t
      | some b => if t.due < b.due then some t else some b
    else best) none

/-- Runs the timers due by `now`, earliest first, those set on the way included;
`fuel` bounds the number of callbacks run. -/
def Page.advance (rnd : ℚ → ℚ) : Nat → Nat → Page → Page
  | 0, _, p => p
  | fuel + 1, now, p =>
    match nextDue now p.timers with
    | none => p
    | some t => Page.advance rnd fuel now (({ p with timers := p.timers.erase t }).runTask rnd t)

/-! ### Initialisation (`DOMContentLoaded` of `animations.js`) -/

/-- `initScrollAnimations`: creates `animationObserver`, marks the elements with a
`data-aos` attribute and observes them, the stagger containers, the counters and
the progress bars. -/
def initScrollAnimations (p : Page) : Page :=
  let p1 : Page := { p with
    observed := []
    doc := p.doc.map (fun e =>
      match e.getAttribute "data-aos" with
      | some kind => (e.addClass "aos-element").addClass ("aos-" ++ String.mk kind)
      | none => e) }
  let o1 := (p1.select (fun e => (e.getAttribute "data-aos").isSome)).foldl observe p1.observed
  let o2 := (p1.select (fun e => e.hasClass "stagger-children")).foldl observe o1
  let o3 := (p1.select (fun e => e.hasClass "counter")).foldl observe o2
  let o4 := (p1.select (fun e => e.hasClass "skill-progress")).foldl observe o3
  { p1 with observed := o4 }

/-- `initParallaxElements`; `random i` is the value `Math.random()` returns for
the shape at position `i`.  The speed is computed in double arithmetic: the
product and the sum are rounded, and the literal `0.2` is the double nearest to
`1 / 5`.  `setAttribute` stores the decimal string of that double, which
`parseFloat` reads back as the same double. -/
def initParallaxElements (random : Nat → ℚ) (p : Page) : Page :=
  if (p.select (fun e => e.hasClass "parallax-element")).length = 0 then
    let p1 : Page := { p with doc := p.doc.enum.map (fun x =>
      if x.2.isFloatingShape then
        { (x.2.addClass "parallax-element") with
          dataSpeed := some (roundDouble (roundDouble (random x.1 * (1 / 2)) +
            roundDouble (1 / 5))) }
      else x.2) }
    { p1 with parallaxElements := p1.select (fun e => e.hasClass "parallax-element") }
  else { p with parallaxElements := p.select (fun e => e.hasClass "parallax-element") }

/-- `initCounterAnimations`: a `.stat h3` element whose digits form a positive
number becomes a counter. -/
def initCounterAnimations (p : Page) : Page :=
  { p with doc := p.doc.map (fun e =>
      if e.isStatHeading then
        match parseInt (keepDigits e.text) with
        | some number =>
          if 0 < number then
            { (e.addClass "counter").setAttribute "data-target" (toString number).toList with
              text := "0".toList }
          else e
        | none => e
      else e) }

/-- `initProgressBars`. -/
def initProgressBars (p : Page) : Page :=
  { p with doc := p.doc.map (fun e =>
      if e.hasClass "skill-progress" then
        (({ e with width := some "0%".toList } : Element).setAttribute "data-aos"
          "fade-right".toList).setAttribute "data-aos-delay" "200".toList
      else e) }

/-- `initScrollReveal`: every section but the hero gets the class `scroll-reveal`
and is observed by `revealObserver`. -/
def initScrollReveal (p : Page) : Page :=
  let sections := p.select (fun e => e.isSection && !e.hasClass "hero")
  { p with
    doc := p.doc.map (fun e =>
      if e.isSection && !e.hasClass "hero" then e.addClass "scroll-reveal" else e)
    revealObserved := sections.foldl observe [] }

/-- The first `DOMContentLoaded` handler of `animations.js`, in its order.
`initHoverAnimations` and `bindScrollEvents` only add event listeners and leave
this state as it is. -/
def domContentLoaded (random : Nat → ℚ) (p : Page) : Page :=
  initScrollReveal (initProgressBars (initCounterAnimations
    (initParallaxElements random (initScrollAnimations p))))

/-- The part of `initializeHero` (`main.js`) that observes the skill bars; the
function returns before it when there is no `typing-text` element. -/
def initializeHero (p : Page) : Page :=
  if p.hasTypingText then
    { p with heroObserved := (p.select (fun e => e.hasClass "skill-progress")).foldl observe [] }
  else p

/-! ### Parallax and the scroll loop -/

/-- The `speed` of `updateParallax`: `parseFloat(data-speed) || 0.5`. -/
def parallaxSpeed (e : Element) : ℚ :=
  match e.dataSpeed with
  | some s => if s = 0 then 1 / 2 else s
  | none => 1 / 2

/-- `updateParallax` with the global `scrollY` as argument. -/
def updateParallax (rnd : ℚ → ℚ) (scrollY : ℚ) (p : Page) : Page :=
  p.parallaxElements.foldl
    (fun q i => q.modify i
      (fun e => { e with translateY := some (-(rnd (scrollY * parallaxSpeed e))) }))
    p

/-- The page with the globals of the scroll loop. -/
structure Animations where
  /-- The page. -/
  page : Page
  /-- The global `scrollY`. -/
  scrollY : ℚ := 0
  /-- The global `ticking`. -/
  ticking : Bool := false
  /-- The callbacks `updateAnimations` handed to `requestAnimationFrame` and not yet run. -/
  frames : Nat := 0
  /-- How many times `updateAnimations` has run. -/
  updates : Nat := 0

/-- `requestTick`. -/
def requestTick (s : Animations) : Animations :=
  if !s.ticking then { s with frames := s.frames + 1, ticking := true } else s

/-- `updateAnimations`, with `window.pageYOffset` as argument.  The navbar and the
scroll indicator, whose styles it also writes, are not part of the state. -/
def updateAnimations (rnd : ℚ → ℚ) (pageYOffset : ℚ) (s : Animations) : Animations :=
  { s with
    scrollY := pageYOffset
    page := updateParallax rnd pageYOffset s.page
    ticking := false
    updates := s.updates + 1 }

/-- What happens on the scroll loop. -/
inductive LoopEvent where
  /-- A scroll event that the throttle lets through: `requestTick()`. -/
  | scroll
  /-- The browser runs one queued animation-frame callback. -/
  | frame (pageYOffset : ℚ)
  /-- The debounced resize handler runs: it clears the transforms of the parallax
  elements and calls `updateAnimations()`. -/
  | resize (pageYOffset : ℚ)

/-- One event of the scroll loop. -/
def Animations.step (rnd : ℚ → ℚ) (s : Animations) : LoopEvent → Animations
  | LoopEvent.scroll => requestTick s
  | LoopEvent.frame y =>
    if s.frames = 0 then s else updateAnimations rnd y { s with frames := s.frames - 1 }
  | LoopEvent.resize y =>
    let cleared := s.page.parallaxElements.foldl
      (fun q i => q.modify i (fun e => { e with translateY := none })) s.page
    updateAnimations rnd y { s with page := cleared }

/-- A sequence of events of the scroll loop. -/
def Animations.run (rnd : ℚ → ℚ) (s : Animations) (events : List LoopEvent) : Animations :=
  events.foldl (Animations.step rnd) s

/-! ## `throttle` and `debounce` -/

/-- The closure of `throttle(func, limit)`. -/
structure Throttle where
  /-- The variable `inThrottle` (`undefined` is falsy). -/
  inThrottle : Bool := false
  /-- The due times of the pending timers that reset `inThrottle`. -/
  resets : List Nat := []
  /-- The times at which `func` was called. -/
  executed : List Nat := []
deriving DecidableEq, Repr

/-- The reset timers due by `now` run. -/
def Throttle.settle (s : Throttle) (now : Nat) : Throttle :=
  if s.resets.any (fun due => due ≤ now) then
    { s with inThrottle := false, resets := s.resets.filter (fun due => now < due) }
  else s

/-- Whether a call of the throttled function at time `now` calls `func`. -/
def Throttle.executes (s : Throttle) (now : Nat) : Bool :=
  !(s.settle now).inThrottle

/-- A call of the throttled function at time `now`. -/
def Throttle.call (limit : Nat) (s : Throttle) (now : Nat) : Throttle :=
  if !(s.settle now).inThrottle then
    { inThrottle := true
      resets := (s.settle now).resets ++ [now + limit]
      executed := (s.settle now).executed ++ [now] }
  else s.settle now

/-- The calls at the given times, from a fresh closure. -/
def Throttle.run (limit : Nat) (calls : List Nat) : Throttle :=
  calls.foldl (Throttle.call limit) {}

/-- The `limit` of the scroll handler in `bindScrollEvents`. -/
def scrollLimit : Nat := 16

/-- The closure of `debounce(func, wait)`; `α` is the type of the arguments. -/
structure Debounce (α : Type) where
  /-- The timer the handle `timeout` refers to while it is pending: its due time
  and the arguments its callback `later` has captured. -/
  timeout : Option (Nat × α) := none
  /-- The calls of `func`: time and arguments. -/
  executed : List (Nat × α) := []

/-- The pending timer runs if it is due by `now`: `later` calls `func(...args)`. -/
def Debounce.settle {α : Type} (s : Debounce α) (now : Nat) : Debounce α :=
  match s.timeout with
  | some (due, args) =>
    if due ≤ now then { timeout := none, executed := s.executed ++ [(due, args)] } else s
  | none => s

/-- A call of the debounced function at time `now`: `clearTimeout(timeout)`, then
`timeout = setTimeout(later, wait)`. -/
def Debounce.call {α : Type} (wait : Nat) (s : Debounce α) (c : Nat × α) : Debounce α :=
  { (s.settle c.1) with timeout := some (c.1 + wait, c.2) }

/-- The calls at the given times with the given arguments, from a fresh closure. -/
def Debounce.run {α : Type} (wait : Nat) (calls : List (Nat × α)) : Debounce α :=
  calls.foldl (Debounce.call wait) {}

/-- The `wait` of the resize handler. -/
def resizeWait : Nat := 250

/-! ## The contact form (`main.js`) -/

/-- A character class with a repetition count, `[…]{min,max}`. -/
structure Quantified where
  /-- The class. -/
  cls : Char → Bool
  /-- The least number of repetitions. -/
  min : Nat
  /-- The greatest number of repetitions; `none` for no bound. -/
  max : Option Nat

/-- Whether the whole string matches the sequence of quantified classes: these
are the regular expressions `^…$` the form uses. -/
def matchesSeq : List Quantified → Str → Bool
  | [], s => s.isEmpty
  | q :: qs, s =>
    (List.range (s.length + 1)).any (fun k =>
      decide (q.min ≤ k) &&
      (match q.max with
       | some m => decide (k ≤ m)
       | none => true) &&
      (s.take k).all q.cls && matchesSeq qs (s.drop k))

/-- The class `[^\s@]`. -/
def notSpaceNorAt (c : Char) : Bool := !isWhiteSpace c && c != '@'

/-- `emailRegex`: `/^[^\s@]+@[^\s@]+\.[^\s@]+$/`. -/
def emailRegex : List Quantified :=
  [ { cls := notSpaceNorAt, min := 1, max := none },
    { cls := fun c => c == '@', min := 1, max := some 1 },
    { cls := notSpaceNorAt, min := 1, max := none },
    { cls := fun c => c == '.', min := 1, max := some 1 },
    { cls := notSpaceNorAt, min := 1, max := none } ]

/-- The class `[1-9]`. -/
def isNonZeroDigit (c : Char) : Bool := 49 ≤ c.toNat && c.toNat ≤ 57

/-- `phoneRegex`: `/^[\+]?[1-9][\d]{0,15}$/`. -/
def phoneRegex : List Quantified :=
  [ { cls := fun c => c == '+', min := 0, max := some 1 },
    { cls := isNonZeroDigit, min := 1, max := some 1 },
    { cls := isDigit, min := 0, max := some 15 } ]

/-- The tag of a form control. -/
inductive FieldTag where
  | input
  | textarea
  | select
deriving DecidableEq, Repr

/-- A control of the contact form. -/
structure Field where
  /-- Its tag. -/
  tag : FieldTag := FieldTag.input
  /-- Its `name`. -/
  name : String
  /-- Its `value`. -/
  value : Str := []
  /-- Whether it has the attribute `required`. -/
  required : Bool := false
  /-- Its `classList`. -/
  classes : List String := []
  /-- The text of the element with id `<name>-error`; `none` when there is no
  such element. -/
  errorText : Option String := none
deriving DecidableEq, Repr

/-- `clearFieldError`. -/
def clearFieldError (f : Field) : Field :=
  { f with
    errorText := f.errorText.map (fun _ => "")
    classes := f.classes.filter (fun c => c != "error") }

/-- `showFieldError`. -/
def showFieldError (f : Field) (message : String) : Field :=
  { f with
    errorText := f.errorText.map (fun _ => message)
    classes := if f.classes.contains "error" then f.classes else f.classes ++ ["error"] }

/-- `getFieldLabel`. -/
def getFieldLabel (fieldName : String) : String :=
  match [("name", "Name"), ("email", "Email"), ("phone", "Phone"), ("message", "Message"),
      ("service", "Service"), ("budget", "Budget")].lookup fieldName with
  | some label => if label = "" then fieldName else label
  | none => fieldName

/-- The pair `(isValid, errorMessage)` after the four checks of `validateField`,
in their order. -/
def fieldVerdict (f : Field) : Bool × String :=
  let value := trim f.value
  let v1 : Bool × String :=
    if f.required && value.isEmpty then (false, getFieldLabel f.name ++ " is required.")
    else (true, "")
  let v2 : Bool × String :=
    if f.name == "email" && !value.isEmpty && !matchesSeq emailRegex value then
      (false, "Please enter a valid email address.")
    else v1
  let v3 : Bool × String :=
    if f.name == "phone" && !value.isEmpty &&
        !matchesSeq phoneRegex (removeWhiteSpace value) then
      (false, "Please enter a valid phone number.")
    else v2
  if f.name == "message" && !value.isEmpty && decide (value.length < 10) then
    (false, "Message must be at least 10 characters long.")
  else v3

/-- `validateField(field)`: the result and the field as it is left. -/
def validateField (f : Field) : Bool × Field :=
  if !(fieldVerdict f).1 then (false, showFieldError (clearFieldError f) (fieldVerdict f).2)
  else (true, clearFieldError f)

/-- The contact form and what `handleContactForm` changes around it. -/
structure ContactForm where
  /-- The controls of the form, in document order. -/
  fields : List Field
  /-- `submitBtn.disabled`. -/
  submitDisabled : Bool := false
  /-- `submitBtn.innerHTML`. -/
  submitLabel : String := "Send Message"
  /-- The notification shown by the call: message and type. -/
  notification : Option (String × String) := none
  /-- Whether the 2000 ms timer of the simulated submission is pending. -/
  sending : Bool := false
deriving DecidableEq, Repr

/-- The selector `input[required], textarea[required]`. -/
def isRequiredInput (f : Field) : Bool :=
  f.required && (f.tag == FieldTag.input || f.tag == FieldTag.textarea)

/-- `handleContactForm(form)`, up to the timer of the simulated submission. -/
def handleContactForm (form : ContactForm) : ContactForm :=
  let validated := form.fields.map (fun f => if isRequiredInput f then (validateField f).2 else f)
  let isFormValid := (form.fields.filter isRequiredInput).all (fun f => (validateField f).1)
  if !isFormValid then
    { form with
      fields := validated
      notification := some ("Please fix the errors below.", "error") }
  else
    { form with
      fields := validated
      submitLabel := "<i class=\"fas fa-spinner fa-spin\"></i> Sending..."
      submitDisabled := true
      sending := true }

/-- The callback of the 2000 ms timer of `handleContactForm`. -/
def submissionDone (original : ContactForm) (form : ContactForm) : ContactForm :=
  { form with
    notification := some
      ("Thank you! Your message has been sent successfully. I'll get back to you soon.",
       "success")
    fields := form.fields.map (fun f => { f with value := [] })
    submitLabel := original.submitLabel
    submitDisabled := false
    sending := false }

/-! ## FAQ, notifications and project filter (`main.js`) -/

/-- The click handler that `initializeFAQ` puts on the question of the item at
position `i`; the items are the `.faq-item` elements. -/
def faqClick (items : List Element) (i : Nat) : List Element :=
  let isActive := match items[i]? with
    | some item => item.hasClass "active"
    | none => false
  let closed := items.map (fun faq => faq.removeClass "active")
  if !isActive then closed.enum.map (fun x => if x.1 = i then x.2.addClass "active" else x.2)
  else closed

/-- The names of the properties that the object literal `icons` inherits from
`Object.prototype`. -/
def objectPrototypeKeys : List String :=
  ["constructor", "__defineGetter__", "__defineSetter__", "hasOwnProperty",
    "__lookupGetter__", "__lookupSetter__", "isPrototypeOf", "propertyIsEnumerable",
    "toString", "valueOf", "__proto__", "toLocaleString"]

/-- What `getNotificationIcon` returns. -/
inductive Icon where
  /-- A string of the table `icons`. -/
  | text (name : String)
  /-- The member of `Object.prototype` under this key: a function or an object,
  which is truthy and is not a string of the table. -/
  | inherited (key : String)
deriving DecidableEq, Repr

/-- `getNotificationIcon`: `icons[type] || icons.info`.  The lookup finds the four
keys of the table first and the inherited members of `Object.prototype` after
them; every value it finds is truthy, and a key it does not find gives
`undefined`, for which `icons.info` is returned. -/
def getNotificationIcon (type : String) : Icon :=
  match [("success", "fa-check-circle"), ("error", "fa-exclamation-circle"),
      ("warning", "fa-exclamation-triangle"), ("info", "fa-info-circle")].lookup type with
  | some icon => Icon.text icon
  | none => if type ∈ objectPrototypeKeys then Icon.inherited type else Icon.text "fa-info-circle"

/-- A `.notification` element made by `showNotification`. -/
structure Notification where
  /-- Which call of `showNotification` made it. -/
  id : Nat
  /-- Its message. -/
  message : String
  /-- Its type, as in the class `notification-<type>`. -/
  type : String
  /-- The icon that `getNotificationIcon` gave for its markup. -/
  icon : Icon
  /-- Whether its `style.animation` has been set to the slide-out. -/
  leaving : Bool := false
deriving DecidableEq, Repr

/-- A timer set by `showNotification`. -/
inductive NotificationTimer where
  /-- The 5000 ms timer of the notification with this id. -/
  | autoRemove (id : Nat)
  /-- The 300 ms timer that removes the notification with this id. -/
  | remove (id : Nat)
deriving DecidableEq, Repr

/-- The notifications of the document and the timers of `showNotification`. -/
structure Toasts where
  /-- The `.notification` elements attached to the document, in document order. -/
  attached : List Notification := []
  /-- The number of calls of `showNotification` so far. -/
  shown : Nat := 0
  /-- The pending timers. -/
  timers : List NotificationTimer := []
deriving DecidableEq, Repr

/-- `showNotification(message, type)`. -/
def showNotification (s : Toasts) (message type : String) : Toasts :=
  let remaining := match s.attached with
    | _ :: rest => rest
    | [] => []
  { attached := remaining ++
      [{ id := s.shown, message := message, type := type, icon := getNotificationIcon type }]
    shown := s.shown + 1
    timers := s.timers ++ [NotificationTimer.autoRemove s.shown] }

/-- What can happen to the notifications. -/
inductive ToastEvent where
  /-- A call `showNotification(message, type)`. -/
  | notify (message type : String)
  /-- A click on the close button of the notification with this id. -/
  | close (id : Nat)
  /-- The pending timer at this position runs. -/
  | fire (position : Nat)
deriving DecidableEq, Repr

/-- Runs the callback of a timer of `showNotification`. -/
def Toasts.runTimer (s : Toasts) : NotificationTimer → Toasts
  | NotificationTimer.autoRemove id =>
    if s.attached.any (fun n => n.id == id) then
      { s with
        attached := s.attached.map (fun n => if n.id = id then { n with leaving := true } else n)
        timers := s.timers ++ [NotificationTimer.remove id] }
    else s
  | NotificationTimer.remove id =>
    { s with attached := s.attached.filter (fun n => n.id != id) }

/-- One event. -/
def Toasts.step (s : Toasts) : ToastEvent → Toasts
  | ToastEvent.notify message type => showNotification s message type
  | ToastEvent.close id => { s with attached := s.attached.filter (fun n => n.id != id) }
  | ToastEvent.fire position =>
    match s.timers[position]? with
    | some t => ({ s with timers := s.timers.eraseIdx position }).runTimer t
    | none => s

/-- A sequence of events. -/
def Toasts.run (s : Toasts) (events : List ToastEvent) : Toasts :=
  events.foldl Toasts.step s

/-- The project section: the `.filter-btn` buttons, the `.project-card` cards,
the pending hide timers (due time and card) and `currentProjectFilter`. -/
structure Projects where
  /-- The filter buttons. -/
  buttons : List Element
  /-- The project cards. -/
  cards : List Element
  /-- The pending 300 ms timers: due time and position of the card. -/
  timers : List (Nat × Nat) := []
  /-- The global `currentProjectFilter`. -/
  currentProjectFilter : Option Str := some "all".toList

/-- The hide timers due by `now` run: each sets `display` to `none`. -/
def Projects.settle (s : Projects) (now : Nat) : Projects :=
  { s with
    cards := s.cards.enum.map (fun x =>
      if s.timers.any (fun t => t.1 ≤ now && t.2 == x.1) then
        { x.2 with display := some "none" } else x.2)
    timers := s.timers.filter (fun t => now < t.1) }

/-- The click handler of the filter button at position `b`, at time `now`. -/
def Projects.click (s : Projects) (now : Nat) (b : Nat) : Projects :=
  match s.buttons[b]? with
  | none => s
  | some button =>
    let filter := button.getAttribute "data-filter"
    let shows (card : Element) : Bool :=
      filter == some "all".toList || card.getAttribute "data-category" == filter
    { buttons := (s.buttons.map (fun btn => btn.removeClass "active")).enum.map
        (fun x => if x.1 = b then x.2.addClass "active" else x.2)
      cards := s.cards.map (fun card =>
        if shows card then { (card.removeClass "hidden") with display := some "block" }
        else card.addClass "hidden")
      timers := s.timers ++
        ((s.cards.enum.filter (fun x => !shows x.2)).map (fun x => (now + 300, x.1)))
      currentProjectFilter := filter }

/-- Clicks at the given times on the given buttons; the timers due before a click
run first. -/
def Projects.run (s : Projects) (clicks : List (Nat × Nat)) : Projects :=
  clicks.foldl (fun q c => (q.settle c.1).click c.1 c.2) s

/-- All pending hide timers run. -/
def Projects.finish (s : Projects) : Projects :=
  { s with
    cards := s.cards.enum.map (fun x =>
      if s.timers.any (fun t => t.2 == x.1) then { x.2 with display := some "none" } else x.2)
    timers := [] }

/-! ## Measures and example inputs used in the statements -/

/-- How many pending timers hold the trigger body of the element at position `i`. -/
def triggerCount (p : Page) (i : Nat) : Nat :=
  (p.timers.filter (fun t => t.task = Task.trigger i)).length

/-- The pending timers that will set the width of the element at position `i`. -/
def widthTimers (p : Page) (i : Nat) : List Timer :=
  p.timers.filter (fun t =>
    match t.task with
    | Task.setWidth j _ => j = i
    | _ => false)

/-- A page with one stat heading `<h3>50+</h3>` inside a `.stat` block. -/
def statPage : Page :=
  { doc := [{ text := "50+".toList, isStatHeading := true }] }

/-- A page with a `typing-text` element and one skill bar with `data-width="80%"`. -/
def skillPage : Page :=
  { doc := [{ classes := ["skill-progress"], attrs := [("data-width", "80%".toList)] }]
    hasTypingText := true }

/-- The skill page after both scripts have initialised. -/
def skillPageReady : Page :=
  initializeHero (domContentLoaded (fun _ => 0) skillPage)

/-- The skill bar enters the viewport at 1000 ms, leaves it, and enters it again
at 5000 ms; both observers are notified each time and the timers run. -/
def skillPageVisited : Page :=
  let p1 := (skillPageReady.heroIntersect 1000 [⟨0, true⟩]).intersect 1000 [⟨0, true⟩]
  let p2 := Page.advance id 10 2000 p1
  let p3 := (p2.heroIntersect 3000 [⟨0, false⟩]).intersect 3000 [⟨0, false⟩]
  let p4 := (p3.heroIntersect 5000 [⟨0, true⟩]).intersect 5000 [⟨0, true⟩]
  Page.advance id 10 6000 p4

/-- A page whose only parallax element has `data-speed="0"`. -/
def zeroSpeedPage : Page :=
  { doc := [{ classes := ["parallax-element"], dataSpeed := some 0 }]
    parallaxElements := [0] }

/-- A page whose only element is a floating shape, with no parallax element. -/
def shapePage : Page :=
  { doc := [{ isFloatingShape := true }] }

/-- Whether an event of the scroll loop is a run of the resize handler. -/
def LoopEvent.isResize : LoopEvent → Bool
  | LoopEvent.resize _ => true
  | _ => false

/-- The scroll loop of an empty page, before any event. -/
def idleLoop : Animations := { page := {} }

/-- The first element enters the viewport, leaves it and enters it again. -/
def reentry : List (Nat × List Entry) :=
  [(1000, [⟨0, true⟩]), (3000, [⟨0, false⟩]), (5000, [⟨0, true⟩])]

/-- A non-empty run of characters that are neither white space nor `@`. -/
def PlainRun (s : Str) : Prop :=
  s ≠ [] ∧ ∀ c ∈ s, isWhiteSpace c = false ∧ c ≠ '@'

/-- The form `run @ run . run` of an e-mail address. -/
def EmailForm (v : Str) : Prop :=
  ∃ x y z, v = x ++ '@' :: (y ++ '.' :: z) ∧ PlainRun x ∧ PlainRun y ∧ PlainRun z

/-- The form of a phone number: an optional `+`, a digit from 1 to 9, then at
most 15 digits. -/
def PhoneForm (w : Str) : Prop :=
  ∃ sign d ds, w = sign ++ d :: ds ∧ (sign = [] ∨ sign = ['+']) ∧
    (49 ≤ d.toNat ∧ d.toNat ≤ 57) ∧ ds.length ≤ 15 ∧ ∀ c ∈ ds, isDigit c = true

/-- A form whose required name is filled in and whose optional e-mail field
holds `abc`. -/
def formWithBadOptionalEmail : ContactForm :=
  { fields :=
      [ { name := "name", value := "Ankit".toList, required := true },
        { name := "email", value := "abc".toList, required := false } ] }

/-- A project section with the filters `all` and `web` and one card of the
category `design`. -/
def designProjects : Projects :=
  { buttons := [{ attrs := [("data-filter", "all".toList)] },
                { attrs := [("data-filter", "web".toList)] }]
    cards := [{ attrs := [("data-category", "design".toList)] }] }

/-- Whether an event is a call of `showNotification`. -/
def ToastEvent.isNotify : ToastEvent → Bool
  | ToastEvent.notify _ _ => true
  | _ => false

/-! ## Rounding to doubles -/

theorem roundHalfEven_intCast (m : ℤ) : roundHalfEven (m : ℚ) = m := by
  simp [roundHalfEven]

/-- Integers below `2 ^ 53` in magnitude are doubles. -/
theorem roundDouble_intCast (z : ℤ) (hz : |z| < 2 ^ 53) : roundDouble (z : ℚ) = z := by
  unfold roundDouble
  by_cases h0 : (z : ℚ) = 0
  · simp [h0]
  rw [if_neg h0]
  have hz0 : z ≠ 0 := by exact_mod_cast h0
  have habs : (1 : ℚ) ≤ |(z : ℚ)| := by
    have : (1 : ℤ) ≤ |z| := Int.one_le_abs hz0
    exact_mod_cast this
  have hpos : (0 : ℚ) < |(z : ℚ)| := lt_of_lt_of_le one_pos habs
  have hlo : 0 ≤ Int.log 2 |(z : ℚ)| := by
    rw [Int.log_of_one_le_right _ habs]
    exact Int.natCast_nonneg _
  have hhi : Int.log 2 |(z : ℚ)| < 53 := by
    rw [← Int.lt_zpow_iff_log_lt (by norm_num) hpos]
    have h : ((|z| : ℤ) : ℚ) < ((2 ^ 53 : ℤ) : ℚ) := by exact_mod_cast hz
    norm_num at h ⊢
    exact h
  obtain ⟨n, hn⟩ : ∃ n : ℕ, (52 : ℤ) - Int.log 2 |(z : ℚ)| = n :=
    ⟨(52 - Int.log 2 |(z : ℚ)|).toNat, by rw [Int.toNat_of_nonneg]; omega⟩
  have hexp : Int.log 2 |(z : ℚ)| - 52 = -(n : ℤ) := by omega
  rw [hexp, zpow_neg, zpow_natCast]
  have h2 : ((2 : ℚ) ^ n) ≠ 0 := by positivity
  have hq : (z : ℚ) / ((2 : ℚ) ^ n)⁻¹ = ((z * 2 ^ n : ℤ) : ℚ) := by
    push_cast
    field_simp
  rw [hq, roundHalfEven_intCast]
  push_cast
  field_simp

/-- Evaluation of `roundDouble` from the binade of its argument. -/
theorem roundDouble_eq (q : ℚ) (e m : ℤ) (hlo : (2 : ℚ) ^ e ≤ |q|) (hhi : |q| < (2 : ℚ) ^ (e + 1))
    (hm : roundHalfEven (q / 2 ^ (e - 52)) = m) : roundDouble q = m * 2 ^ (e - 52) := by
  have hpos : (0 : ℚ) < |q| := lt_of_lt_of_le (by positivity) hlo
  have hq : q ≠ 0 := abs_pos.mp hpos
  have hlog : Int.log 2 |q| = e := by
    have h1 : e ≤ Int.log 2 |q| := (Int.zpow_le_iff_le_log (by norm_num) hpos).mp hlo
    have h2 : Int.log 2 |q| < e + 1 := (Int.lt_zpow_iff_log_lt (by norm_num) hpos).mp hhi
    omega
  unfold roundDouble
  rw [if_neg hq, hlog, hm]

/-- Evaluation of `roundDouble` at a positive number. -/
theorem roundDouble_eq_pos (q : ℚ) (e m : ℤ) (hlo : (2 : ℚ) ^ e ≤ q) (hhi : q < (2 : ℚ) ^ (e + 1))
    (hm : roundHalfEven (q / 2 ^ (e - 52)) = m) : roundDouble q = m * 2 ^ (e - 52) := by
  have hpos : (0 : ℚ) < q := lt_of_lt_of_le (by positivity) hlo
  exact roundDouble_eq q e m (by rwa [abs_of_pos hpos]) (by rwa [abs_of_pos hpos]) hm

theorem roundHalfEven_nonpos {x : ℚ} (hx : x ≤ 0) : roundHalfEven x ≤ 0 := by
  have hf : ⌊x⌋ ≤ 0 := Int.floor_nonpos hx
  unfold roundHalfEven
  rcases hf.lt_or_eq with hlt | heq
  · split_ifs <;> omega
  · have : x - ⌊x⌋ < 1 / 2 := by rw [heq]; simp; linarith
    rw [if_pos this]; exact hf

theorem roundDouble_nonpos {q : ℚ} (hq : q ≤ 0) : roundDouble q ≤ 0 := by
  unfold roundDouble
  split_ifs with h0
  · exact le_rfl
  · have hu : (0 : ℚ) < 2 ^ (Int.log 2 |q| - 52) := by positivity
    have hx : q / 2 ^ (Int.log 2 |q| - 52) ≤ 0 := div_nonpos_of_nonpos_of_nonneg hq hu.le
    have := roundHalfEven_nonpos hx
    have hc : ((roundHalfEven (q / 2 ^ (Int.log 2 |q| - 52)) : ℤ) : ℚ) ≤ 0 := by exact_mod_cast this
    exact mul_nonpos_of_nonpos_of_nonneg hc hu.le

theorem abs_lt_two_pow_53 {z : ℤ} (h1 : -1000000000 < z) (h2 : z < 1000000000) :
    |z| < 2 ^ 53 := by
  rw [abs_lt]
  constructor <;> norm_num <;> omega

theorem roundHalfEven_ge_int {x : ℚ} {N : ℤ} (h : (N : ℚ) ≤ x) : N ≤ roundHalfEven x := by
  have hf : N ≤ ⌊x⌋ := Int.le_floor.mpr h
  unfold roundHalfEven
  split_ifs <;> omega

theorem roundHalfEven_le_int {x : ℚ} {N : ℤ} (h : x ≤ (N : ℚ)) : roundHalfEven x ≤ N := by
  have hfx : (⌊x⌋ : ℚ) ≤ x := Int.floor_le x
  have hf : ⌊x⌋ ≤ N := by exact_mod_cast hfx.trans h
  rcases hf.lt_or_eq with hlt | heq
  · unfold roundHalfEven
    split_ifs <;> omega
  · have hfrac : x - ⌊x⌋ < 1 / 2 := by
      rw [heq]
      linarith
    unfold roundHalfEven
    rw [if_pos hfrac]
    exact hf

theorem roundHalfEven_sub_half_le (x : ℚ) : x - 1 / 2 ≤ roundHalfEven x := by
  have h1 : x < ⌊x⌋ + 1 := Int.lt_floor_add_one x
  unfold roundHalfEven
  split_ifs with h2 h3 h4
  · linarith
  · push_cast; linarith
  · have : x - ⌊x⌋ = 1 / 2 := le_antisymm (not_lt.mp h3) (not_lt.mp h2)
    linarith
  · push_cast; linarith

theorem log_bounds {q : ℚ} (hq : q ≠ 0) :
    (2 : ℚ) ^ Int.log 2 |q| ≤ |q| ∧ |q| < (2 : ℚ) ^ (Int.log 2 |q| + 1) := by
  have hpos : 0 < |q| := abs_pos.mpr hq
  exact ⟨by exact_mod_cast Int.zpow_log_le_self (by norm_num) hpos,
    by exact_mod_cast Int.lt_zpow_succ_log_self (by norm_num : 1 < 2) |q|⟩

/-- A significand of at most 53 bits times a power of two is a double. -/
theorem roundDouble_dyadic (z k : ℤ) (hz : |z| < 2 ^ 53) :
    roundDouble ((z : ℚ) * 2 ^ k) = (z : ℚ) * 2 ^ k := by
  by_cases h0 : z = 0
  · simp [roundDouble, h0]
  have hz0 : (z : ℚ) ≠ 0 := by exact_mod_cast h0
  have h2k : (0 : ℚ) < 2 ^ k := by positivity
  have hq : (z : ℚ) * 2 ^ k ≠ 0 := mul_ne_zero hz0 h2k.ne'
  have hpos : (0 : ℚ) < |(z : ℚ) * 2 ^ k| := abs_pos.mpr hq
  have hlt : |(z : ℚ) * 2 ^ k| < (2 : ℚ) ^ (53 + k) := by
    rw [abs_mul, abs_of_pos h2k, zpow_add₀ (by norm_num : (2 : ℚ) ≠ 0)]
    have h : ((|z| : ℤ) : ℚ) < ((2 ^ 53 : ℤ) : ℚ) := by exact_mod_cast hz
    push_cast at h
    have h' : |(z : ℚ)| < 2 ^ (53 : ℤ) := by
      norm_num at h ⊢
      exact h
    exact mul_lt_mul_of_pos_right h' h2k
  have he : Int.log 2 |(z : ℚ) * 2 ^ k| < 53 + k :=
    (Int.lt_zpow_iff_log_lt (by norm_num) hpos).mp (by exact_mod_cast hlt)
  obtain ⟨n, hn⟩ : ∃ n : ℕ, (52 : ℤ) + k - Int.log 2 |(z : ℚ) * 2 ^ k| = n :=
    ⟨(52 + k - Int.log 2 |(z : ℚ) * 2 ^ k|).toNat, by rw [Int.toNat_of_nonneg]; omega⟩
  have hexp : Int.log 2 |(z : ℚ) * 2 ^ k| - 52 = k - n := by omega
  unfold roundDouble
  rw [if_neg hq, hexp]
  have h2n : ((2 : ℚ) ^ n) ≠ 0 := by positivity
  have hpow : (2 : ℚ) ^ (k - (n : ℤ)) = 2 ^ k / 2 ^ n := by
    rw [zpow_sub₀ (by norm_num : (2 : ℚ) ≠ 0), zpow_natCast]
  have hdiv : (z : ℚ) * 2 ^ k / 2 ^ (k - (n : ℤ)) = ((z * 2 ^ n : ℤ) : ℚ) := by
    rw [hpow]
    push_cast
    field_simp
    ring
  rw [hdiv, roundHalfEven_intCast, hpow]
  push_cast
  field_simp
  ring

/-- The result of rounding is a double. -/
theorem roundDouble_isDouble (q : ℚ) : IsDouble (roundDouble q) := by
  by_cases hq : q = 0
  · exact ⟨0, 0, by norm_num, by simp [roundDouble, hq]⟩
  obtain ⟨hlo, hhi⟩ := log_bounds hq
  have hu : (0 : ℚ) < 2 ^ (Int.log 2 |q| - 52) := by positivity
  have hx : |q / 2 ^ (Int.log 2 |q| - 52)| < 2 ^ (53 : ℤ) := by
    rw [abs_div, abs_of_pos hu, div_lt_iff₀ hu, ← zpow_add₀ (by norm_num : (2 : ℚ) ≠ 0)]
    have : (53 : ℤ) + (Int.log 2 |q| - 52) = Int.log 2 |q| + 1 := by ring
    rw [this]
    exact hhi
  rw [abs_lt] at hx
  have hM1 : roundHalfEven (q / 2 ^ (Int.log 2 |q| - 52)) ≤ 2 ^ 53 :=
    roundHalfEven_le_int (by push_cast; exact_mod_cast hx.2.le)
  have hM2 : -(2 ^ 53) ≤ roundHalfEven (q / 2 ^ (Int.log 2 |q| - 52)) :=
    roundHalfEven_ge_int (by push_cast; exact_mod_cast hx.1.le)
  have hval : roundDouble q = (roundHalfEven (q / 2 ^ (Int.log 2 |q| - 52)) : ℚ) *
      2 ^ (Int.log 2 |q| - 52) := by
    unfold roundDouble
    rw [if_neg hq]
  rcases hM1.lt_or_eq with h1 | h1
  · rcases hM2.lt_or_eq with h2 | h2
    · exact ⟨_, _, abs_lt.mpr ⟨h2, h1⟩, hval⟩
    · refine ⟨-1, Int.log 2 |q| + 1, by norm_num, ?_⟩
      rw [hval, ← h2]
      have : (2 : ℚ) ^ (Int.log 2 |q| + 1) = 2 ^ (53 : ℤ) * 2 ^ (Int.log 2 |q| - 52) := by
        rw [← zpow_add₀ (by norm_num : (2 : ℚ) ≠ 0)]
        congr 1
        ring
      rw [this]
      push_cast
      norm_num
  · refine ⟨1, Int.log 2 |q| + 1, by norm_num, ?_⟩
    rw [hval, h1]
    have : (2 : ℚ) ^ (Int.log 2 |q| + 1) = 2 ^ (53 : ℤ) * 2 ^ (Int.log 2 |q| - 52) := by
      rw [← zpow_add₀ (by norm_num : (2 : ℚ) ≠ 0)]
      congr 1
      ring
    rw [this]
    push_cast
    norm_num

theorem isDouble_abs_lt {d : ℚ} {m k : ℤ} (hm : |m| < 2 ^ 53) (hd : d = m * 2 ^ k) :
    |d| < 2 ^ (53 + k) := by
  have h2k : (0 : ℚ) < 2 ^ k := by positivity
  rw [hd, abs_mul, abs_of_pos h2k, zpow_add₀ (by norm_num : (2 : ℚ) ≠ 0)]
  have h : ((|m| : ℤ) : ℚ) < ((2 ^ 53 : ℤ) : ℚ) := by exact_mod_cast hm
  push_cast at h
  have h' : |(m : ℚ)| < 2 ^ (53 : ℤ) := by
    norm_num at h ⊢
    exact h
  exact mul_lt_mul_of_pos_right h' h2k

/-- On the grid of the binade of `q`, a double with a finer or equal exponent is
a grid point. -/
theorem double_on_grid {m k e : ℤ} (hk : e - 52 ≤ k) :
    ∃ N : ℤ, ((m : ℚ) * 2 ^ k) / 2 ^ (e - 52) = N := by
  obtain ⟨n, hn⟩ : ∃ n : ℕ, k - (e - 52) = n := ⟨(k - (e - 52)).toNat, by
    rw [Int.toNat_of_nonneg]; omega⟩
  refine ⟨m * 2 ^ n, ?_⟩
  have hk' : k = (e - 52) + n := by omega
  rw [hk', zpow_add₀ (by norm_num : (2 : ℚ) ≠ 0), zpow_natCast]
  have : (2 : ℚ) ^ (e - 52) ≠ 0 := by positivity
  push_cast
  field_simp
  ring

/-- Rounding does not step over a double: what lies at or below a double rounds
to at most that double. -/
theorem roundDouble_le_double {q d : ℚ} (hd : IsDouble d) (h : q ≤ d) : roundDouble q ≤ d := by
  obtain ⟨m, k, hm, hdm⟩ := hd
  by_cases hq : q = 0
  · simp only [roundDouble, hq, if_true]
    rw [hq] at h
    exact h
  obtain ⟨hlo, hhi⟩ := log_bounds hq
  have hu : (0 : ℚ) < 2 ^ (Int.log 2 |q| - 52) := by positivity
  have hval : roundDouble q = (roundHalfEven (q / 2 ^ (Int.log 2 |q| - 52)) : ℚ) *
      2 ^ (Int.log 2 |q| - 52) := by
    unfold roundDouble
    rw [if_neg hq]
  by_cases hk : Int.log 2 |q| - 52 ≤ k
  · obtain ⟨N, hN⟩ := double_on_grid (m := m) hk
    have hle : q / 2 ^ (Int.log 2 |q| - 52) ≤ (N : ℚ) := by
      rw [← hN, ← hdm]
      exact div_le_div_of_nonneg_right h hu.le
    have hr := roundHalfEven_le_int hle
    have hr' : (roundHalfEven (q / 2 ^ (Int.log 2 |q| - 52)) : ℚ) ≤ N := by exact_mod_cast hr
    rw [hval]
    calc (roundHalfEven (q / 2 ^ (Int.log 2 |q| - 52)) : ℚ) * 2 ^ (Int.log 2 |q| - 52)
        ≤ N * 2 ^ (Int.log 2 |q| - 52) := mul_le_mul_of_nonneg_right hr' hu.le
      _ = d := by rw [← hN, ← hdm]; field_simp
  · have hk' : 53 + k ≤ Int.log 2 |q| := by omega
    have hdlt : |d| < |q| := by
      calc |d| < 2 ^ (53 + k) := isDouble_abs_lt hm hdm
        _ ≤ 2 ^ Int.log 2 |q| := zpow_le_zpow_right₀ (by norm_num) hk'
        _ ≤ |q| := hlo
    have hqneg : q < 0 := by
      by_contra hc
      have hq0 : 0 ≤ q := not_lt.mp hc
      rw [abs_of_nonneg hq0, abs_of_nonneg (hq0.trans h)] at hdlt
      linarith
    have habs : |q| = -q := abs_of_neg hqneg
    have hqle : q ≤ -(2 : ℚ) ^ Int.log 2 |q| := by linarith
    have hx : q / 2 ^ (Int.log 2 |q| - 52) ≤ ((-(2 ^ 52) : ℤ) : ℚ) := by
      rw [div_le_iff₀ hu]
      have : ((-(2 ^ 52) : ℤ) : ℚ) * 2 ^ (Int.log 2 |q| - 52) = -(2 : ℚ) ^ Int.log 2 |q| := by
        have h52 : (2 : ℚ) ^ Int.log 2 |q| = 2 ^ (52 : ℤ) * 2 ^ (Int.log 2 |q| - 52) := by
          rw [← zpow_add₀ (by norm_num : (2 : ℚ) ≠ 0)]
          congr 1
          ring
        rw [h52]
        push_cast
        norm_num
      rw [this]
      exact hqle
    have hr := roundHalfEven_le_int hx
    have hr' : (roundHalfEven (q / 2 ^ (Int.log 2 |q| - 52)) : ℚ) ≤ ((-(2 ^ 52) : ℤ) : ℚ) := by
      exact_mod_cast hr
    have hrd : roundDouble q ≤ -(2 : ℚ) ^ Int.log 2 |q| := by
      rw [hval]
      have h52 : (2 : ℚ) ^ Int.log 2 |q| = 2 ^ (52 : ℤ) * 2 ^ (Int.log 2 |q| - 52) := by
        rw [← zpow_add₀ (by norm_num : (2 : ℚ) ≠ 0)]
        congr 1
        ring
      have := mul_le_mul_of_nonneg_right hr' hu.le
      rw [h52]
      push_cast at this ⊢
      norm_num at this ⊢
      linarith
    have : -(2 : ℚ) ^ Int.log 2 |q| ≤ d := by
      have h1 : |d| < (2 : ℚ) ^ Int.log 2 |q| :=
        (isDouble_abs_lt hm hdm).trans_le (zpow_le_zpow_right₀ (by norm_num) hk')
      have := neg_abs_le d
      linarith
    linarith

/-- Rounding does not step over a double: what lies at or above a double rounds
to at least that double. -/
theorem double_le_roundDouble {q d : ℚ} (hd : IsDouble d) (h : d ≤ q) : d ≤ roundDouble q := by
  obtain ⟨m, k, hm, hdm⟩ := hd
  by_cases hq : q = 0
  · simp only [roundDouble, hq, if_true]
    rw [hq] at h
    exact h
  obtain ⟨hlo, hhi⟩ := log_bounds hq
  have hu : (0 : ℚ) < 2 ^ (Int.log 2 |q| - 52) := by positivity
  have hval : roundDouble q = (roundHalfEven (q / 2 ^ (Int.log 2 |q| - 52)) : ℚ) *
      2 ^ (Int.log 2 |q| - 52) := by
    unfold roundDouble
    rw [if_neg hq]
  have h52 : (2 : ℚ) ^ Int.log 2 |q| = 2 ^ (52 : ℤ) * 2 ^ (Int.log 2 |q| - 52) := by
    rw [← zpow_add₀ (by norm_num : (2 : ℚ) ≠ 0)]
    congr 1
    ring
  by_cases hk : Int.log 2 |q| - 52 ≤ k
  · obtain ⟨N, hN⟩ := double_on_grid (m := m) hk
    have hle : (N : ℚ) ≤ q / 2 ^ (Int.log 2 |q| - 52) := by
      rw [← hN, ← hdm]
      exact div_le_div_of_nonneg_right h hu.le
    have hr := roundHalfEven_ge_int hle
    have hr' : (N : ℚ) ≤ (roundHalfEven (q / 2 ^ (Int.log 2 |q| - 52)) : ℚ) := by
      exact_mod_cast hr
    rw [hval]
    calc d = N * 2 ^ (Int.log 2 |q| - 52) := by rw [← hN, ← hdm]; field_simp
      _ ≤ (roundHalfEven (q / 2 ^ (Int.log 2 |q| - 52)) : ℚ) * 2 ^ (Int.log 2 |q| - 52) :=
        mul_le_mul_of_nonneg_right hr' hu.le
  · have hk' : 53 + k ≤ Int.log 2 |q| := by omega
    have hd2 : |d| < (2 : ℚ) ^ Int.log 2 |q| :=
      (isDouble_abs_lt hm hdm).trans_le (zpow_le_zpow_right₀ (by norm_num) hk')
    have hqpos : 0 < q := by
      by_contra hc
      have hq0 : q ≤ 0 := not_lt.mp hc
      have habs : |q| = -q := abs_of_nonpos hq0
      have h1 := neg_abs_le d
      have h2 : (0 : ℚ) < 2 ^ Int.log 2 |q| := by positivity
      linarith
    have habs : |q| = q := abs_of_pos hqpos
    have hlo' : (2 : ℚ) ^ Int.log 2 |q| ≤ q := by linarith
    have hx : (((2 ^ 52 : ℤ)) : ℚ) ≤ q / 2 ^ (Int.log 2 |q| - 52) := by
      rw [le_div_iff₀ hu]
      have : (((2 ^ 52 : ℤ)) : ℚ) * 2 ^ (Int.log 2 |q| - 52) = (2 : ℚ) ^ Int.log 2 |q| := by
        rw [h52]
        push_cast
        norm_num
      rw [this]
      exact hlo'
    have hr := roundHalfEven_ge_int hx
    have hr' : (((2 ^ 52 : ℤ)) : ℚ) ≤ (roundHalfEven (q / 2 ^ (Int.log 2 |q| - 52)) : ℚ) := by
      exact_mod_cast hr
    have hrd : (2 : ℚ) ^ Int.log 2 |q| ≤ roundDouble q := by
      rw [hval]
      have := mul_le_mul_of_nonneg_right hr' hu.le
      rw [h52]
      push_cast at this ⊢
      norm_num at this ⊢
      linarith
    have := le_abs_self d
    linarith

theorem isDouble_intCast (z : ℤ) (hz : |z| < 2 ^ 53) : IsDouble (z : ℚ) :=
  ⟨z, 0, hz, by simp⟩

/-- Rounding lowers a number by at most `2 ^ -53` of its magnitude. -/
theorem roundDouble_sub_le (q : ℚ) : q - |q| / 2 ^ 53 ≤ roundDouble q := by
  by_cases hne : q = 0
  · rw [hne]
    simp [roundDouble]
  · obtain ⟨hlo, _⟩ := log_bounds hne
    have hu : (0 : ℚ) < 2 ^ (Int.log 2 |q| - 52) := by positivity
    have hval : roundDouble q = (roundHalfEven (q / 2 ^ (Int.log 2 |q| - 52)) : ℚ) *
        2 ^ (Int.log 2 |q| - 52) := by
      unfold roundDouble
      rw [if_neg hne]
    have hr := roundHalfEven_sub_half_le (q / 2 ^ (Int.log 2 |q| - 52))
    have h1 : (q / 2 ^ (Int.log 2 |q| - 52) - 1 / 2) * 2 ^ (Int.log 2 |q| - 52) ≤
        roundDouble q := by
      rw [hval]
      exact mul_le_mul_of_nonneg_right hr hu.le
    have h2 : (q / 2 ^ (Int.log 2 |q| - 52) - 1 / 2) * 2 ^ (Int.log 2 |q| - 52) =
        q - 2 ^ (Int.log 2 |q| - 52) / 2 := by
      field_simp
      ring
    have h3 : (2 : ℚ) ^ (Int.log 2 |q| - 52) / 2 = 2 ^ Int.log 2 |q| / 2 ^ 53 := by
      rw [zpow_sub₀ (by norm_num : (2 : ℚ) ≠ 0)]
      norm_num
      ring
    rw [h2, h3] at h1
    have h4 : (2 : ℚ) ^ Int.log 2 |q| / 2 ^ 53 ≤ |q| / 2 ^ 53 :=
      div_le_div_of_nonneg_right hlo (by positivity)
    linarith

/-- The relative error of rounding a non-negative number is at most `2 ^ -53`. -/
theorem roundDouble_lower {q : ℚ} (hq : 0 ≤ q) : q * (1 - 1 / 2 ^ 53) ≤ roundDouble q := by
  have h := roundDouble_sub_le q
  rw [abs_of_nonneg hq] at h
  have h5 : q * (1 - 1 / 2 ^ 53) = q - q / 2 ^ 53 := by ring
  rw [h5]
  exact h

/-- A double is left as it is by rounding. -/
theorem roundDouble_of_isDouble {d : ℚ} (hd : IsDouble d) : roundDouble d = d := by
  obtain ⟨m, k, hm, rfl⟩ := hd
  exact roundDouble_dyadic m k hm

theorem isDouble_zero : IsDouble 0 := ⟨0, 0, by norm_num, by simp⟩

theorem roundDouble_nonneg {q : ℚ} (hq : 0 ≤ q) : 0 ≤ roundDouble q :=
  double_le_roundDouble isDouble_zero hq

theorem roundDouble_pos {q : ℚ} (hq : 0 < q) : 0 < roundDouble q := by
  have h := roundDouble_lower hq.le
  have : 0 < q * (1 - 1 / 2 ^ 53) := mul_pos hq (by norm_num)
  linarith

/-- A sixteenth of a double is a double. -/
theorem isDouble_div_sixteen {d : ℚ} (hd : IsDouble d) : IsDouble (d / 16) := by
  obtain ⟨m, k, hm, rfl⟩ := hd
  refine ⟨m, k - 4, hm, ?_⟩
  rw [zpow_sub₀ (by norm_num : (2 : ℚ) ≠ 0)]
  norm_num
  ring

theorem roundHalfEven_add_small (N : ℤ) (δ : ℚ) (h0 : 0 ≤ δ) (h1 : δ < 1 / 2) :
    roundHalfEven ((N : ℚ) + δ) = N := by
  have hf : ⌊(N : ℚ) + δ⌋ = N := by
    rw [Int.floor_eq_iff]
    constructor <;> linarith
  unfold roundHalfEven
  rw [hf, if_pos (by linarith)]

/-- The Number of an integer is the integer, rounded to a double. -/
theorem numberOfInt_cast (z : ℤ) : ((numberOfInt z : ℤ) : ℚ) = roundDouble (z : ℚ) := by
  unfold numberOfInt
  split_ifs with h
  · rw [roundDouble_intCast z]
    rw [Int.abs_eq_natAbs]
    omega
  · have hz : (2 : ℤ) ^ 53 ≤ |z| := by
      rw [Int.abs_eq_natAbs]
      omega
    have hz0 : (z : ℚ) ≠ 0 := by
      have : z ≠ 0 := by rintro rfl; simp at hz
      exact_mod_cast this
    have hpos : (0 : ℚ) < |(z : ℚ)| := abs_pos.mpr hz0
    have hlog : 53 ≤ Int.log 2 |(z : ℚ)| := by
      rw [← Int.zpow_le_iff_le_log (by norm_num) hpos]
      have : ((2 ^ 53 : ℤ) : ℚ) ≤ ((|z| : ℤ) : ℚ) := by exact_mod_cast hz
      push_cast at this
      norm_num at this ⊢
      exact this
    obtain ⟨n, hn⟩ : ∃ n : ℕ, Int.log 2 |(z : ℚ)| - 52 = n :=
      ⟨(Int.log 2 |(z : ℚ)| - 52).toNat, by rw [Int.toNat_of_nonneg]; omega⟩
    have hval : roundDouble (z : ℚ) =
        (((roundHalfEven ((z : ℚ) / 2 ^ (Int.log 2 |(z : ℚ)| - 52)) * 2 ^ n : ℤ)) : ℚ) := by
      unfold roundDouble
      rw [if_neg hz0, hn, zpow_natCast]
      push_cast
      rfl
    rw [hval, Int.floor_intCast]

theorem numberOfInt_small (z : ℤ) (hz : |z| < 2 ^ 53) : numberOfInt z = z := by
  unfold numberOfInt
  rw [if_pos]
  rw [Int.abs_eq_natAbs] at hz
  omega

/-! ## Attribute defaults (C11) -/

theorem isDigit_not_ws {c : Char} (h : isDigit c = true) : isWhiteSpace c = false := by
  simp only [isDigit, Bool.and_eq_true, decide_eq_true_eq] at h
  simp only [isWhiteSpace, Bool.or_eq_false_iff, Bool.and_eq_false_iff, decide_eq_false_iff_not]
  omega

theorem radixDigit_ten {c : Char} (h : isDigit c = true) :
    radixDigit 10 c = some (c.toNat - 48) := by
  simp only [isDigit, Bool.and_eq_true, decide_eq_true_eq] at h
  have h10 : c.toNat - 48 < 10 := by omega
  simp [radixDigit, digitValue, h, h10]

theorem radixDigit_ten_none {c : Char} (h : isDigit c = false) : radixDigit 10 c = none := by
  simp only [isDigit, Bool.and_eq_false_iff, decide_eq_false_iff_not] at h
  unfold radixDigit digitValue
  split_ifs with h1 h2 h3
  · omega
  · have : ¬ (c.toNat - 87 < 10) := by omega
    simp [this]
  · have : ¬ (c.toNat - 55 < 10) := by omega
    simp [this]
  · rfl

theorem radixDigit_hex {c : Char} (h : isHexDigit c = true) :
    radixDigit 16 c = some (hexDigit c) := by
  simp only [isHexDigit, isDigit, Bool.or_eq_true, Bool.and_eq_true, decide_eq_true_eq] at h
  unfold radixDigit digitValue hexDigit
  rcases h with (h | h) | h
  · have h16 : c.toNat - 48 < 16 := by omega
    simp [h, h16]
  · have h1 : ¬ (48 ≤ c.toNat ∧ c.toNat ≤ 57) := by omega
    have h2 : 97 ≤ c.toNat ∧ c.toNat ≤ 122 := by omega
    have h3 : c.toNat - 87 < 16 := by omega
    have h4 : ¬ c.toNat ≤ 57 := by omega
    have h5 : ¬ c.toNat ≤ 70 := by omega
    simp [h1, h2, h3, h4, h5]
  · have h1 : ¬ (48 ≤ c.toNat ∧ c.toNat ≤ 57) := by omega
    have h2 : ¬ (97 ≤ c.toNat ∧ c.toNat ≤ 122) := by omega
    have h3 : 65 ≤ c.toNat ∧ c.toNat ≤ 90 := by omega
    have h4 : c.toNat - 55 < 16 := by omega
    have h5 : ¬ c.toNat ≤ 57 := by omega
    have h6 : c.toNat ≤ 70 := by omega
    simp [h1, h2, h3, h4, h5, h6]

theorem radixDigit_hex_none {c : Char} (h : isHexDigit c = false) : radixDigit 16 c = none := by
  simp only [isHexDigit, isDigit, Bool.or_eq_false_iff, Bool.and_eq_false_iff,
    decide_eq_false_iff_not] at h
  unfold radixDigit digitValue
  split_ifs with h1 h2 h3
  · have : ¬ (c.toNat - 48 < 16) := by omega
    simp [this]
  · have : ¬ (c.toNat - 87 < 16) := by omega
    simp [this]
  · have : ¬ (c.toNat - 55 < 16) := by omega
    simp [this]
  · rfl

theorem isDigit_of_radixDigit_ten {c : Char} {d : Nat} (h : radixDigit 10 c = some d) :
    isDigit c = true := by
  by_contra hc
  rw [radixDigit_ten_none (by simpa using hc)] at h
  exact absurd h (by simp)

theorem dropWhile_ws_append (ws r : Str) (hws : ∀ c ∈ ws, isWhiteSpace c = true) :
    (ws ++ r).dropWhile isWhiteSpace = r.dropWhile isWhiteSpace := by
  induction ws with
  | nil => rfl
  | cons c cs ih =>
    have hc : isWhiteSpace c = true := hws c (List.mem_cons_self _ _)
    simp only [List.cons_append, List.dropWhile_cons, hc, if_true]
    exact ih (fun x hx => hws x (List.mem_cons_of_mem _ hx))

theorem leadingDigits_append (ds rest : Str) (hds : ∀ c ∈ ds, isDigit c = true)
    (hrest : ∀ c, rest.head? = some c → isDigit c = false) :
    digitsPrefix 10 (ds ++ rest) = ds.map (fun c => c.toNat - 48) := by
  induction ds with
  | nil =>
    cases rest with
    | nil => rfl
    | cons c cs =>
      have := hrest c rfl
      simp [digitsPrefix, radixDigit_ten_none this]
  | cons c cs ih =>
    have hc := hds c (List.mem_cons_self _ _)
    have ih' := ih (fun x hx => hds x (List.mem_cons_of_mem _ hx))
    simp only [List.cons_append, digitsPrefix, radixDigit_ten hc, List.map_cons]
    exact congrArg _ ih'

theorem leadingHexDigits_append (hs rest : Str) (hhs : ∀ c ∈ hs, isHexDigit c = true)
    (hrest : ∀ c, rest.head? = some c → isHexDigit c = false) :
    digitsPrefix 16 (hs ++ rest) = hs.map hexDigit := by
  induction hs with
  | nil =>
    cases rest with
    | nil => rfl
    | cons c cs =>
      have := hrest c rfl
      simp [digitsPrefix, radixDigit_hex_none this]
  | cons c cs ih =>
    have hc := hhs c (List.mem_cons_self _ _)
    have ih' := ih (fun x hx => hhs x (List.mem_cons_of_mem _ hx))
    simp only [List.cons_append, digitsPrefix, radixDigit_hex hc, List.map_cons]
    exact congrArg _ ih'

theorem digitsValue_map (ds : Str) :
    digitsValue 10 (ds.map (fun c => c.toNat - 48)) = decimalValue ds := by
  unfold digitsValue decimalValue
  rw [List.foldl_map]

theorem digitsValue_map_hex (hs : Str) :
    digitsValue 16 (hs.map hexDigit) = hexValue hs := by
  unfold digitsValue hexValue
  rw [List.foldl_map]

/-- What `parseInt` does after the white space and the sign: `body` starts with a
character that is neither. -/
theorem parseInt_signed (ws sign : Str) (c : Char) (cs : Str)
    (hws : ∀ c ∈ ws, isWhiteSpace c = true)
    (hsign : sign = [] ∨ sign = ['+'] ∨ sign = ['-'])
    (hc : isWhiteSpace c = false) (hcm : c ≠ '-') (hcp : c ≠ '+') :
    parseInt (ws ++ sign ++ c :: cs) =
      if digitsPrefix (if hasHexPrefix (c :: cs) then 16 else 10)
          (if hasHexPrefix (c :: cs) then (c :: cs).drop 2 else c :: cs) = [] then none
      else if sign = ['-'] then
        some (numberOfInt (-(digitsValue (if hasHexPrefix (c :: cs) then 16 else 10)
          (digitsPrefix (if hasHexPrefix (c :: cs) then 16 else 10)
            (if hasHexPrefix (c :: cs) then (c :: cs).drop 2 else c :: cs)) : Int)))
      else
        some (numberOfInt (digitsValue (if hasHexPrefix (c :: cs) then 16 else 10)
          (digitsPrefix (if hasHexPrefix (c :: cs) then 16 else 10)
            (if hasHexPrefix (c :: cs) then (c :: cs).drop 2 else c :: cs)) : Int)) := by
  have hmain : ∀ (neg : Bool) (s1 : Str), s1.dropWhile isWhiteSpace = s1 →
      (s1.head? = some '-') = (neg = true) → stripSign s1 = c :: cs →
      parseInt (ws ++ s1) =
        if digitsPrefix (if hasHexPrefix (c :: cs) then 16 else 10)
            (if hasHexPrefix (c :: cs) then (c :: cs).drop 2 else c :: cs) = [] then none
        else if neg = true then
          some (numberOfInt (-(digitsValue (if hasHexPrefix (c :: cs) then 16 else 10)
            (digitsPrefix (if hasHexPrefix (c :: cs) then 16 else 10)
              (if hasHexPrefix (c :: cs) then (c :: cs).drop 2 else c :: cs)) : Int)))
        else
          some (numberOfInt (digitsValue (if hasHexPrefix (c :: cs) then 16 else 10)
            (digitsPrefix (if hasHexPrefix (c :: cs) then 16 else 10)
              (if hasHexPrefix (c :: cs) then (c :: cs).drop 2 else c :: cs)) : Int)) := by
    intro neg s1 h1 h2 h3
    unfold parseInt
    simp only [dropWhile_ws_append ws s1 hws, h1, h3, h2]
  rcases hsign with rfl | rfl | rfl
  · have := hmain false (c :: cs)
      (by simp [List.dropWhile_cons, hc])
      (by simp [hcm]) (by simp [stripSign, hcm, hcp])
    simpa using this
  · have := hmain false ('+' :: c :: cs)
      (by simp [List.dropWhile_cons, isWhiteSpace]) (by simp) (by simp [stripSign])
    simpa using this
  · have := hmain true ('-' :: c :: cs)
      (by simp [List.dropWhile_cons, isWhiteSpace]) (by simp) (by simp [stripSign])
    simpa using this

/-- A string with a leading decimal integer parses to the Number of that integer
(the case `0x…`, read as hexadecimal, apart). -/
theorem parseInt_decimal (ws sign ds rest : Str)
    (hws : ∀ c ∈ ws, isWhiteSpace c = true)
    (hsign : sign = [] ∨ sign = ['+'] ∨ sign = ['-'])
    (hne : ds ≠ []) (hds : ∀ c ∈ ds, isDigit c = true)
    (hrest : ∀ c, rest.head? = some c → isDigit c = false)
    (hhex : ¬ (ds = ['0'] ∧ (rest.head? = some 'x' ∨ rest.head? = some 'X'))) :
    parseInt (ws ++ sign ++ ds ++ rest) = some (numberOfInt (signedValue sign ds)) := by
  obtain ⟨d, ds', rfl⟩ := List.exists_cons_of_ne_nil hne
  have hd : isDigit d = true := hds d (List.mem_cons_self _ _)
  have hdws : isWhiteSpace d = false := isDigit_not_ws hd
  have hdm : d ≠ '-' := by rintro rfl; simp [isDigit] at hd
  have hdp : d ≠ '+' := by rintro rfl; simp [isDigit] at hd
  have hnohex : hasHexPrefix (d :: (ds' ++ rest)) = false := by
    cases ds' with
    | nil =>
      cases rest with
      | nil => rfl
      | cons r rs =>
        simp only [List.nil_append, hasHexPrefix]
        by_contra hc
        simp only [Bool.not_eq_false, Bool.and_eq_true, decide_eq_true_eq, Bool.or_eq_true] at hc
        apply hhex
        obtain ⟨h0, hx⟩ := hc
        subst h0
        refine ⟨rfl, ?_⟩
        rcases hx with hx | hx
        · left; simp [hx]
        · right; simp [hx]
    | cons e es =>
      have he : isDigit e = true := hds e (by simp)
      have hex : e ≠ 'x' := by rintro rfl; simp [isDigit] at he
      have heX : e ≠ 'X' := by rintro rfl; simp [isDigit] at he
      simp [hasHexPrefix, hex, heX]
  have hdig : digitsPrefix 10 (d :: (ds' ++ rest)) = (d :: ds').map (fun c => c.toNat - 48) :=
    leadingDigits_append (d :: ds') rest hds hrest
  have h := parseInt_signed ws sign d (ds' ++ rest) hws hsign hdws hdm hdp
  have happ : ws ++ sign ++ (d :: ds') ++ rest = ws ++ sign ++ d :: (ds' ++ rest) := by simp
  rw [happ, h]
  simp only [hnohex, Bool.false_eq_true, if_false, hdig, digitsValue_map]
  rw [if_neg (by simp)]
  unfold signedValue
  split_ifs <;> rfl

/-- A string with a leading `0x` followed by hexadecimal digits parses to the Number
of the integer they write. -/
theorem parseInt_hex (ws sign : Str) (x : Char) (hs rest : Str)
    (hws : ∀ c ∈ ws, isWhiteSpace c = true)
    (hsign : sign = [] ∨ sign = ['+'] ∨ sign = ['-'])
    (hx : x = 'x' ∨ x = 'X') (hne : hs ≠ []) (hhs : ∀ c ∈ hs, isHexDigit c = true)
    (hrest : ∀ c, rest.head? = some c → isHexDigit c = false) :
    parseInt (ws ++ sign ++ '0' :: x :: (hs ++ rest)) =
      some (numberOfInt (signedHexValue sign hs)) := by
  have hhex : hasHexPrefix ('0' :: x :: (hs ++ rest)) = true := by
    rcases hx with rfl | rfl <;> rfl
  have h := parseInt_signed ws sign '0' (x :: (hs ++ rest)) hws hsign (by decide) (by decide)
    (by decide)
  rw [h]
  simp only [hhex, if_true, List.drop_succ_cons, List.drop_zero,
    leadingHexDigits_append hs rest hhs hrest, digitsValue_map_hex]
  obtain ⟨c, cs, rfl⟩ := List.exists_cons_of_ne_nil hne
  rw [if_neg (by simp)]
  unfold signedHexValue
  split_ifs <;> rfl

/-- A string with a leading `0x` and no hexadecimal digit after it is not a number. -/
theorem parseInt_bare_hex (ws sign : Str) (x : Char) (rest : Str)
    (hws : ∀ c ∈ ws, isWhiteSpace c = true)
    (hsign : sign = [] ∨ sign = ['+'] ∨ sign = ['-'])
    (hx : x = 'x' ∨ x = 'X')
    (hrest : ∀ c, rest.head? = some c → isHexDigit c = false) :
    parseInt (ws ++ sign ++ '0' :: x :: rest) = none := by
  have hhex : hasHexPrefix ('0' :: x :: rest) = true := by
    rcases hx with rfl | rfl <;> rfl
  have h := parseInt_signed ws sign '0' (x :: rest) hws hsign (by decide) (by decide)
    (by decide)
  rw [h]
  have hnil : digitsPrefix 16 rest = [] := by
    have := leadingHexDigits_append [] rest (by simp) hrest
    simpa using this
  simp only [hhex, if_true, List.drop_succ_cons, List.drop_zero, hnil]

theorem leadingDigits_ne_nil {s : Str} (h : digitsPrefix 10 s ≠ []) :
    ∃ d rest, s = d :: rest ∧ isDigit d = true := by
  cases s with
  | nil => exact absurd rfl h
  | cons c cs =>
    refine ⟨c, cs, rfl, ?_⟩
    by_contra hc
    apply h
    simp [digitsPrefix, radixDigit_ten_none (by simpa using hc)]

/-- A string that `parseInt` reads as a number has a leading integer. -/
theorem leadingInteger_of_parseInt {s : Str} {v : Int} (h : parseInt s = some v) :
    LeadingInteger s := by
  have hsplit : s = s.takeWhile isWhiteSpace ++ s.dropWhile isWhiteSpace :=
    (List.takeWhile_append_dropWhile _ _).symm
  have hws : ∀ c ∈ s.takeWhile isWhiteSpace, isWhiteSpace c = true :=
    fun c hc => List.mem_takeWhile_imp hc
  -- the digit that follows the optional sign
  have hdigit : ∃ d rest, stripSign (s.dropWhile isWhiteSpace) = d :: rest ∧ isDigit d = true := by
    unfold parseInt at h
    simp only at h
    by_cases hx : hasHexPrefix (stripSign (s.dropWhile isWhiteSpace)) = true
    · generalize stripSign (s.dropWhile isWhiteSpace) = t at hx
      match t, hx with
      | c0 :: c1 :: r, hx =>
        simp only [hasHexPrefix, Bool.and_eq_true, decide_eq_true_eq] at hx
        exact ⟨c0, c1 :: r, rfl, by rw [hx.1]; rfl⟩
    · simp only [hx] at h
      apply leadingDigits_ne_nil
      intro hnil
      simp [hnil] at h
  obtain ⟨d, rest, hst, hd⟩ := hdigit
  generalize hs1 : s.dropWhile isWhiteSpace = s1 at hsplit hst
  cases s1 with
  | nil => simp [stripSign] at hst
  | cons c cs =>
    by_cases hc : c = '-' ∨ c = '+'
    · simp only [stripSign, hc, if_true] at hst
      refine ⟨s.takeWhile isWhiteSpace, [c], d, rest, ?_, hws, ?_, hd⟩
      · rw [← hst]; simpa using hsplit
      · rcases hc with rfl | rfl <;> simp
    · simp only [stripSign, hc, if_false] at hst
      refine ⟨s.takeWhile isWhiteSpace, [], d, rest, ?_, hws, Or.inl rfl, hd⟩
      rw [← hst]; simpa using hsplit

theorem orDefault_zero (v : Option Int) :
    orDefault v 0 = match v with
      | some n => n
      | none => 0 := by
  cases v with
  | none => rfl
  | some n =>
    by_cases h : n = 0
    · simp [orDefault, h]
    · simp [orDefault, h]

theorem head_dropWhile_false (p : Char → Bool) (l : Str) (c : Char)
    (h : (l.dropWhile p).head? = some c) : p c = false := by
  induction l with
  | nil => simp at h
  | cons a l ih =>
    by_cases hp : p a = true
    · simp only [List.dropWhile_cons, hp, if_true] at h
      exact ih h
    · simp only [List.dropWhile_cons, hp, Bool.false_eq_true, if_false, List.head?_cons,
        Option.some.injEq] at h
      rw [← h]
      simpa using hp

/-- Every string with a leading integer has one of the three shapes: decimal digits,
`0x` with hexadecimal digits, or `0x` with none. -/
theorem leadingInteger_shapes {s : Str} (h : LeadingInteger s) :
    (∃ ws sign ds rest, s = ws ++ sign ++ ds ++ rest ∧ DecimalShape ws sign ds rest) ∨
    (∃ ws sign x hs rest, s = ws ++ sign ++ '0' :: x :: (hs ++ rest) ∧
      HexShape ws sign x hs rest) ∨
    (∃ ws sign x rest, s = ws ++ sign ++ '0' :: x :: rest ∧ BareHexPrefix ws sign x rest) := by
  obtain ⟨ws, sign, d, rest0, rfl, hws, hsign, hd⟩ := h
  have hsplit : d :: rest0 = d :: rest0.takeWhile isDigit ++ rest0.dropWhile isDigit := by
    simp [List.takeWhile_append_dropWhile]
  have hds : ∀ c ∈ d :: rest0.takeWhile isDigit, isDigit c = true := by
    intro c hc
    rcases List.mem_cons.mp hc with rfl | hc
    · exact hd
    · exact List.mem_takeWhile_imp hc
  have hrest : ∀ c, (rest0.dropWhile isDigit).head? = some c → isDigit c = false :=
    fun c hc => head_dropWhile_false isDigit rest0 c hc
  by_cases hhex : d :: rest0.takeWhile isDigit = ['0'] ∧
      ((rest0.dropWhile isDigit).head? = some 'x' ∨ (rest0.dropWhile isDigit).head? = some 'X')
  · obtain ⟨h0, hx⟩ := hhex
    obtain ⟨x, r, hr, hxx⟩ : ∃ x r, rest0.dropWhile isDigit = x :: r ∧ (x = 'x' ∨ x = 'X') := by
      cases hdw : rest0.dropWhile isDigit with
      | nil => rw [hdw] at hx; simp at hx
      | cons x r =>
        rw [hdw] at hx
        refine ⟨x, r, rfl, ?_⟩
        simpa [eq_comm] using hx
    have hs0 : d :: rest0 = '0' :: x :: r := by rw [hsplit, h0, hr]; rfl
    have hsplit2 : r = r.takeWhile isHexDigit ++ r.dropWhile isHexDigit :=
      (List.takeWhile_append_dropWhile _ _).symm
    have hrest2 : ∀ c, (r.dropWhile isHexDigit).head? = some c → isHexDigit c = false :=
      fun c hc => head_dropWhile_false isHexDigit r c hc
    by_cases hnil : r.takeWhile isHexDigit = []
    · right; right
      refine ⟨ws, sign, x, r, by rw [hs0], hws, hsign, hxx, ?_⟩
      have : r = r.dropWhile isHexDigit := by
        rw [hnil] at hsplit2
        simpa using hsplit2
      rw [this]
      exact hrest2
    · right; left
      refine ⟨ws, sign, x, r.takeWhile isHexDigit, r.dropWhile isHexDigit, ?_, hws, hsign, hxx,
        hnil, fun c hc => List.mem_takeWhile_imp hc, hrest2⟩
      rw [hs0, ← hsplit2]
  · left
    refine ⟨ws, sign, d :: rest0.takeWhile isDigit, rest0.dropWhile isDigit, ?_, hws, hsign,
      by simp, hds, hrest, hhex⟩
    simp [List.takeWhile_append_dropWhile]

theorem numberOfInt_tie : numberOfInt 9007199254740993 = 9007199254740992 := by
  have h : roundDouble ((9007199254740993 : ℤ) : ℚ) = ((9007199254740992 : ℤ) : ℚ) := by
    have := roundDouble_eq_pos ((9007199254740993 : ℤ) : ℚ) 53 4503599627370496
      (by norm_num) (by norm_num) (by norm_num [roundHalfEven])
    rw [this]
    norm_num
  unfold numberOfInt
  rw [if_neg (by decide), h, Int.floor_intCast]

/-- C11 fails for an attribute that starts with `0x` and for an integer that is not
a double.  `data-aos-delay="0x10"` starts with the integer `0` (the digit `0`, then
`x`), yet the delay used is `16`; `data-target="9007199254740993"` starts with
that integer, yet the target used is `9007199254740992`. -/
theorem hex_attribute_read_as_hexadecimal :
    LeadingInteger "0x10".toList ∧
    "0x10".toList = ['0'] ++ "x10".toList ∧ isDigit 'x' = false ∧ signedValue [] ['0'] = 0 ∧
    triggerDelay (elementWithAttrs [("data-aos-delay", "0x10")]) = 16 ∧
    LeadingInteger "9007199254740993".toList ∧
    signedValue [] "9007199254740993".toList = 9007199254740993 ∧
    counterTarget (elementWithAttrs [("data-target", "9007199254740993")]) =
      9007199254740992 := by
  refine ⟨⟨[], [], '0', "x10".toList, by decide, by decide, by decide, by decide⟩,
    by decide, by decide, by decide, by decide,
    ⟨[], [], '9', "007199254740993".toList, by decide, by decide, by decide, by decide⟩,
    by decide, ?_⟩
  have hattr : (elementWithAttrs [("data-target", "9007199254740993")]).getAttribute
      "data-target" = some ([] ++ [] ++ "9007199254740993".toList ++ []) := by decide
  have hp := parseInt_decimal [] [] "9007199254740993".toList [] (by decide) (by decide)
    (by decide) (by decide) (by decide) (by decide)
  have hv : signedValue [] "9007199254740993".toList = 9007199254740993 := by decide
  unfold counterTarget
  rw [hattr]
  simp only [attrString]
  rw [hp, hv, numberOfInt_tie]
  decide

/-- C11, amended: the defaults of the trigger.  When `data-aos-delay` is absent or
has no leading integer the delay is `0`; when `data-target` is absent or has no
leading integer the counter target is `0`; when `data-aos` is absent or empty the
animation kind is `fade-up`, and a non-empty `data-aos` is used as it is.  When the
attribute starts (after white space and an optional sign) with decimal digits that
are not a lone `0` followed by `x` or `X`, the Number of the integer they write is
used: the integer itself below `2 ^ 53` in magnitude, the nearest double otherwise.
When it starts with `0x` or `0X` and hexadecimal digits, the Number of the
hexadecimal integer is used, and `0x` with no hexadecimal digit gives the default.
Every string with a leading integer has one of these three shapes.  A value of `0`
gives the same result as the default.  (Decimal integers of more than 20
significant digits, which an implementation may read less exactly, and hexadecimal
integers of more than 255 digits, which can round to `Infinity`, are left out.) -/
theorem attribute_defaults (e : Element) :
    (e.getAttribute "data-aos-delay" = none → triggerDelay e = 0) ∧
    (∀ s, e.getAttribute "data-aos-delay" = some s → ¬ LeadingInteger s → triggerDelay e = 0) ∧
    (∀ ws sign ds rest, e.getAttribute "data-aos-delay" = some (ws ++ sign ++ ds ++ rest) →
      DecimalShape ws sign ds rest → decimalValue ds < 10 ^ 20 →
      triggerDelay e = numberOfInt (signedValue sign ds)) ∧
    (∀ ws sign x hs rest,
      e.getAttribute "data-aos-delay" = some (ws ++ sign ++ '0' :: x :: (hs ++ rest)) →
      HexShape ws sign x hs rest → hs.length ≤ 255 →
      triggerDelay e = numberOfInt (signedHexValue sign hs)) ∧
    (∀ ws sign x rest, e.getAttribute "data-aos-delay" = some (ws ++ sign ++ '0' :: x :: rest) →
      BareHexPrefix ws sign x rest → triggerDelay e = 0) ∧
    (e.getAttribute "data-target" = none → counterTarget e = 0) ∧
    (∀ s, e.getAttribute "data-target" = some s → ¬ LeadingInteger s → counterTarget e = 0) ∧
    (∀ ws sign ds rest, e.getAttribute "data-target" = some (ws ++ sign ++ ds ++ rest) →
      DecimalShape ws sign ds rest → decimalValue ds < 10 ^ 20 →
      counterTarget e = numberOfInt (signedValue sign ds)) ∧
    (∀ ws sign x hs rest,
      e.getAttribute "data-target" = some (ws ++ sign ++ '0' :: x :: (hs ++ rest)) →
      HexShape ws sign x hs rest → hs.length ≤ 255 →
      counterTarget e = numberOfInt (signedHexValue sign hs)) ∧
    (∀ ws sign x rest, e.getAttribute "data-target" = some (ws ++ sign ++ '0' :: x :: rest) →
      BareHexPrefix ws sign x rest → counterTarget e = 0) ∧
    (∀ z : ℤ, |z| < 2 ^ 53 → numberOfInt z = z) ∧
    (∀ z : ℤ, ((numberOfInt z : ℤ) : ℚ) = roundDouble (z : ℚ)) ∧
    (∀ s, LeadingInteger s →
      (∃ ws sign ds rest, s = ws ++ sign ++ ds ++ rest ∧ DecimalShape ws sign ds rest) ∨
      (∃ ws sign x hs rest, s = ws ++ sign ++ '0' :: x :: (hs ++ rest) ∧
        HexShape ws sign x hs rest) ∨
      (∃ ws sign x rest, s = ws ++ sign ++ '0' :: x :: rest ∧ BareHexPrefix ws sign x rest)) ∧
    (e.getAttribute "data-aos" = none → animationType e = "fade-up".toList) ∧
    (e.getAttribute "data-aos" = some [] → animationType e = "fade-up".toList) ∧
    (∀ s, e.getAttribute "data-aos" = some s → s ≠ [] → animationType e = s) := by
  have hnone : orDefault (parseInt (attrString none)) 0 = 0 := by decide
  have hbad : ∀ s, ¬ LeadingInteger s → orDefault (parseInt (attrString (some s))) 0 = 0 := by
    intro s hs
    cases hp : parseInt s with
    | none => simp [attrString, hp, orDefault]
    | some v => exact absurd (leadingInteger_of_parseInt hp) hs
  have hgood : ∀ ws sign ds rest, DecimalShape ws sign ds rest →
      orDefault (parseInt (attrString (some (ws ++ sign ++ ds ++ rest)))) 0 =
        numberOfInt (signedValue sign ds) := by
    intro ws sign ds rest h
    obtain ⟨h1, h2, h3, h4, h5, h6⟩ := h
    rw [orDefault_zero]
    simp only [attrString, parseInt_decimal ws sign ds rest h1 h2 h3 h4 h5 h6]
  have hhex : ∀ ws sign x hs rest, HexShape ws sign x hs rest →
      orDefault (parseInt (attrString (some (ws ++ sign ++ '0' :: x :: (hs ++ rest))))) 0 =
        numberOfInt (signedHexValue sign hs) := by
    intro ws sign x hs rest h
    obtain ⟨h1, h2, h3, h4, h5, h6⟩ := h
    rw [orDefault_zero]
    simp only [attrString, parseInt_hex ws sign x hs rest h1 h2 h3 h4 h5 h6]
  have hbare : ∀ ws sign x rest, BareHexPrefix ws sign x rest →
      orDefault (parseInt (attrString (some (ws ++ sign ++ '0' :: x :: rest)))) 0 = 0 := by
    intro ws sign x rest h
    obtain ⟨h1, h2, h3, h4⟩ := h
    rw [orDefault_zero]
    simp only [attrString, parseInt_bare_hex ws sign x rest h1 h2 h3 h4]
  refine ⟨?_, ?_, ?_, ?_, ?_, ?_, ?_, ?_, ?_, ?_, numberOfInt_small, numberOfInt_cast,
    fun s hs => leadingInteger_shapes hs, ?_, ?_, ?_⟩
  · intro h; unfold triggerDelay; rw [h]; exact hnone
  · intro s h hs; unfold triggerDelay; rw [h]; exact hbad s hs
  · intro ws sign ds rest h hs _; unfold triggerDelay; rw [h]; exact hgood ws sign ds rest hs
  · intro ws sign x hs rest h hsh _; unfold triggerDelay; rw [h]
    exact hhex ws sign x hs rest hsh
  · intro ws sign x rest h hsh; unfold triggerDelay; rw [h]; exact hbare ws sign x rest hsh
  · intro h; unfold counterTarget; rw [h]; exact hnone
  · intro s h hs; unfold counterTarget; rw [h]; exact hbad s hs
  · intro ws sign ds rest h hs _; unfold counterTarget; rw [h]; exact hgood ws sign ds rest hs
  · intro ws sign x hs rest h hsh _; unfold counterTarget; rw [h]
    exact hhex ws sign x hs rest hsh
  · intro ws sign x rest h hsh; unfold counterTarget; rw [h]; exact hbare ws sign x rest hsh
  · intro h; unfold animationType; rw [h]
  · intro h; unfold animationType; rw [h]; rfl
  · intro s h hs; unfold animationType; rw [h]; simp [hs]

/-- C11 at an element with `data-aos-delay=" 200ms"`, `data-target="-0x1F"` and
`data-aos="zoom-in"`: the delay is `200`, the target `-31`, the kind `zoom-in`. -/
theorem attribute_defaults_witness :
    triggerDelay (elementWithAttrs
      [("data-aos-delay", " 200ms"), ("data-target", "-0x1F"), ("data-aos", "zoom-in")]) = 200 ∧
    counterTarget (elementWithAttrs
      [("data-aos-delay", " 200ms"), ("data-target", "-0x1F"), ("data-aos", "zoom-in")]) = -31 ∧
    animationType (elementWithAttrs
      [("data-aos-delay", " 200ms"), ("data-target", "-0x1F"), ("data-aos", "zoom-in")]) =
      "zoom-in".toList := by
  have h := attribute_defaults (elementWithAttrs
    [("data-aos-delay", " 200ms"), ("data-target", "-0x1F"), ("data-aos", "zoom-in")])
  refine ⟨?_, ?_, ?_⟩
  · rw [h.2.2.1 [' '] [] ['2', '0', '0'] ['m', 's'] (by decide)
      ⟨by decide, by decide, by decide, by decide, by decide, by decide⟩ (by decide)]
    decide
  · rw [h.2.2.2.2.2.2.2.2.1 [] ['-'] 'x' ['1', 'F'] [] (by decide)
      ⟨by decide, by decide, by decide, by decide, by decide, by decide⟩ (by decide)]
    decide
  · exact h.2.2.2.2.2.2.2.2.2.2.2.2.2.2.2 _ (by decide) (by decide)

/-! ## The counter (C1, C3, C9, C10, C14) -/

theorem tick_target (rnd : ℚ → ℚ) (t : CounterTimer) :
    (t.tick rnd).target = t.target ∧ (t.tick rnd).increment = t.increment := by
  unfold CounterTimer.tick
  split_ifs <;> exact ⟨rfl, rfl⟩

theorem ticks_target (rnd : ℚ → ℚ) (t : CounterTimer) (n : Nat) :
    (t.ticks rnd n).target = t.target ∧ (t.ticks rnd n).increment = t.increment := by
  induction n with
  | zero => exact ⟨rfl, rfl⟩
  | succ n ih =>
    have h := tick_target rnd (t.ticks rnd n)
    exact ⟨h.1.trans ih.1, h.2.trans ih.2⟩

theorem ticks_stopped (rnd : ℚ → ℚ) (t : CounterTimer) (n : Nat) (h : t.running = false) :
    t.ticks rnd n = t := by
  induction n with
  | zero => rfl
  | succ n ih => simp [CounterTimer.ticks, ih, CounterTimer.tick, h]

theorem ticks_add (rnd : ℚ → ℚ) (t : CounterTimer) (m n : Nat) :
    t.ticks rnd (m + n) = (t.ticks rnd m).ticks rnd n := by
  induction n with
  | zero => rfl
  | succ n ih =>
    show (t.ticks rnd (m + n)).tick rnd = ((t.ticks rnd m).ticks rnd n).tick rnd
    rw [ih]

/-- While the running value stays below the target the timer keeps running and
shows the floor of the running value. -/
theorem ticks_running (rnd : ℚ → ℚ) (t : CounterTimer) (k : Nat) (hrun : t.running = true)
    (hlt : ∀ j, 1 ≤ j → j ≤ k → runningValue rnd t.current t.increment j < t.target) :
    t.ticks rnd k =
      { t with current := runningValue rnd t.current t.increment k,
               shown := if k = 0 then t.shown
                        else some ⌊runningValue rnd t.current t.increment k⌋ } := by
  induction k with
  | zero => rfl
  | succ k ih =>
    have ih' := ih (fun j h1 h2 => hlt j h1 (by omega))
    have hk := hlt (k + 1) (by omega) le_rfl
    simp only [runningValue] at hk
    simp only [CounterTimer.ticks, ih', CounterTimer.tick, hrun, if_true, not_le.mpr hk,
      if_false, runningValue, Nat.succ_ne_zero]

/-- The tick on which the running value first reaches the target clamps it, and
the state does not change afterwards. -/
theorem ticks_clamp (rnd : ℚ → ℚ) (t : CounterTimer) (k n : Nat) (hrun : t.running = true)
    (hlt : ∀ j, 1 ≤ j → j ≤ k → runningValue rnd t.current t.increment j < t.target)
    (hge : (t.target : ℚ) ≤ runningValue rnd t.current t.increment (k + 1)) (hn : k + 1 ≤ n) :
    t.ticks rnd n = { t with current := t.target, running := false, shown := some t.target } := by
  have h1 : t.ticks rnd (k + 1) =
      { t with current := t.target, running := false, shown := some t.target } := by
    simp only [runningValue] at hge
    simp only [CounterTimer.ticks, ticks_running rnd t k hrun hlt, CounterTimer.tick, hrun,
      if_true, hge, Int.floor_intCast]
  obtain ⟨d, rfl⟩ := Nat.exists_eq_add_of_le hn
  rw [ticks_add, h1, ticks_stopped]
  rfl

/-- If the running value reaches the target on some tick up to `n`, the state
after `n` ticks is the clamped one. -/
theorem ticks_reached (rnd : ℚ → ℚ) (t : CounterTimer) (n : Nat) (hrun : t.running = true)
    (h : ∃ j, 1 ≤ j ∧ j ≤ n ∧ (t.target : ℚ) ≤ runningValue rnd t.current t.increment j) :
    t.ticks rnd n = { t with current := t.target, running := false, shown := some t.target } := by
  classical
  have hex : ∃ j, 1 ≤ j ∧ (t.target : ℚ) ≤ runningValue rnd t.current t.increment j := by
    obtain ⟨j, h1, _, h3⟩ := h
    exact ⟨j, h1, h3⟩
  obtain ⟨j, hj1, hjn, hj⟩ := h
  have hfind := Nat.find_spec hex
  have hmin : Nat.find hex ≤ j := Nat.find_min' hex ⟨hj1, hj⟩
  obtain ⟨k, hk⟩ : ∃ k, Nat.find hex = k + 1 := ⟨Nat.find hex - 1, by omega⟩
  apply ticks_clamp rnd t k n hrun
  · intro i hi1 hik
    by_contra hc
    have : Nat.find hex ≤ i := Nat.find_min' hex ⟨hi1, not_lt.mp hc⟩
    omega
  · rw [← hk]; exact hfind.2
  · omega

theorem runningValue_id (s i : ℚ) (k : Nat) : runningValue id s i k = s + k * i := by
  induction k with
  | zero => simp [runningValue]
  | succ k ih => simp only [runningValue, ih, id]; push_cast; ring

/-- With integer start and increment the running value is computed exactly by
any rounding that keeps the integers in range. -/
theorem runningValue_int (rnd : ℚ → ℚ) (hr : ∀ z : ℤ, |z| < 2 ^ 53 → rnd (z : ℚ) = z)
    (s q : ℤ) (k : Nat) (hb : ∀ j : Nat, 1 ≤ j → j ≤ k → |s + j * q| < 2 ^ 53) :
    runningValue rnd (s : ℚ) (q : ℚ) k = ((s + k * q : ℤ) : ℚ) := by
  induction k with
  | zero => simp [runningValue]
  | succ k ih =>
    have ih' := ih (fun j h1 h2 => hb j h1 (by omega))
    have hk := hb (k + 1) (by omega) le_rfl
    simp only [runningValue, ih']
    have : ((s + k * q : ℤ) : ℚ) + (q : ℚ) = ((s + ((k + 1 : ℕ) : ℤ) * q : ℤ) : ℚ) := by
      push_cast; ring
    rw [this, hr _ hk]

theorem tick_shown_le (rnd : ℚ → ℚ) (t : CounterTimer)
    (h : ∀ v, t.shown = some v → v ≤ t.target) :
    ∀ v, (t.tick rnd).shown = some v → v ≤ t.target := by
  intro v hv
  unfold CounterTimer.tick at hv
  split_ifs at hv with h1 h2
  · simp only [Int.floor_intCast, Option.some.injEq] at hv
    omega
  · simp only [Option.some.injEq] at hv
    have hlt : rnd (t.current + t.increment) < (t.target : ℚ) := not_le.mp h2
    have := Int.floor_lt.mpr hlt
    omega
  · exact h v hv

theorem ticks_shown_le (rnd : ℚ → ℚ) (t : CounterTimer) (n : Nat)
    (h : ∀ v, t.shown = some v → v ≤ t.target) :
    ∀ v, (t.ticks rnd n).shown = some v → v ≤ t.target := by
  induction n with
  | zero => exact h
  | succ n ih =>
    intro v hv
    have := tick_shown_le rnd (t.ticks rnd n)
      (fun w hw => by rw [(ticks_target rnd t n).1]; exact ih w hw) v hv
    rwa [(ticks_target rnd t n).1] at this

theorem ticks_stopped_shown (rnd : ℚ → ℚ) (t : CounterTimer) (n : Nat)
    (h : t.running = false → t.shown = some t.target) :
    (t.ticks rnd n).running = false → (t.ticks rnd n).shown = some t.target := by
  induction n with
  | zero => exact h
  | succ n ih =>
    intro hs
    have ht := (ticks_target rnd t n).1
    simp only [CounterTimer.ticks, CounterTimer.tick] at hs ⊢
    split_ifs at hs ⊢ with h1 h2
    · simp [ht]
    · simp [h1] at hs
    · exact ih (by simpa using h1)

theorem tick_clamp (rnd : ℚ → ℚ) (t : CounterTimer) (hrun : t.running = true)
    (hge : (t.target : ℚ) ≤ rnd (t.current + t.increment)) :
    (t.tick rnd).current = t.target ∧ (t.tick rnd).shown = some t.target ∧
      (t.tick rnd).running = false := by
  simp only [CounterTimer.tick, hrun, if_true, hge, Int.floor_intCast, and_self]

/-- C3: every value the timer of `animateCounter` writes is at most the target,
on every tick and for every rounding of the arithmetic; a running value that
reaches or exceeds the target is replaced by the target before it is shown and
the timer is cleared. -/
theorem counter_never_overshoots (rnd : ℚ → ℚ) (e : Element) (n : Nat) :
    (∀ v, ((animateCounter rnd e).ticks rnd n).shown = some v → v ≤ counterTarget e) ∧
    (((animateCounter rnd e).ticks rnd n).running = true →
      (counterTarget e : ℚ) ≤ rnd (((animateCounter rnd e).ticks rnd n).current +
        ((animateCounter rnd e).ticks rnd n).increment) →
      ((animateCounter rnd e).ticks rnd (n + 1)).current = counterTarget e ∧
      ((animateCounter rnd e).ticks rnd (n + 1)).shown = some (counterTarget e) ∧
      ((animateCounter rnd e).ticks rnd (n + 1)).running = false) := by
  constructor
  · exact ticks_shown_le rnd (animateCounter rnd e) n (fun v hv => by simp [animateCounter] at hv)
  · intro hrun hge
    have ht : ((animateCounter rnd e).ticks rnd n).target = counterTarget e :=
      (ticks_target rnd _ n).1
    rw [← ht] at hge ⊢
    exact tick_clamp rnd _ hrun hge

theorem counter250_values :
    counterTarget counter250 = 250 ∧ counterDuration counter250 = 2000 ∧
      counterStart counter250 = 0 := by decide

theorem counterNegativeStart_values :
    counterTarget counterNegativeStart = 250 ∧ counterDuration counterNegativeStart = 2000 ∧
      counterStart counterNegativeStart = -100 := by decide

theorem counterPositiveStart_values :
    counterTarget counterPositiveStart = 250 ∧ counterDuration counterPositiveStart = 2000 ∧
      counterStart counterPositiveStart = 125 := by decide

theorem counterSixTicks_values :
    counterTarget counterSixTicks = 1 ∧ counterDuration counterSixTicks = 96 ∧
      counterStart counterSixTicks = 0 := by decide

theorem counterNegativeDuration_values :
    counterTarget counterNegativeDuration = 250 ∧
      counterDuration counterNegativeDuration = -2000 ∧
      counterStart counterNegativeDuration = 0 := by decide

/-- The timer of a counter with integer start `s`, target `T` and an increment
that is the integer `q`, in double arithmetic. -/
theorem animateCounter_int (e : Element) (n q : ℤ) (hn : |n| < 2 ^ 53) (hq : |q| < 2 ^ 53)
    (hD : (counterDuration e : ℚ) / 16 = n) (hT : (counterTarget e : ℚ) / n = q) :
    animateCounter roundDouble e =
      { target := counterTarget e, increment := q, current := counterStart e,
        running := true, shown := none } := by
  simp only [animateCounter, hD, roundDouble_intCast n hn, hT, roundDouble_intCast q hq]

/-- A counter whose increment is an integer runs exactly in double arithmetic:
the state after `k` ticks that stay below the target. -/
theorem counter_int_running (e : Element) (n q : ℤ) (k : Nat) (hn : |n| < 2 ^ 53)
    (hq : |q| < 2 ^ 53) (hD : (counterDuration e : ℚ) / 16 = n)
    (hT : (counterTarget e : ℚ) / n = q)
    (hb : ∀ j : Nat, 1 ≤ j → j ≤ k →
      |counterStart e + j * q| < 2 ^ 53 ∧ counterStart e + j * q < counterTarget e) :
    (animateCounter roundDouble e).ticks roundDouble k =
      { target := counterTarget e, increment := q,
        current := ((counterStart e + k * q : ℤ) : ℚ), running := true,
        shown := if k = 0 then none else some (counterStart e + k * q) } := by
  have hrv : ∀ j : Nat, j ≤ k → runningValue roundDouble (counterStart e : ℚ) (q : ℚ) j =
      ((counterStart e + j * q : ℤ) : ℚ) := fun j hj =>
    runningValue_int roundDouble roundDouble_intCast _ _ j
      (fun i h1 h2 => (hb i h1 (by omega)).1)
  rw [animateCounter_int e n q hn hq hD hT, ticks_running]
  · simp only [hrv k le_rfl, Int.floor_intCast]
  · rfl
  · intro j h1 h2
    simp only [hrv j h2]
    exact_mod_cast (hb j h1 h2).2

/-- The counter with text `-100`, target `250` and the default duration shows `150`
after the 125 ticks of its full duration, and its timer is still running. -/
theorem counterNegativeStart_after_full :
    (counterDuration counterNegativeStart : ℚ) / 16 ≤ (125 : ℕ) ∧
    counterTarget counterNegativeStart = 250 ∧
    ((animateCounter roundDouble counterNegativeStart).ticks roundDouble 125).shown = some 150 ∧
    ((animateCounter roundDouble counterNegativeStart).ticks roundDouble 125).running = true := by
  obtain ⟨hT, hD, hS⟩ := counterNegativeStart_values
  have h := counter_int_running counterNegativeStart 125 2 125
    (abs_lt_two_pow_53 (by omega) (by omega)) (abs_lt_two_pow_53 (by omega) (by omega))
    (by rw [hD]; norm_num) (by rw [hT]; norm_num)
    (by
      intro j h1 h2
      rw [hS, hT]
      exact ⟨abs_lt_two_pow_53 (by omega) (by omega), by omega⟩)
  refine ⟨by rw [hD]; norm_num, hT, ?_, ?_⟩
  · rw [h, hS]; rfl
  · rw [h]

/-- C10 fails for a start value other than `0`: for text `125` and target `250`
the added amount is `250 / (2000 / 16) = 2`, not `(250 - 125) / (2000 / 16) = 1`. -/
theorem counter_increment_ignores_start :
    (animateCounter roundDouble counterPositiveStart).increment = 2 ∧
    (animateCounter id counterPositiveStart).increment = 2 ∧
    ((counterTarget counterPositiveStart : ℚ) - counterStart counterPositiveStart) /
      ((counterDuration counterPositiveStart : ℚ) / 16) = 1 := by
  obtain ⟨hT, hD, hS⟩ := counterPositiveStart_values
  refine ⟨?_, ?_, ?_⟩
  · rw [animateCounter_int counterPositiveStart 125 2
      (abs_lt_two_pow_53 (by omega) (by omega)) (abs_lt_two_pow_53 (by omega) (by omega))
      (by rw [hD]; norm_num) (by rw [hT]; norm_num)]
    norm_num
  · simp only [animateCounter, hT, hD, id]
    norm_num
  · rw [hT, hD, hS]
    norm_num

/-- C10, amended: the amount added on each step is `target / (duration / 16)`,
whatever the start value; it is `(target - start) / (duration / 16)` when the
start value is `0`.  On every tick the running value becomes the old one plus
that amount, or the target when the sum reaches it, and the number shown is the
floor of the new running value. -/
theorem counter_step_amount (rnd : ℚ → ℚ) (e : Element) (n : Nat) :
    (animateCounter rnd e).increment =
      rnd ((counterTarget e : ℚ) / rnd ((counterDuration e : ℚ) / 16)) ∧
    (counterStart e = 0 → (animateCounter id e).increment =
      ((counterTarget e : ℚ) - counterStart e) / ((counterDuration e : ℚ) / 16)) ∧
    (((animateCounter rnd e).ticks rnd n).running = true →
      ((animateCounter rnd e).ticks rnd (n + 1)).current =
        (if (counterTarget e : ℚ) ≤ rnd (((animateCounter rnd e).ticks rnd n).current +
            (animateCounter rnd e).increment)
         then (counterTarget e : ℚ)
         else rnd (((animateCounter rnd e).ticks rnd n).current +
            (animateCounter rnd e).increment)) ∧
      ((animateCounter rnd e).ticks rnd (n + 1)).shown =
        some ⌊((animateCounter rnd e).ticks rnd (n + 1)).current⌋) := by
  refine ⟨rfl, ?_, ?_⟩
  · intro h0
    simp [animateCounter, h0]
  · intro hrun
    obtain ⟨ht, hi⟩ := ticks_target rnd (animateCounter rnd e) n
    have ht' : ((animateCounter rnd e).ticks rnd n).target = counterTarget e := ht
    simp only [CounterTimer.ticks, CounterTimer.tick, hrun, if_true, hi, ht']
    split_ifs <;> simp

/-! ## The counter in double arithmetic -/

theorem parseInt_isDouble {s : Str} {v : Int} (h : parseInt s = some v) : IsDouble (v : ℚ) := by
  unfold parseInt at h
  simp only at h
  split_ifs at h <;>
  · injection h with h
    rw [← h, numberOfInt_cast]
    exact roundDouble_isDouble _

theorem orDefault_isDouble (s : Str) (d : Int) (hd : IsDouble (d : ℚ)) :
    IsDouble ((orDefault (parseInt s) d : ℤ) : ℚ) := by
  cases hp : parseInt s with
  | none => exact hd
  | some v =>
    unfold orDefault
    simp only
    split_ifs
    · exact hd
    · exact parseInt_isDouble hp

theorem counterTarget_isDouble (e : Element) : IsDouble (counterTarget e : ℚ) :=
  orDefault_isDouble _ 0 (isDouble_intCast 0 (by norm_num))

theorem counterDuration_isDouble (e : Element) : IsDouble (counterDuration e : ℚ) :=
  orDefault_isDouble _ 2000 (isDouble_intCast 2000 (by norm_num))

theorem counterStart_isDouble (e : Element) : IsDouble (counterStart e : ℚ) :=
  orDefault_isDouble _ 0 (isDouble_intCast 0 (by norm_num))

/-- The quotient `duration / 16` is exact in double arithmetic. -/
theorem animateCounter_increment (e : Element) :
    (animateCounter roundDouble e).increment =
      roundDouble ((counterTarget e : ℚ) / ((counterDuration e : ℚ) / 16)) := by
  simp only [animateCounter,
    roundDouble_of_isDouble (isDouble_div_sixteen (counterDuration_isDouble e))]

theorem runningValue_one (rnd : ℚ → ℚ) (s i : ℚ) : runningValue rnd s i 1 = rnd (s + i) := rfl

theorem runningValue_add (rnd : ℚ → ℚ) (s i : ℚ) (a b : Nat) :
    runningValue rnd s i (a + b) = runningValue rnd (runningValue rnd s i a) i b := by
  induction b with
  | zero => rfl
  | succ b ih =>
    show rnd (runningValue rnd s i (a + b) + i) = rnd (runningValue rnd _ i b + i)
    rw [ih]

theorem runningValue_isDouble (s i : ℚ) (k : Nat) :
    IsDouble (runningValue roundDouble s i (k + 1)) :=
  roundDouble_isDouble _

/-- With an increment `≤ 0` the running value never rises above its value after the
first tick. -/
theorem runningValue_le_first (s i : ℚ) (hi : i ≤ 0) (k : Nat) :
    runningValue roundDouble s i (k + 1) ≤ runningValue roundDouble s i 1 := by
  induction k with
  | zero => exact le_rfl
  | succ k ih =>
    have h : runningValue roundDouble s i (k + 1 + 1) ≤ runningValue roundDouble s i (k + 1) := by
      show roundDouble (runningValue roundDouble s i (k + 1) + i) ≤ _
      exact roundDouble_le_double (runningValue_isDouble s i k) (by linarith)
    exact h.trans ih

/-- From a start value `≥ 0` and with an increment `≥ 0`, each addition loses at
most the relative error `2 ^ -53`. -/
theorem runningValue_lower (s i : ℚ) (hs : 0 ≤ s) (hi : 0 ≤ i) (k : Nat) :
    (k : ℚ) * i * (1 - 1 / 2 ^ 53) ^ k ≤ runningValue roundDouble s i k := by
  induction k with
  | zero => simpa [runningValue] using hs
  | succ k ih =>
    have hu0 : (0 : ℚ) ≤ 1 - 1 / 2 ^ 53 := by norm_num
    have hu1 : (1 : ℚ) - 1 / 2 ^ 53 ≤ 1 := by norm_num
    have hp0 : (0 : ℚ) ≤ (1 - 1 / 2 ^ 53) ^ k := pow_nonneg hu0 k
    have hp1 : ((1 : ℚ) - 1 / 2 ^ 53) ^ k ≤ 1 := pow_le_one₀ hu0 hu1
    have hk0 : (0 : ℚ) ≤ (k : ℚ) * i * (1 - 1 / 2 ^ 53) ^ k := by positivity
    have hsum : 0 ≤ runningValue roundDouble s i k + i := by linarith
    have h1 := roundDouble_lower hsum
    have h2 : (k : ℚ) * i * (1 - 1 / 2 ^ 53) ^ k + i * (1 - 1 / 2 ^ 53) ^ k ≤
        runningValue roundDouble s i k + i := by
      have : i * (1 - 1 / 2 ^ 53) ^ k ≤ i := by
        have := mul_le_mul_of_nonneg_left hp1 hi
        linarith
      linarith
    have h3 := mul_le_mul_of_nonneg_right h2 hu0
    have h4 : ((k + 1 : ℕ) : ℚ) * i * (1 - 1 / 2 ^ 53) ^ (k + 1) =
        ((k : ℚ) * i * (1 - 1 / 2 ^ 53) ^ k + i * (1 - 1 / 2 ^ 53) ^ k) * (1 - 1 / 2 ^ 53) := by
      push_cast
      ring
    show _ ≤ roundDouble (runningValue roundDouble s i k + i)
    rw [h4]
    linarith

/-- From a start value `≥ 0`, with a target `T ≥ 0` and `0 < m ≤ 2 ^ 26` periods, the
running value has reached the target after `j` additions of the rounded increment
when `m + 1 ≤ j ≤ m + 2`. -/
theorem counter_double_reach (T m s : ℚ) (j : ℕ) (hT : 0 ≤ T) (hm : 0 < m) (hm26 : m ≤ 2 ^ 26)
    (hs : 0 ≤ s) (hj1 : m + 1 ≤ j) (hj2 : (j : ℚ) ≤ m + 2) :
    T ≤ runningValue roundDouble s (roundDouble (T / m)) j := by
  have hq : 0 ≤ T / m := div_nonneg hT hm.le
  have hinc := roundDouble_lower hq
  have hinc0 : 0 ≤ roundDouble (T / m) := roundDouble_nonneg hq
  have hrv := runningValue_lower s (roundDouble (T / m)) hs hinc0 j
  obtain ⟨u, hu⟩ : ∃ u : ℚ, u = 1 / 2 ^ 53 := ⟨_, rfl⟩
  rw [← hu] at hinc hrv
  have hu0 : 0 ≤ 1 - u := by rw [hu]; norm_num
  have hupos : 0 ≤ u := by rw [hu]; norm_num
  have hpow0 : 0 ≤ (1 - u) ^ j := pow_nonneg hu0 j
  have hj0 : (0 : ℚ) ≤ j := by positivity
  have hb : 1 - ((j : ℚ) + 1) * u ≤ (1 - u) ^ (j + 1) := by
    have h := one_add_mul_le_pow (show (-2 : ℚ) ≤ -u by rw [hu]; norm_num) (j + 1)
    push_cast at h
    have e1 : (1 : ℚ) + -u = 1 - u := by ring
    rw [e1] at h
    linarith
  have h1 : (j : ℚ) * (T / m * (1 - u)) * (1 - u) ^ j ≤
      j * roundDouble (T / m) * (1 - u) ^ j :=
    mul_le_mul_of_nonneg_right (mul_le_mul_of_nonneg_left hinc hj0) hpow0
  have h2 : (j : ℚ) * (T / m * (1 - u)) * (1 - u) ^ j = (T / m) * (j * (1 - u) ^ (j + 1)) := by
    rw [pow_succ]
    ring
  have hw : (0 : ℚ) ≤ 1 - ((j : ℚ) + 1) * u := by
    have h3 : (j : ℚ) + 1 ≤ 2 ^ 26 + 3 := by linarith
    have h4 : ((j : ℚ) + 1) * u ≤ (2 ^ 26 + 3) * u := mul_le_mul_of_nonneg_right h3 hupos
    have h5 : ((2 : ℚ) ^ 26 + 3) * u ≤ 1 := by rw [hu]; norm_num
    linarith
  have h3 : m ≤ (j : ℚ) * (1 - u) ^ (j + 1) := by
    have ha : (j : ℚ) * (1 - (j + 1) * u) ≤ j * (1 - u) ^ (j + 1) :=
      mul_le_mul_of_nonneg_left hb hj0
    have hb2 : (m + 1) * (1 - ((j : ℚ) + 1) * u) ≤ j * (1 - (j + 1) * u) :=
      mul_le_mul_of_nonneg_right hj1 hw
    have hc : (m + 1) * ((j : ℚ) + 1) * u ≤ 1 := by
      have h6 : (m + 1) * ((j : ℚ) + 1) ≤ (2 ^ 26 + 1) * (2 ^ 26 + 3) :=
        mul_le_mul (by linarith) (by linarith) (by positivity) (by positivity)
      have h7 : (m + 1) * ((j : ℚ) + 1) * u ≤ (2 ^ 26 + 1) * (2 ^ 26 + 3) * u :=
        mul_le_mul_of_nonneg_right h6 hupos
      have h8 : ((2 : ℚ) ^ 26 + 1) * (2 ^ 26 + 3) * u ≤ 1 := by rw [hu]; norm_num
      linarith
    have hd : (m + 1) * (1 - ((j : ℚ) + 1) * u) = m + 1 - (m + 1) * ((j : ℚ) + 1) * u := by ring
    linarith
  have h4 : T ≤ (T / m) * (j * (1 - u) ^ (j + 1)) := by
    have h9 := mul_le_mul_of_nonneg_left h3 hq
    have e : T / m * m = T := by field_simp
    linarith
  linarith

/-- Below zero, an increment of at least `2 ^ -52` times the magnitude of the start
value is never absorbed: each addition gains at least half of it until the
running value is `≥ 0`. -/
theorem runningValue_negative_range (s i : ℚ) (hi : 0 < i) (hs : -s ≤ 2 ^ 52 * i) (k : Nat) :
    0 ≤ runningValue roundDouble s i k ∨ s + k * (i / 2) ≤ runningValue roundDouble s i k := by
  induction k with
  | zero => right; simp [runningValue]
  | succ k ih =>
    by_cases hq : 0 ≤ runningValue roundDouble s i k + i
    · left
      exact roundDouble_nonneg hq
    · right
      have hq' : runningValue roundDouble s i k + i < 0 := not_le.mp hq
      have hc : s + k * (i / 2) ≤ runningValue roundDouble s i k := by
        rcases ih with h | h
        · linarith
        · exact h
      have hk0 : (0 : ℚ) ≤ k * (i / 2) := by positivity
      have herr := roundDouble_sub_le (runningValue roundDouble s i k + i)
      rw [abs_of_neg hq'] at herr
      have hsdiv : -(i / 2) ≤ s / 2 ^ 53 := by
        have : -s / 2 ^ 53 ≤ 2 ^ 52 * i / 2 ^ 53 := div_le_div_of_nonneg_right hs (by positivity)
        have e : (2 : ℚ) ^ 52 * i / 2 ^ 53 = i / 2 := by ring
        rw [e] at this
        have e2 : -s / 2 ^ 53 = -(s / (2 : ℚ) ^ 53) := by ring
        rw [e2] at this
        linarith
      have hqs : s / 2 ^ 53 ≤ (runningValue roundDouble s i k + i) / 2 ^ 53 :=
        div_le_div_of_nonneg_right (by linarith) (by positivity)
      show s + ((k + 1 : ℕ) : ℚ) * (i / 2) ≤ roundDouble (runningValue roundDouble s i k + i)
      have e3 : -(runningValue roundDouble s i k + i) / 2 ^ 53 =
          -((runningValue roundDouble s i k + i) / (2 : ℚ) ^ 53) := by ring
      rw [e3] at herr
      push_cast
      linarith

/-- The timer is never cleared when the increment is `≤ 0` and the first tick stays
below the target. -/
theorem counter_never_cleared (t : CounterTimer) (hrun : t.running = true)
    (hinc : t.increment ≤ 0) (hfirst : roundDouble (t.current + t.increment) < t.target)
    (n : Nat) : (t.ticks roundDouble n).running = true := by
  rw [ticks_running roundDouble t n hrun]
  · exact hrun
  · intro j h1 _
    obtain ⟨k, rfl⟩ : ∃ k, j = k + 1 := ⟨j - 1, by omega⟩
    exact lt_of_le_of_lt (runningValue_le_first _ _ hinc k) hfirst

/-- The timer is never cleared when an addition leaves the running value where it
was, below the target. -/
theorem counter_stuck (t : CounterTimer) (hrun : t.running = true)
    (hfix : roundDouble (t.current + t.increment) = t.current) (hlt : t.current < t.target)
    (n : Nat) : (t.ticks roundDouble n).running = true := by
  have hrv : ∀ k, runningValue roundDouble t.current t.increment k = t.current := by
    intro k
    induction k with
    | zero => rfl
    | succ k ih =>
      show roundDouble (runningValue roundDouble t.current t.increment k + t.increment) = _
      rw [ih, hfix]
  rw [ticks_running roundDouble t n hrun]
  · exact hrun
  · intro j _ _
    rw [hrv]
    exact hlt

/-- In double arithmetic, a positive increment that is not absorbed by a negative
start value brings the running value to the target. -/
theorem counter_double_cleared (e : Element) (hD : counterDuration e ≤ 2 ^ 30)
    (hS : counterStart e < 0 →
      -(counterStart e : ℚ) ≤ 2 ^ 52 * (animateCounter roundDouble e).increment)
    (hpos : 0 < (animateCounter roundDouble e).increment) :
    ∃ j, 1 ≤ j ∧ ((animateCounter roundDouble e).target : ℚ) ≤
      runningValue roundDouble (animateCounter roundDouble e).current
        (animateCounter roundDouble e).increment j := by
  have hcur : (animateCounter roundDouble e).current = counterStart e := rfl
  have htar : (animateCounter roundDouble e).target = counterTarget e := rfl
  have hinc := animateCounter_increment e
  rw [hcur, htar]
  -- the quotient target / (duration / 16) is positive
  have hquot : 0 < (counterTarget e : ℚ) / ((counterDuration e : ℚ) / 16) := by
    by_contra hc
    have := roundDouble_nonpos (not_lt.mp hc)
    rw [← hinc] at this
    linarith
  -- a tick from which the running value is non-negative
  obtain ⟨K, hK⟩ : ∃ K, 0 ≤ runningValue roundDouble (counterStart e : ℚ)
      (animateCounter roundDouble e).increment K := by
    rcases le_or_lt 0 (counterStart e) with h0 | h0
    · exact ⟨0, by simpa [runningValue] using h0⟩
    · obtain ⟨K, hK⟩ := exists_nat_ge
        (-(counterStart e : ℚ) / ((animateCounter roundDouble e).increment / 2))
      refine ⟨K, ?_⟩
      rcases runningValue_negative_range (counterStart e : ℚ) _ hpos (hS h0) K with h | h
      · exact h
      · have h2 : -(counterStart e : ℚ) ≤ K * ((animateCounter roundDouble e).increment / 2) :=
          (div_le_iff₀ (by linarith)).mp hK
        linarith
  rcases le_or_lt (counterTarget e : ℚ) 0 with hT | hT
  · refine ⟨K + 1, by omega, ?_⟩
    have : 0 ≤ runningValue roundDouble (counterStart e : ℚ)
        (animateCounter roundDouble e).increment (K + 1) :=
      roundDouble_nonneg (by linarith)
    linarith
  · have hm : 0 < (counterDuration e : ℚ) / 16 := by
      by_contra hc
      have := div_nonpos_of_nonneg_of_nonpos hT.le (not_lt.mp hc)
      linarith
    have hm26 : (counterDuration e : ℚ) / 16 ≤ 2 ^ 26 := by
      have : (counterDuration e : ℚ) ≤ 2 ^ 30 := by exact_mod_cast hD
      linarith
    refine ⟨K + (⌈(counterDuration e : ℚ) / 16⌉₊ + 1), by omega, ?_⟩
    rw [runningValue_add, hinc]
    rw [hinc] at hK
    apply counter_double_reach _ _ _ _ hT.le hm hm26 hK
    · push_cast
      linarith [Nat.le_ceil ((counterDuration e : ℚ) / 16)]
    · push_cast
      linarith [Nat.ceil_lt_add_one hm.le]

/-- C1, amended: in JavaScript's double arithmetic, for a start value `≥ 0`, a
duration `0 < D ≤ 2 ^ 30` and a target `T ≥ 0` (or any target when the duration is
at least 16), once the timer has run for at least `D / 16 + 1` ticks the number
shown is exactly `T` and the timer is cleared.  For every rounding of the
arithmetic, a cleared timer has left exactly `T` in the element. -/
theorem counter_reaches_target (e : Element) (n : Nat)
    (hstart : 0 ≤ counterStart e) (hdur : 0 < counterDuration e)
    (hmax : counterDuration e ≤ 2 ^ 30)
    (htd : 0 ≤ counterTarget e ∨ 16 ≤ counterDuration e)
    (hn : (counterDuration e : ℚ) / 16 + 1 ≤ n) :
    ((animateCounter roundDouble e).ticks roundDouble n).shown = some (counterTarget e) ∧
    ((animateCounter roundDouble e).ticks roundDouble n).running = false ∧
    (∀ (rnd : ℚ → ℚ) (m : Nat), ((animateCounter rnd e).ticks rnd m).running = false →
      ((animateCounter rnd e).ticks rnd m).shown = some (counterTarget e)) := by
  have hS : (0 : ℚ) ≤ counterStart e := by exact_mod_cast hstart
  have hD : (0 : ℚ) < counterDuration e := by exact_mod_cast hdur
  have hm : (0 : ℚ) < (counterDuration e : ℚ) / 16 := by positivity
  have hm26 : (counterDuration e : ℚ) / 16 ≤ 2 ^ 26 := by
    have : (counterDuration e : ℚ) ≤ 2 ^ 30 := by exact_mod_cast hmax
    linarith
  have hcur : (animateCounter roundDouble e).current = counterStart e := rfl
  have htar : (animateCounter roundDouble e).target = counterTarget e := rfl
  have hinc := animateCounter_increment e
  obtain ⟨n', rfl⟩ : ∃ n', n = n' + 1 := by
    have : (0 : ℚ) < n := lt_of_lt_of_le (by positivity) hn
    have h1 : 0 < n := by exact_mod_cast this
    exact ⟨n - 1, by omega⟩
  have hceil : ⌈(counterDuration e : ℚ) / 16⌉₊ ≤ n' := by
    apply Nat.ceil_le.mpr
    push_cast at hn
    linarith
  have key : ∃ j, 1 ≤ j ∧ j ≤ n' + 1 ∧ ((animateCounter roundDouble e).target : ℚ) ≤
      runningValue roundDouble (animateCounter roundDouble e).current
        (animateCounter roundDouble e).increment j := by
    rw [hcur, htar, hinc]
    rcases le_or_lt 0 (counterTarget e) with hT | hT
    · have hT' : (0 : ℚ) ≤ counterTarget e := by exact_mod_cast hT
      refine ⟨⌈(counterDuration e : ℚ) / 16⌉₊ + 1, by omega, by omega, ?_⟩
      apply counter_double_reach _ _ _ _ hT' hm hm26 hS
      · push_cast
        linarith [Nat.le_ceil ((counterDuration e : ℚ) / 16)]
      · push_cast
        linarith [Nat.ceil_lt_add_one hm.le]
    · have h16 : 16 ≤ counterDuration e := by
        rcases htd with h | h
        · omega
        · exact h
      refine ⟨1, le_rfl, by omega, ?_⟩
      have hT' : (counterTarget e : ℚ) < 0 := by exact_mod_cast hT
      have h16' : (16 : ℚ) ≤ counterDuration e := by exact_mod_cast h16
      have h1 : (16 : ℚ) / counterDuration e ≤ 1 := by
        rw [div_le_one hD]; exact h16'
      have h2 : (counterTarget e : ℚ) / ((counterDuration e : ℚ) / 16) =
          (counterTarget e : ℚ) * (16 / counterDuration e) := by
        field_simp
      have h3 : (counterTarget e : ℚ) ≤ (counterTarget e : ℚ) / ((counterDuration e : ℚ) / 16) := by
        rw [h2]
        nlinarith
      have h4 := double_le_roundDouble (counterTarget_isDouble e) h3
      show (counterTarget e : ℚ) ≤ roundDouble ((counterStart e : ℚ) +
        roundDouble ((counterTarget e : ℚ) / ((counterDuration e : ℚ) / 16)))
      exact double_le_roundDouble (counterTarget_isDouble e) (by linarith)
  have hreach := ticks_reached roundDouble (animateCounter roundDouble e) (n' + 1) rfl key
  refine ⟨by rw [hreach]; rfl, by rw [hreach], ?_⟩
  intro rnd m
  exact ticks_stopped_shown rnd (animateCounter rnd e) m (fun h => by simp [animateCounter] at h)

/-- The amended C1 at the counter with text `0`, target `250` and the default
duration, after 126 ticks. -/
theorem counter_reaches_target_witness :
    ((animateCounter roundDouble counter250).ticks roundDouble 126).shown =
      some (counterTarget counter250) ∧
    ((animateCounter roundDouble counter250).ticks roundDouble 126).running = false ∧
    (∀ (rnd : ℚ → ℚ) (m : Nat),
      ((animateCounter rnd counter250).ticks rnd m).running = false →
      ((animateCounter rnd counter250).ticks rnd m).shown = some (counterTarget counter250)) :=
  counter_reaches_target counter250 126 (by decide) (by decide) (by decide)
    (Or.inl (by decide)) (by rw [counter250_values.2.1]; norm_num)

/-- The increment of the counter with target `1` and duration `96`, in double
arithmetic: the double nearest to `1 / 6`. -/
theorem counterSixTicks_timer :
    animateCounter roundDouble counterSixTicks =
      { target := 1, increment := (6004799503160661 / 36028797018963968 : ℚ), current := 0,
        running := true, shown := none } := by
  obtain ⟨hT, hD, hS⟩ := counterSixTicks_values
  have h6 : roundDouble ((96 : ℤ) / 16 : ℚ) = ((6 : ℤ) : ℚ) := by
    rw [show ((96 : ℤ) / 16 : ℚ) = ((6 : ℤ) : ℚ) by norm_num]
    exact roundDouble_intCast 6 (abs_lt_two_pow_53 (by omega) (by omega))
  have hinc : roundDouble (((1 : ℤ) : ℚ) / ((6 : ℤ) : ℚ)) = (6004799503160661 / 36028797018963968 : ℚ) := by
    rw [roundDouble_eq_pos _ (-3) 6004799503160661 (by norm_num) (by norm_num)
      (by norm_num [roundHalfEven])]
    norm_num
  simp only [animateCounter, hT, hD, hS, h6, hinc]
  norm_num

theorem runningValue_sixTicks_1 :
    runningValue roundDouble 0 (6004799503160661 / 36028797018963968 : ℚ) 1 = (6004799503160661 / 36028797018963968 : ℚ) := by
  rw [runningValue, runningValue,
    roundDouble_eq_pos _ (-3) 6004799503160661 (by norm_num) (by norm_num)
      (by norm_num [roundHalfEven])]
  norm_num

theorem runningValue_sixTicks_2 :
    runningValue roundDouble 0 (6004799503160661 / 36028797018963968 : ℚ) 2 = (6004799503160661 / 18014398509481984 : ℚ) := by
  rw [runningValue, runningValue_sixTicks_1,
    roundDouble_eq_pos _ (-2) 6004799503160661 (by norm_num) (by norm_num)
      (by norm_num [roundHalfEven])]
  norm_num

theorem runningValue_sixTicks_3 :
    runningValue roundDouble 0 (6004799503160661 / 36028797018963968 : ℚ) 3 = (1 / 2 : ℚ) := by
  rw [runningValue, runningValue_sixTicks_2,
    roundDouble_eq_pos _ (-2) 9007199254740992 (by norm_num) (by norm_num)
      (by norm_num [roundHalfEven])]
  norm_num

theorem runningValue_sixTicks_4 :
    runningValue roundDouble 0 (6004799503160661 / 36028797018963968 : ℚ) 4 = (6004799503160661 / 9007199254740992 : ℚ) := by
  rw [runningValue, runningValue_sixTicks_3,
    roundDouble_eq_pos _ (-1) 6004799503160661 (by norm_num) (by norm_num)
      (by norm_num [roundHalfEven])]
  norm_num

theorem runningValue_sixTicks_5 :
    runningValue roundDouble 0 (6004799503160661 / 36028797018963968 : ℚ) 5 = (3752999689475413 / 4503599627370496 : ℚ) := by
  rw [runningValue, runningValue_sixTicks_4,
    roundDouble_eq_pos _ (-1) 7505999378950826 (by norm_num) (by norm_num)
      (by norm_num [roundHalfEven])]
  norm_num

theorem runningValue_sixTicks_6 :
    runningValue roundDouble 0 (6004799503160661 / 36028797018963968 : ℚ) 6 = (9007199254740991 / 9007199254740992 : ℚ) := by
  rw [runningValue, runningValue_sixTicks_5,
    roundDouble_eq_pos _ (-1) 9007199254740991 (by norm_num) (by norm_num)
      (by norm_num [roundHalfEven])]
  norm_num

/-- The counter with target `1` and duration `96` after six ticks, in double
arithmetic: the running value is `1 - 2 ^ -53`, the element shows `0` and the
timer is still set. -/
theorem counterSixTicks_after_six :
    ((animateCounter roundDouble counterSixTicks).ticks roundDouble 6).running = true ∧
    ((animateCounter roundDouble counterSixTicks).ticks roundDouble 6).shown = some 0 := by
  have hrun := ticks_running roundDouble (animateCounter roundDouble counterSixTicks) 6
    (by rw [counterSixTicks_timer])
    (by
      intro j h1 h2
      rw [counterSixTicks_timer]
      interval_cases j
      · rw [runningValue_sixTicks_1]; norm_num
      · rw [runningValue_sixTicks_2]; norm_num
      · rw [runningValue_sixTicks_3]; norm_num
      · rw [runningValue_sixTicks_4]; norm_num
      · rw [runningValue_sixTicks_5]; norm_num
      · rw [runningValue_sixTicks_6]; norm_num)
  refine ⟨?_, ?_⟩
  · rw [hrun, counterSixTicks_timer]
  · rw [hrun, counterSixTicks_timer]
    simp only [runningValue_sixTicks_6]
    norm_num

/-- C9 fails in double arithmetic: for text `0`, target `1` and duration `96`
(six periods of 16 ms) the sixth tick leaves the running value at `1 - 2 ^ -53`,
so the element shows `0` and the timer is still set after tick `⌈96 / 16⌉ = 6`. -/
theorem counter_rounding_delays_clamp :
    ⌈(counterDuration counterSixTicks : ℚ) / 16⌉₊ = 6 ∧
    counterTarget counterSixTicks = 1 ∧
    ((animateCounter roundDouble counterSixTicks).ticks roundDouble 6).running = true ∧
    ((animateCounter roundDouble counterSixTicks).ticks roundDouble 6).shown = some 0 := by
  refine ⟨?_, counterSixTicks_values.1, counterSixTicks_after_six.1, counterSixTicks_after_six.2⟩
  rw [counterSixTicks_values.2.1]
  norm_num

/-- C1 fails for a negative start value and, by one tick, for a rounded increment.
The counter with text `-100`, target `250` and the default duration shows `150`
after the 125 ticks of its full duration and its timer is still running; the
counter with text `0`, target `1` and duration `96` shows `0` after the 6 ticks
of its full duration and its timer is still running. -/
theorem counter_stalls_after_full_duration :
    ((counterDuration counterNegativeStart : ℚ) / 16 ≤ (125 : ℕ) ∧
      counterTarget counterNegativeStart = 250 ∧
      ((animateCounter roundDouble counterNegativeStart).ticks roundDouble 125).shown
        = some 150 ∧
      ((animateCounter roundDouble counterNegativeStart).ticks roundDouble 125).running
        = true) ∧
    ((counterDuration counterSixTicks : ℚ) / 16 ≤ (6 : ℕ) ∧
      counterStart counterSixTicks = 0 ∧
      counterTarget counterSixTicks = 1 ∧
      ((animateCounter roundDouble counterSixTicks).ticks roundDouble 6).shown = some 0 ∧
      ((animateCounter roundDouble counterSixTicks).ticks roundDouble 6).running = true) := by
  refine ⟨counterNegativeStart_after_full, ?_, counterSixTicks_values.2.2,
    counterSixTicks_values.1, counterSixTicks_after_six.2, counterSixTicks_after_six.1⟩
  rw [counterSixTicks_values.2.1]
  norm_num

/-- A counter whose increment is an integer, in double arithmetic: the state from
the tick on which the running value reaches the target. -/
theorem counter_int_clamp (e : Element) (n q : ℤ) (k m : Nat) (hn : |n| < 2 ^ 53)
    (hq : |q| < 2 ^ 53) (hD : (counterDuration e : ℚ) / 16 = n)
    (hT : (counterTarget e : ℚ) / n = q)
    (hb : ∀ j : Nat, 1 ≤ j → j ≤ k →
      |counterStart e + j * q| < 2 ^ 53 ∧ counterStart e + j * q < counterTarget e)
    (hlast : |counterStart e + (k + 1 : ℕ) * q| < 2 ^ 53 ∧
      counterTarget e ≤ counterStart e + (k + 1 : ℕ) * q) (hm : k + 1 ≤ m) :
    (animateCounter roundDouble e).ticks roundDouble m =
      { target := counterTarget e, increment := q, current := (counterTarget e : ℚ),
        running := false, shown := some (counterTarget e) } := by
  have hrv : ∀ j : Nat, j ≤ k + 1 → runningValue roundDouble (counterStart e : ℚ) (q : ℚ) j =
      ((counterStart e + j * q : ℤ) : ℚ) := fun j hj =>
    runningValue_int roundDouble roundDouble_intCast _ _ j
      (fun i h1 h2 => by
        rcases Nat.lt_or_ge i (k + 1) with h | h
        · exact (hb i h1 (by omega)).1
        · have : i = k + 1 := by omega
          subst this
          exact hlast.1)
  rw [animateCounter_int e n q hn hq hD hT, ticks_clamp roundDouble _ k m rfl]
  · intro j h1 h2
    simp only [hrv j (by omega)]
    exact_mod_cast (hb j h1 h2).2
  · simp only [hrv (k + 1) le_rfl]
    exact_mod_cast hlast.2
  · exact hm

/-- C9, amended: with exact arithmetic, for text `0`, a target `T > 0` and a
duration `D > 0` (2000 when `data-duration` is absent), every tick before tick
`⌈D / 16⌉` shows a number below `T` and leaves the timer set, and tick
`⌈D / 16⌉` shows exactly `T` and clears the timer.  In double arithmetic the
same holds for target `250` with the default duration: ticks `1` to `124` show
`2`, `4`, …, `248` and tick `125` shows `250` and clears the timer. -/
theorem counter_clamp_tick (e : Element) (htext : e.text = ['0'])
    (hT : 0 < counterTarget e) (hD : 0 < counterDuration e) :
    (∀ k, 1 ≤ k → k < ⌈(counterDuration e : ℚ) / 16⌉₊ →
      ((animateCounter id e).ticks id k).running = true ∧
      ∃ v, ((animateCounter id e).ticks id k).shown = some v ∧ v < counterTarget e) ∧
    ((animateCounter id e).ticks id ⌈(counterDuration e : ℚ) / 16⌉₊).running = false ∧
    ((animateCounter id e).ticks id ⌈(counterDuration e : ℚ) / 16⌉₊).shown =
      some (counterTarget e) ∧
    (e.getAttribute "data-duration" = none → counterDuration e = 2000) ∧
    (∀ k, 1 ≤ k → k < 125 →
      ((animateCounter roundDouble counter250).ticks roundDouble k).running = true ∧
      ((animateCounter roundDouble counter250).ticks roundDouble k).shown =
        some (2 * (k : ℤ))) ∧
    ((animateCounter roundDouble counter250).ticks roundDouble 125).running = false ∧
    ((animateCounter roundDouble counter250).ticks roundDouble 125).shown = some 250 := by
  have hS : counterStart e = 0 := by
    unfold counterStart
    rw [htext]
    decide
  have hTq : (0 : ℚ) < counterTarget e := by exact_mod_cast hT
  have hDq : (0 : ℚ) < (counterDuration e : ℚ) / 16 := by
    have : (0 : ℚ) < counterDuration e := by exact_mod_cast hD
    positivity
  have hrv : ∀ j : Nat, runningValue id (animateCounter id e).current
      (animateCounter id e).increment j =
      (counterTarget e : ℚ) * (j / ((counterDuration e : ℚ) / 16)) := by
    intro j
    simp only [runningValue_id, animateCounter, hS, id]
    push_cast
    ring
  have hbelow : ∀ j : Nat, j < ⌈(counterDuration e : ℚ) / 16⌉₊ →
      runningValue id (animateCounter id e).current (animateCounter id e).increment j <
        (counterTarget e : ℚ) := by
    intro j hj
    rw [hrv]
    have h1 : (j : ℚ) < (counterDuration e : ℚ) / 16 := Nat.lt_ceil.mp hj
    have h2 : (j : ℚ) / ((counterDuration e : ℚ) / 16) < 1 := (div_lt_one hDq).mpr h1
    nlinarith
  have hceil : 1 ≤ ⌈(counterDuration e : ℚ) / 16⌉₊ := Nat.one_le_iff_ne_zero.mpr
    (by rw [Ne, Nat.ceil_eq_zero, not_le]; exact hDq)
  obtain ⟨c, hc⟩ : ∃ c, ⌈(counterDuration e : ℚ) / 16⌉₊ = c + 1 :=
    ⟨⌈(counterDuration e : ℚ) / 16⌉₊ - 1, by omega⟩
  have hclamp := ticks_clamp id (animateCounter id e) c (c + 1) rfl
    (fun j _ h2 => hbelow j (by omega))
    (by
      rw [hrv]
      have h1 : (counterDuration e : ℚ) / 16 ≤ ((c + 1 : ℕ) : ℚ) := by
        rw [← hc]; exact Nat.le_ceil _
      have h2 : (1 : ℚ) ≤ ((c + 1 : ℕ) : ℚ) / ((counterDuration e : ℚ) / 16) :=
        (one_le_div hDq).mpr h1
      show (counterTarget e : ℚ) ≤ _
      nlinarith)
    le_rfl
  obtain ⟨hT250, hD250, hS250⟩ := counter250_values
  have hsmall : ∀ z : ℤ, -1000000000 < z → z < 1000000000 → |z| < 2 ^ 53 :=
    fun z h1 h2 => abs_lt_two_pow_53 h1 h2
  refine ⟨?_, ?_, ?_, ?_, ?_, ?_, ?_⟩
  · intro k hk1 hk
    have hrun := ticks_running id (animateCounter id e) k rfl (fun j _ h2 => hbelow j (by omega))
    rw [hrun]
    refine ⟨rfl, ⌊runningValue id (animateCounter id e).current
      (animateCounter id e).increment k⌋, ?_, ?_⟩
    · simp only [Nat.pos_iff_ne_zero.mp hk1, if_false]
    · exact Int.floor_lt.mpr (hbelow k hk)
  · rw [hc, hclamp]
  · rw [hc, hclamp]; rfl
  · intro hnone
    unfold counterDuration
    rw [hnone]
    decide
  · intro k hk1 hk
    have h := counter_int_running counter250 125 2 k (hsmall _ (by omega) (by omega))
      (hsmall _ (by omega) (by omega)) (by rw [hD250]; norm_num) (by rw [hT250]; norm_num)
      (by
        intro j h1 h2
        rw [hS250, hT250]
        exact ⟨hsmall _ (by omega) (by omega), by omega⟩)
    rw [h, hS250]
    refine ⟨rfl, ?_⟩
    simp only [Nat.pos_iff_ne_zero.mp hk1, if_false]
    congr 1
    omega
  · rw [counter_int_clamp counter250 125 2 124 125 (hsmall _ (by omega) (by omega))
      (hsmall _ (by omega) (by omega)) (by rw [hD250]; norm_num) (by rw [hT250]; norm_num)
      (by
        intro j h1 h2
        rw [hS250, hT250]
        exact ⟨hsmall _ (by omega) (by omega), by omega⟩)
      (by rw [hS250, hT250]; exact ⟨hsmall _ (by omega) (by omega), by omega⟩) le_rfl]
  · rw [counter_int_clamp counter250 125 2 124 125 (hsmall _ (by omega) (by omega))
      (hsmall _ (by omega) (by omega)) (by rw [hD250]; norm_num) (by rw [hT250]; norm_num)
      (by
        intro j h1 h2
        rw [hS250, hT250]
        exact ⟨hsmall _ (by omega) (by omega), by omega⟩)
      (by rw [hS250, hT250]; exact ⟨hsmall _ (by omega) (by omega), by omega⟩) le_rfl]
    rw [hT250]

/-- The amended C9 at the counter with text `0`, target `250` and no
`data-duration`: `⌈2000 / 16⌉ = 125`. -/
theorem counter_clamp_tick_witness :
    ⌈(counterDuration counter250 : ℚ) / 16⌉₊ = 125 ∧
    ((animateCounter id counter250).ticks id ⌈(counterDuration counter250 : ℚ) / 16⌉₊).shown =
      some (counterTarget counter250) ∧
    ((animateCounter id counter250).ticks id 124).running = true := by
  have h := counter_clamp_tick counter250 (by decide) (by decide) (by decide)
  have hc : ⌈(counterDuration counter250 : ℚ) / 16⌉₊ = 125 := by
    rw [counter250_values.2.1]; norm_num
  refine ⟨hc, h.2.2.1, ?_⟩
  exact (h.1 124 (by omega) (by rw [hc]; omega)).1

/-- With target `250` and duration `-2000` the increment is `-2`, the running value
never reaches the target and the timer is never cleared. -/
theorem counterNegativeDuration_never_cleared :
    ¬ ∃ n, ((animateCounter roundDouble counterNegativeDuration).ticks roundDouble n).running
      = false := by
  obtain ⟨hT, hD, hS⟩ := counterNegativeDuration_values
  have h0 := animateCounter_int counterNegativeDuration (-125) (-2)
    (abs_lt_two_pow_53 (by omega) (by omega)) (abs_lt_two_pow_53 (by omega) (by omega))
    (by rw [hD]; norm_num) (by rw [hT]; norm_num)
  have hinc : (animateCounter roundDouble counterNegativeDuration).increment = -2 := by
    rw [h0]; norm_num
  have htar : (animateCounter roundDouble counterNegativeDuration).target = 250 := hT
  have hcur : (animateCounter roundDouble counterNegativeDuration).current = 0 := by
    rw [h0, hS]; norm_num
  have inv : ∀ n, ((animateCounter roundDouble counterNegativeDuration).ticks roundDouble n).running
      = true ∧
      ((animateCounter roundDouble counterNegativeDuration).ticks roundDouble n).current ≤ 0 := by
    intro n
    induction n with
    | zero => exact ⟨rfl, le_of_eq hcur⟩
    | succ n ih =>
      obtain ⟨ht, hi⟩ := ticks_target roundDouble
        (animateCounter roundDouble counterNegativeDuration) n
      rw [htar] at ht
      rw [hinc] at hi
      have hle : roundDouble
          (((animateCounter roundDouble counterNegativeDuration).ticks roundDouble n).current +
            ((animateCounter roundDouble counterNegativeDuration).ticks roundDouble n).increment)
          ≤ 0 := by
        apply roundDouble_nonpos
        rw [hi]
        have := ih.2
        linarith
      have hnot : ¬ ((((animateCounter roundDouble counterNegativeDuration).ticks roundDouble
          n).target : ℤ) : ℚ) ≤ roundDouble
          (((animateCounter roundDouble counterNegativeDuration).ticks roundDouble n).current +
            ((animateCounter roundDouble counterNegativeDuration).ticks roundDouble n).increment)
          := by
        rw [ht]
        push_cast
        linarith
      simp only [CounterTimer.ticks, CounterTimer.tick, ih.1, if_true, hnot, if_false]
      exact ⟨trivial, hle⟩
  rintro ⟨n, hn⟩
  rw [(inv n).1] at hn
  exact absurd hn (by simp)

theorem counterAbsorbed_values :
    counterTarget counterAbsorbed = 1 ∧ counterDuration counterAbsorbed = 2000 ∧
      counterStart counterAbsorbed = -4503599627370496 := by
  refine ⟨by decide, by decide, ?_⟩
  have htext : counterAbsorbed.text = [] ++ ['-'] ++ "4503599627370496".toList ++ [] := by
    decide
  have hp := parseInt_decimal [] ['-'] "4503599627370496".toList [] (by decide) (by decide)
    (by decide) (by decide) (by decide) (by decide)
  have hd : decimalValue "4503599627370496".toList = 4503599627370496 := by decide
  have hv : signedValue ['-'] "4503599627370496".toList = -4503599627370496 := by
    unfold signedValue
    rw [if_pos rfl, hd]
    rfl
  unfold counterStart
  rw [htext, hp, hv, numberOfInt_small _ (by norm_num), orDefault_zero]

/-- With text `-2 ^ 52`, target `1` and the default duration the increment is the
double nearest to `0.008`; it is positive, and adding it to `-2 ^ 52` gives
`-2 ^ 52` again, so that the timer is never cleared. -/
theorem counterAbsorbed_never_cleared :
    0 < (animateCounter roundDouble counterAbsorbed).increment ∧
    ¬ ∃ n, ((animateCounter roundDouble counterAbsorbed).ticks roundDouble n).running = false := by
  obtain ⟨hT, hD, hS⟩ := counterAbsorbed_values
  have hinc := animateCounter_increment counterAbsorbed
  rw [hT, hD] at hinc
  have hcur : (animateCounter roundDouble counterAbsorbed).current =
      ((-4503599627370496 : ℤ) : ℚ) := by
    show ((counterStart counterAbsorbed : ℤ) : ℚ) = _
    rw [hS]
  have htar : (animateCounter roundDouble counterAbsorbed).target = 1 := hT
  have hpos : 0 < (animateCounter roundDouble counterAbsorbed).increment := by
    rw [hinc]
    exact roundDouble_pos (by norm_num)
  have hsmall : (animateCounter roundDouble counterAbsorbed).increment ≤ 1 / 8 := by
    rw [hinc]
    exact roundDouble_le_double ⟨1, -3, by norm_num, by norm_num⟩ (by norm_num)
  refine ⟨hpos, ?_⟩
  rintro ⟨n, hn⟩
  have hfix : roundDouble ((animateCounter roundDouble counterAbsorbed).current +
      (animateCounter roundDouble counterAbsorbed).increment) =
      (animateCounter roundDouble counterAbsorbed).current := by
    rw [hcur]
    generalize (animateCounter roundDouble counterAbsorbed).increment = i at hpos hsmall
    have hneg : ((-4503599627370496 : ℤ) : ℚ) + i < 0 := by
      push_cast
      linarith
    have hx : (((-4503599627370496 : ℤ) : ℚ) + i) / 2 ^ ((51 : ℤ) - 52) =
        ((-9007199254740992 : ℤ) : ℚ) + 2 * i := by
      norm_num
      ring
    rw [roundDouble_eq _ 51 (-9007199254740992)
      (by rw [abs_of_neg hneg]; push_cast; norm_num; linarith)
      (by rw [abs_of_neg hneg]; push_cast; norm_num; linarith)
      (by rw [hx]; exact roundHalfEven_add_small _ _ (by linarith) (by linarith))]
    norm_num
  have hrun := counter_stuck (animateCounter roundDouble counterAbsorbed) rfl hfix
    (by rw [hcur, htar]; norm_num) n
  rw [hrun] at hn
  exact absurd hn (by simp)

/-- C14 fails for a negative `data-duration` and for a start value that absorbs the
increment.  With target `250` and duration `-2000` the increment is `-2`, the
running value never reaches the target and the timer is never cleared.  With text
`-4503599627370496`, target `1` and the default duration the increment is
positive, yet the sum of start value and increment rounds back to the start value
and the timer is never cleared. -/
theorem counter_timer_runs_forever :
    (¬ ∃ n, ((animateCounter roundDouble counterNegativeDuration).ticks roundDouble n).running
      = false) ∧
    0 < (animateCounter roundDouble counterAbsorbed).increment ∧
    (¬ ∃ n, ((animateCounter roundDouble counterAbsorbed).ticks roundDouble n).running
      = false) :=
  ⟨counterNegativeDuration_never_cleared, counterAbsorbed_never_cleared.1,
    counterAbsorbed_never_cleared.2⟩

/-- C14, amended: in JavaScript's double arithmetic, if the repeating timer of
`animateCounter` is ever cleared, then the increment `target / (duration / 16)` is
positive or the first tick already reaches the target (the sum of start value and
increment, rounded, is at least the target); otherwise the timer runs forever.
Conversely, when the duration is at most `2 ^ 30` and a negative start value is at
most `2 ^ 52` times the increment in magnitude (and is not read as `-Infinity`),
either of the two conditions makes the timer clear after finitely many ticks. -/
theorem counter_timer_cleared_iff (e : Element) :
    ((∃ n, ((animateCounter roundDouble e).ticks roundDouble n).running = false) →
      (0 < (animateCounter roundDouble e).increment ∨
        (counterTarget e : ℚ) ≤
          roundDouble (counterStart e + (animateCounter roundDouble e).increment))) ∧
    ((¬ (0 < (animateCounter roundDouble e).increment ∨
        (counterTarget e : ℚ) ≤
          roundDouble (counterStart e + (animateCounter roundDouble e).increment))) →
      ∀ n, ((animateCounter roundDouble e).ticks roundDouble n).running = true) ∧
    (counterDuration e ≤ 2 ^ 30 → -(2 ^ 1023) < counterStart e →
      (counterStart e < 0 → 0 < (animateCounter roundDouble e).increment →
        -(counterStart e : ℚ) ≤ 2 ^ 52 * (animateCounter roundDouble e).increment) →
      (0 < (animateCounter roundDouble e).increment ∨
        (counterTarget e : ℚ) ≤
          roundDouble (counterStart e + (animateCounter roundDouble e).increment)) →
      ∃ n, ((animateCounter roundDouble e).ticks roundDouble n).running = false) := by
  have hnever : (¬ (0 < (animateCounter roundDouble e).increment ∨
        (counterTarget e : ℚ) ≤
          roundDouble (counterStart e + (animateCounter roundDouble e).increment))) →
      ∀ n, ((animateCounter roundDouble e).ticks roundDouble n).running = true := by
    intro hc n
    rw [not_or, not_lt, not_le] at hc
    exact counter_never_cleared (animateCounter roundDouble e) rfl hc.1 hc.2 n
  refine ⟨?_, hnever, ?_⟩
  · rintro ⟨n, hn⟩
    by_contra hc
    rw [hnever hc n] at hn
    exact absurd hn (by simp)
  · rintro hD _ hS (hpos | hfirst)
    · obtain ⟨j, hj1, hj⟩ := counter_double_cleared e hD (fun h => hS h hpos) hpos
      exact ⟨j, by rw [ticks_reached roundDouble _ j rfl ⟨j, hj1, le_rfl, hj⟩]⟩
    · have hcur : (animateCounter roundDouble e).current = counterStart e := rfl
      have htar : (animateCounter roundDouble e).target = counterTarget e := rfl
      have h1 : ((animateCounter roundDouble e).target : ℚ) ≤
          runningValue roundDouble (animateCounter roundDouble e).current
            (animateCounter roundDouble e).increment 1 := by
        rw [runningValue_one, hcur, htar]
        exact hfirst
      exact ⟨1, by rw [ticks_reached roundDouble _ 1 rfl ⟨1, le_rfl, le_rfl, h1⟩]⟩

/-- The amended C14 at the counter with text `-100`, target `250` and the default
duration: the increment is `2`, the start value is not absorbed, and the timer is
cleared after finitely many ticks. -/
theorem counter_timer_cleared_iff_witness :
    (animateCounter roundDouble counterNegativeStart).increment = 2 ∧
    ∃ n, ((animateCounter roundDouble counterNegativeStart).ticks roundDouble n).running
      = false := by
  obtain ⟨hT, hD, hS⟩ := counterNegativeStart_values
  have hinc : (animateCounter roundDouble counterNegativeStart).increment = 2 := by
    rw [animateCounter_int counterNegativeStart 125 2
      (abs_lt_two_pow_53 (by omega) (by omega)) (abs_lt_two_pow_53 (by omega) (by omega))
      (by rw [hD]; norm_num) (by rw [hT]; norm_num)]
    norm_num
  have hfin : -((2 : ℤ) ^ 1023) < counterStart counterNegativeStart := by
    rw [hS]
    have h7 : (2 : ℤ) ^ 7 ≤ 2 ^ 1023 := pow_le_pow_right₀ (by norm_num) (by norm_num)
    have h8 : (2 : ℤ) ^ 7 = 128 := by norm_num
    omega
  refine ⟨hinc, (counter_timer_cleared_iff counterNegativeStart).2.2 (by rw [hD]; norm_num)
    hfin (fun _ _ => by rw [hinc, hS]; norm_num) (Or.inl (by rw [hinc]; norm_num))⟩

/-! ## The reveal dispatcher (C2, C4, C8, C19) -/

theorem staggerTimers_getElem (now : Nat) (container : Element) (k : Nat) (child : Nat)
    (h : container.children[k]? = some child) :
    (staggerChildrenAnimation now container)[k]? =
      some ({ due := now + k * staggerDelay, task := Task.reveal child } : Timer) := by
  simp only [staggerChildrenAnimation, List.getElem?_map, List.getElem?_enum, h, setTimeout,
    Option.map_some', Int.toNat_ofNat]

theorem enumFrom_pairwise {α : Type} (l : List α) (n : Nat) :
    (List.enumFrom n l).Pairwise (fun a b => a.1 ≤ b.1) := by
  induction l generalizing n with
  | nil => exact List.Pairwise.nil
  | cons a l ih =>
    rw [List.enumFrom_cons, List.pairwise_cons]
    refine ⟨?_, ih (n + 1)⟩
    intro b hb
    have := List.le_fst_of_mem_enumFrom hb
    simp only at *
    omega

/-- C4: `staggerChildrenAnimation` sets exactly one timer per child; the timer of
the `k`-th child (0-indexed, document order) is due `k * staggerDelay` ms after
the call, with `staggerDelay = 100`, and its callback gives that child opacity
`1` and `translateY(0)`; the due times are non-decreasing in document order. -/
theorem stagger_schedule (now : Nat) (container : Element) :
    (staggerChildrenAnimation now container).length = container.children.length ∧
    (∀ (k child : Nat), container.children[k]? = some child →
      (staggerChildrenAnimation now container)[k]? =
        some ({ due := now + k * staggerDelay, task := Task.reveal child } : Timer)) ∧
    (staggerChildrenAnimation now container).Pairwise (fun a b => a.due ≤ b.due) ∧
    staggerDelay = 100 ∧
    (∀ child : Element, (revealChild child).opacity = some ['1'] ∧
      (revealChild child).translateY = some 0) := by
  refine ⟨by simp [staggerChildrenAnimation], staggerTimers_getElem now container, ?_, rfl,
    fun child => ⟨rfl, rfl⟩⟩
  unfold staggerChildrenAnimation
  rw [List.pairwise_map]
  refine (enumFrom_pairwise container.children 0).imp ?_
  intro a b hab
  simp only [setTimeout, Int.toNat_ofNat]
  exact Nat.add_le_add_left (Nat.mul_le_mul_right _ hab) _

theorem mem_unobserve {l : List Nat} {i j : Nat} : i ∈ unobserve l j ↔ i ∈ l ∧ i ≠ j := by
  simp [unobserve]

theorem onEntry_doc (p : Page) (now : Nat) (en : Entry) : (p.onEntry now en).doc = p.doc := by
  unfold Page.onEntry
  split_ifs
  · split <;> rfl
  · rfl

theorem onEntry_other (p : Page) (now : Nat) (en : Entry) (i : Nat) (h : en.target ≠ i) :
    triggerCount (p.onEntry now en) i = triggerCount p i ∧
      (i ∈ (p.onEntry now en).observed ↔ i ∈ p.observed) := by
  unfold Page.onEntry
  split_ifs
  · split
    · exact ⟨rfl, Iff.rfl⟩
    · refine ⟨?_, ?_⟩
      · simp [triggerCount, List.filter_append, setTimeout, h]
      · simp only [mem_unobserve]
        exact ⟨fun hh => hh.1, fun hh => ⟨hh, fun e => h e.symm⟩⟩
  · exact ⟨rfl, Iff.rfl⟩

theorem onEntry_same (p : Page) (now : Nat) (en : Entry) (i : Nat) (h : en.target = i) :
    triggerCount (p.onEntry now en) i + (if i ∈ (p.onEntry now en).observed then 1 else 0) ≤
      triggerCount p i + 1 := by
  subst h
  by_cases hint : en.isIntersecting = true
  · cases hdoc : p.doc[en.target]? with
    | none =>
      have : p.onEntry now en = p := by simp [Page.onEntry, hint, hdoc]
      rw [this]
      split_ifs <;> omega
    | some element =>
      have hobs : en.target ∉ (p.onEntry now en).observed := by
        simp [Page.onEntry, hint, hdoc, mem_unobserve]
      have hcount : triggerCount (p.onEntry now en) en.target =
          triggerCount p en.target + 1 := by
        simp [Page.onEntry, hint, hdoc, triggerCount, List.filter_append, setTimeout]
      rw [if_neg hobs, hcount]
  · have : p.onEntry now en = p := by simp [Page.onEntry, hint]
    rw [this]
    split_ifs <;> omega

theorem onEntry_count_mono (p : Page) (now : Nat) (en : Entry) (i : Nat) :
    triggerCount p i ≤ triggerCount (p.onEntry now en) i := by
  unfold Page.onEntry
  split_ifs
  · split
    · exact le_rfl
    · simp only [triggerCount, List.filter_append, List.length_append]
      omega
  · exact le_rfl

theorem onEntry_observed_subset (p : Page) (now : Nat) (en : Entry) (i : Nat)
    (h : i ∈ (p.onEntry now en).observed) : i ∈ p.observed := by
  unfold Page.onEntry at h
  split_ifs at h
  · split at h
    · exact h
    · exact (mem_unobserve.mp h).1
  · exact h

/-- Entries of other elements neither schedule the trigger body of `i` nor change
whether `i` is observed. -/
theorem callback_others (i : Nat) (now : Nat) (entries : List Entry) (p : Page)
    (h : ∀ en ∈ entries, en.target ≠ i) :
    triggerCount (p.animationCallback now entries) i = triggerCount p i ∧
      (i ∈ (p.animationCallback now entries).observed ↔ i ∈ p.observed) := by
  induction entries generalizing p with
  | nil => exact ⟨rfl, Iff.rfl⟩
  | cons en rest ih =>
    have h1 := onEntry_other p now en i (h en (List.mem_cons_self _ _))
    have h2 := ih (p.onEntry now en) (fun e he => h e (List.mem_cons_of_mem _ he))
    simp only [Page.animationCallback, List.foldl_cons] at h2 ⊢
    exact ⟨h2.1.trans h1.1, h2.2.trans h1.2⟩

/-- The number of scheduled trigger bodies of `i`, plus one while `i` is observed,
does not grow over a notification that names each element once. -/
theorem callback_potential (i : Nat) (now : Nat) (entries : List Entry) (p : Page)
    (hnodup : (entries.map Entry.target).Nodup)
    (hobs : ∀ en ∈ entries, en.target = i → i ∈ p.observed) :
    triggerCount (p.animationCallback now entries) i +
        (if i ∈ (p.animationCallback now entries).observed then 1 else 0) ≤
      triggerCount p i + (if i ∈ p.observed then 1 else 0) := by
  induction entries generalizing p with
  | nil => exact le_rfl
  | cons en rest ih =>
    rw [List.map_cons, List.nodup_cons] at hnodup
    show triggerCount ((p.onEntry now en).animationCallback now rest) i +
        (if i ∈ ((p.onEntry now en).animationCallback now rest).observed then 1 else 0) ≤ _
    by_cases hi : en.target = i
    · have hrest : ∀ e ∈ rest, e.target ≠ i := by
        intro e he hei
        exact hnodup.1 (by rw [hi, ← hei]; exact List.mem_map_of_mem _ he)
      have h1 := callback_others i now rest (p.onEntry now en) hrest
      have h2 := onEntry_same p now en i hi
      have h3 : i ∈ p.observed := hobs en (List.mem_cons_self _ _) hi
      rw [h1.1]
      simp only [h1.2, h3, if_true]
      exact h2
    · have h1 := onEntry_other p now en i hi
      have h2 := ih (p.onEntry now en) hnodup.2
        (fun e he hei => h1.2.mpr (hobs e (List.mem_cons_of_mem _ he) hei))
      rw [h1.1] at h2
      simp only [h1.2] at h2
      exact h2

theorem intersect_potential (i : Nat) (now : Nat) (entries : List Entry) (p : Page)
    (hnodup : (entries.map Entry.target).Nodup) :
    triggerCount (p.intersect now entries) i +
        (if i ∈ (p.intersect now entries).observed then 1 else 0) ≤
      triggerCount p i + (if i ∈ p.observed then 1 else 0) := by
  apply callback_potential
  · exact hnodup.sublist (List.Sublist.map _ (List.filter_sublist _))
  · intro en hen hi
    have := (List.mem_filter.mp hen).2
    simpa [hi] using this

theorem intersections_potential (i : Nat) (batches : List (Nat × List Entry)) (p : Page)
    (hnodup : ∀ b ∈ batches, (b.2.map Entry.target).Nodup) :
    triggerCount (p.intersections batches) i +
        (if i ∈ (p.intersections batches).observed then 1 else 0) ≤
      triggerCount p i + (if i ∈ p.observed then 1 else 0) := by
  induction batches generalizing p with
  | nil => exact le_rfl
  | cons b rest ih =>
    have h1 := intersect_potential i b.1 b.2 p (hnodup b (List.mem_cons_self _ _))
    have h2 := ih (p.intersect b.1 b.2) (fun c hc => hnodup c (List.mem_cons_of_mem _ hc))
    simp only [Page.intersections, List.foldl_cons] at h2 ⊢
    exact h2.trans h1

/-- The trigger body of an element is scheduled at most once over any sequence
of notifications. -/
theorem triggerCount_intersections_le (i : Nat) (batches : List (Nat × List Entry)) (p : Page)
    (hnone : triggerCount p i = 0)
    (hnodup : ∀ b ∈ batches, (b.2.map Entry.target).Nodup) :
    triggerCount (p.intersections batches) i ≤ 1 := by
  have h := intersections_potential i batches p hnodup
  rw [hnone] at h
  split_ifs at h <;> omega

/-- An element that is not observed gets no trigger body, whatever is notified. -/
theorem intersections_unobserved (i : Nat) (batches : List (Nat × List Entry)) (p : Page)
    (h : i ∉ p.observed) :
    triggerCount (p.intersections batches) i = triggerCount p i ∧
      i ∉ (p.intersections batches).observed := by
  induction batches generalizing p with
  | nil => exact ⟨rfl, h⟩
  | cons b rest ih =>
    have h1 := callback_others i b.1 (b.2.filter (fun en => p.observed.contains en.target)) p
      (by
        intro en hen hi
        have := (List.mem_filter.mp hen).2
        rw [hi] at this
        exact h (by simpa using this))
    have h2 := ih (p.intersect b.1 b.2) (fun hh => h (h1.2.mp hh))
    simp only [Page.intersections, List.foldl_cons] at h2 ⊢
    exact ⟨h2.1.trans h1.1, h2.2⟩

theorem callback_observed_subset (i : Nat) (now : Nat) (entries : List Entry) (p : Page)
    (h : i ∈ (p.animationCallback now entries).observed) : i ∈ p.observed := by
  induction entries generalizing p with
  | nil => exact h
  | cons en rest ih => exact onEntry_observed_subset p now en i (ih (p.onEntry now en) h)

theorem callback_doc (now : Nat) (entries : List Entry) (p : Page) :
    (p.animationCallback now entries).doc = p.doc := by
  induction entries generalizing p with
  | nil => rfl
  | cons en rest ih => exact (ih (p.onEntry now en)).trans (onEntry_doc p now en)

/-- An intersecting entry of an element of the document unobserves it. -/
theorem callback_unobserves (i : Nat) (now : Nat) (entries : List Entry) (p : Page)
    (hdoc : i < p.doc.length) (hmem : ({ target := i, isIntersecting := true } : Entry) ∈ entries) :
    i ∉ (p.animationCallback now entries).observed := by
  induction entries generalizing p with
  | nil => simp at hmem
  | cons en rest ih =>
    rcases List.mem_cons.mp hmem with h | h
    · intro hobs
      have h1 := callback_observed_subset i now rest (p.onEntry now en) hobs
      subst h
      have hsome : p.doc[i]? = some p.doc[i] := List.getElem?_eq_getElem hdoc
      simp only [Page.onEntry, if_true, hsome, mem_unobserve] at h1
      exact h1.2 rfl
    · exact ih (p.onEntry now en) (by rw [onEntry_doc]; exact hdoc) h

theorem callback_schedules (i : Nat) (now : Nat) (entries : List Entry) (p : Page)
    (hdoc : i < p.doc.length) (hmem : ({ target := i, isIntersecting := true } : Entry) ∈ entries) :
    triggerCount p i + 1 ≤ triggerCount (p.animationCallback now entries) i := by
  induction entries generalizing p with
  | nil => simp at hmem
  | cons en rest ih =>
    have hmono : ∀ (l : List Entry) (q : Page),
        triggerCount q i ≤ triggerCount (q.animationCallback now l) i := by
      intro l
      induction l with
      | nil => intro q; exact le_rfl
      | cons e l ihl => intro q; exact (onEntry_count_mono q now e i).trans (ihl (q.onEntry now e))
    rcases List.mem_cons.mp hmem with h | h
    · subst h
      have hsome : p.doc[i]? = some p.doc[i] := List.getElem?_eq_getElem hdoc
      have h1 : triggerCount (p.onEntry now ⟨i, true⟩) i = triggerCount p i + 1 := by
        simp [Page.onEntry, hsome, triggerCount, List.filter_append, setTimeout]
      have h2 := hmono rest (p.onEntry now ⟨i, true⟩)
      show _ ≤ triggerCount ((p.onEntry now ⟨i, true⟩).animationCallback now rest) i
      omega
    · have h1 := ih (p.onEntry now en) (by rw [onEntry_doc]; exact hdoc) h
      have h2 := onEntry_count_mono p now en i
      show _ ≤ triggerCount ((p.onEntry now en).animationCallback now rest) i
      omega

/-- C2: over every sequence of notifications of `animationObserver` (each naming
an element at most once) the trigger body of an element is scheduled at most
once.  The first intersecting notification of an observed element schedules it
and unobserves the element, and an element that is no longer observed gets no
further trigger, whatever is notified later.  The callback of `revealObserver`
unobserves its target in the same way. -/
theorem trigger_at_most_once (p : Page) (i : Nat) (batches : List (Nat × List Entry))
    (hnone : triggerCount p i = 0)
    (hnodup : ∀ b ∈ batches, (b.2.map Entry.target).Nodup) :
    triggerCount (p.intersections batches) i ≤ 1 ∧
    (∀ now entries, i ∈ p.observed → i < p.doc.length → (entries.map Entry.target).Nodup →
      ({ target := i, isIntersecting := true } : Entry) ∈ entries →
      triggerCount (p.intersect now entries) i = 1 ∧ i ∉ (p.intersect now entries).observed ∧
      ∀ later, triggerCount ((p.intersect now entries).intersections later) i = 1) ∧
    (∀ entry : Entry, entry.isIntersecting = true →
      entry.target ∉ (p.onRevealEntry entry).revealObserved) := by
  refine ⟨triggerCount_intersections_le i batches p hnone hnodup, ?_, ?_⟩
  · intro now entries hobs hdoc hnd hmem
    have hfilt : ({ target := i, isIntersecting := true } : Entry) ∈
        entries.filter (fun en => p.observed.contains en.target) :=
      List.mem_filter.mpr ⟨hmem, by simpa using hobs⟩
    have h1 := callback_schedules i now _ p hdoc hfilt
    have h2 := callback_unobserves i now _ p hdoc hfilt
    have h3 := intersect_potential i now entries p hnd
    have hone : triggerCount (p.intersect now entries) i = 1 := by
      have h1' : triggerCount p i + 1 ≤ triggerCount (p.intersect now entries) i := h1
      rw [hnone] at h3 h1'
      split_ifs at h3 <;> omega
    have hun : i ∉ (p.intersect now entries).observed := h2
    refine ⟨hone, hun, ?_⟩
    intro later
    rw [(intersections_unobserved i later _ hun).1, hone]
  · intro entry hint
    simp [Page.onRevealEntry, hint, mem_unobserve]

/-- C2 at the skill page: the bar enters the viewport, leaves it and comes back,
and its trigger body has been scheduled once. -/
theorem trigger_at_most_once_witness :
    triggerCount (skillPageReady.intersections reentry) 0 ≤ 1 ∧
    triggerCount (skillPageReady.intersections reentry) 0 = 1 :=
  ⟨(trigger_at_most_once skillPageReady 0 reentry (by decide) (by decide)).1,
   ((trigger_at_most_once skillPageReady 0 reentry (by decide) (by decide)).2.1
      1000 [⟨0, true⟩] (by decide) (by decide) (by decide) (by decide)).2.2
      [(3000, [⟨0, false⟩]), (5000, [⟨0, true⟩])]⟩

theorem hasClass_addClass (e : Element) (c d : String) :
    (e.addClass c).hasClass d = true ↔ (e.hasClass d = true ∨ d = c) := by
  unfold Element.addClass Element.hasClass
  split_ifs with h
  · constructor
    · exact Or.inl
    · rintro (h1 | rfl)
      · exact h1
      · exact h
  · simp [List.mem_append]

theorem getAttribute_addClass (e : Element) (c name : String) :
    (e.addClass c).getAttribute name = e.getAttribute name := by
  unfold Element.addClass Element.getAttribute
  split_ifs <;> rfl

theorem modify_getElem (p : Page) (i j : Nat) (f : Element → Element) :
    (p.modify i f).doc[j]? = (p.doc[j]?).map (fun e => if j = i then f e else e) := by
  simp only [Page.modify, List.getElem?_map, List.getElem?_enum, Option.map_map]
  cases p.doc[j]? <;> rfl

theorem widthTimers_stagger (now : Nat) (e : Element) (i : Nat) :
    (staggerChildrenAnimation now e).filter (fun t =>
      match t.task with
      | Task.setWidth j _ => j = i
      | _ => false) = [] := by
  rw [List.filter_eq_nil_iff]
  intro t ht
  simp only [staggerChildrenAnimation, List.mem_map] at ht
  obtain ⟨x, _, rfl⟩ := ht
  simp [setTimeout]

/-- The trigger body of a progress bar sets one width timer, due 100 ms later. -/
theorem triggerBody_widthTimers (rnd : ℚ → ℚ) (p : Page) (i : Nat) (e : Element) (w : Str)
    (now : Nat) (hdoc : p.doc[i]? = some e) (hclass : e.hasClass "skill-progress" = true)
    (hw : e.getAttribute "data-width" = some w) (hne : w ≠ []) :
    widthTimers (p.triggerBody rnd now i) i =
      widthTimers p i ++ [{ due := now + 100, task := Task.setWidth i w }] := by
  have hc : (e.addClass "aos-animate").hasClass "skill-progress" = true := by
    exact (hasClass_addClass e _ _).mpr (Or.inl hclass)
  have hattr : (e.addClass "aos-animate").getAttribute "data-width" = some w := by
    rw [getAttribute_addClass, hw]
  have htimer : (animateProgressBar now i (e.addClass "aos-animate")).2 =
      { due := now + 100, task := Task.setWidth i w } := by
    simp [animateProgressBar, hattr, hne, setTimeout]
  unfold Page.triggerBody
  simp only [hdoc, hc, if_true, htimer]
  by_cases hs : (e.addClass "aos-animate").hasClass "stagger-children" = true <;>
    by_cases hk : (e.addClass "aos-animate").hasClass "counter" = true <;>
    simp [hs, hk, widthTimers, Page.modify, List.filter_append, widthTimers_stagger]

/-- C8 fails on a page that loads both scripts: the skill bar with
`data-width="80%"` enters the viewport at 1000 ms and again at 5000 ms, and its
width is set three times, at 1000 ms and 5000 ms by the observer of
`initializeHero` and at 1300 ms by the timer of `animateProgressBar`. -/
theorem progress_width_set_three_times :
    skillPageVisited.widthWrites =
      [(1000, 0, "80%".toList), (1300, 0, "80%".toList), (5000, 0, "80%".toList)] := by
  decide

/-- C8, amended: for a progress element with target width `W`, `animations.js`
sets the width to `W` once: the trigger body sets one timer, due 100 ms later,
whose callback writes `W`, and the trigger body is scheduled at most once over
all viewport entries.  The observer that `initializeHero` of `main.js` creates
writes `W` as well, at every intersecting notification, and keeps observing. -/
theorem progress_width_once (rnd : ℚ → ℚ) (p : Page) (i : Nat) (e : Element) (w : Str)
    (now : Nat) (hdoc : p.doc[i]? = some e) (hclass : e.hasClass "skill-progress" = true)
    (hw : e.getAttribute "data-width" = some w) (hne : w ≠ []) :
    widthTimers (p.triggerBody rnd now i) i =
      widthTimers p i ++ [{ due := now + 100, task := Task.setWidth i w }] ∧
    (p.runTask rnd { due := now + 100, task := Task.setWidth i w }).widthWrites =
      p.widthWrites ++ [(now + 100, i, w)] ∧
    (∀ batches : List (Nat × List Entry), triggerCount p i = 0 →
      (∀ b ∈ batches, (b.2.map Entry.target).Nodup) →
      triggerCount (p.intersections batches) i ≤ 1) ∧
    (∀ t, i ∈ p.heroObserved →
      (p.heroIntersect t [⟨i, true⟩]).widthWrites = p.widthWrites ++ [(t, i, w)] ∧
      (p.heroIntersect t [⟨i, true⟩]).heroObserved = p.heroObserved) := by
  refine ⟨triggerBody_widthTimers rnd p i e w now hdoc hclass hw hne, rfl, ?_, ?_⟩
  · intro batches hnone hnodup
    exact triggerCount_intersections_le i batches p hnone hnodup
  · intro t hobs
    have hc : p.heroObserved.contains i = true := by simpa using hobs
    simp [Page.heroIntersect, List.filter, hobs, Page.onHeroEntry, hdoc, hw, Page.modify]

/-- The amended C8 at the skill bar of the skill page, triggered at 1200 ms. -/
theorem progress_width_once_witness :
    widthTimers (skillPageReady.triggerBody id 1200 0) 0 =
      [{ due := 1300, task := Task.setWidth 0 "80%".toList }] :=
  (progress_width_once id skillPageReady 0
    (({ classes := ["skill-progress"], attrs := [("data-width", "80%".toList)],
        width := some "0%".toList } : Element).setAttribute "data-aos"
          "fade-right".toList |>.setAttribute "data-aos-delay" "200".toList)
    "80%".toList 1200 (by rfl) (by decide) (by decide) (by decide)).1

/-- C19 fails for a stat heading that carries no other marker: after the
initialisation sequence the heading `50+` has the class `counter`, the text `0`
and `data-target="50"`, and `animationObserver` observes nothing, because
`initScrollAnimations` has looked for `.counter` before `initCounterAnimations`
adds the class. -/
theorem stat_counter_not_observed :
    (domContentLoaded (fun _ => 0) statPage).doc.map (fun e => (e.classes, e.attrs, e.text)) =
      [(["counter"], [("data-target", "50".toList)], "0".toList)] ∧
    (domContentLoaded (fun _ => 0) statPage).observed = [] := by
  decide

/-! ## Parallax and the scroll loop (C6, C12, C13) -/

theorem foldl_modify_getElem (f : Element → Element) (hf : ∀ e, f (f e) = f e)
    (l : List Nat) (p : Page) (j : Nat) :
    (l.foldl (fun q i => q.modify i f) p).doc[j]? =
      (p.doc[j]?).map (fun e => if j ∈ l then f e else e) := by
  induction l generalizing p with
  | nil =>
    simp only [List.foldl_nil]
    cases p.doc[j]? <;> simp
  | cons i rest ih =>
    rw [List.foldl_cons, ih, modify_getElem]
    cases p.doc[j]? with
    | none => rfl
    | some e =>
      simp only [Option.map_some', List.mem_cons]
      by_cases h1 : j = i <;> by_cases h2 : j ∈ rest <;> simp [h1, h2, hf]

theorem mem_select (p : Page) (sel : Element → Bool) (i : Nat) :
    i ∈ p.select sel ↔ ∃ e, p.doc[i]? = some e ∧ sel e = true := by
  simp only [Page.select, List.mem_map, List.mem_filter]
  constructor
  · rintro ⟨x, ⟨hx, hs⟩, rfl⟩
    exact ⟨x.2, (List.mk_mem_enum_iff_getElem?).mp hx, hs⟩
  · rintro ⟨e, he, hs⟩
    exact ⟨(i, e), ⟨(List.mk_mem_enum_iff_getElem?).mpr he, hs⟩, rfl⟩

/-- A double below `1` is at most `1 - 2 ^ -53`. -/
theorem isDouble_lt_one {r : ℚ} (hd : IsDouble r) (h : r < 1) : r ≤ 1 - 1 / 2 ^ 53 := by
  obtain ⟨m, k, hm, rfl⟩ := hd
  have hlt : |(m : ℚ) * 2 ^ k| < 2 ^ (53 + k) := isDouble_abs_lt hm rfl
  by_cases hk : (-1 : ℤ) - 52 ≤ k
  · obtain ⟨N, hN⟩ := double_on_grid (m := m) hk
    have hpos : (0 : ℚ) < 2 ^ ((-1 : ℤ) - 52) := by positivity
    have hval : (m : ℚ) * 2 ^ k = N * 2 ^ ((-1 : ℤ) - 52) := by
      rw [← hN]
      field_simp
    have hu : (2 : ℚ) ^ ((-1 : ℤ) - 52) = 1 / 2 ^ 53 := by norm_num
    rw [hval, hu] at h ⊢
    have hN1 : (N : ℚ) < 2 ^ 53 := by
      have := (lt_div_iff₀ (by positivity : (0 : ℚ) < 1 / 2 ^ 53)).mpr h
      norm_num at this ⊢
      exact this
    have hN2 : N < 2 ^ 53 := by exact_mod_cast hN1
    have hN3 : N ≤ 2 ^ 53 - 1 := by omega
    have hN4 : (N : ℚ) ≤ 2 ^ 53 - 1 := by exact_mod_cast hN3
    have := mul_le_mul_of_nonneg_right hN4 (by positivity : (0 : ℚ) ≤ 1 / 2 ^ 53)
    norm_num at this ⊢
    linarith
  · have hk' : 53 + k ≤ -1 := by omega
    have h2 : (2 : ℚ) ^ (53 + k) ≤ 2 ^ (-1 : ℤ) := zpow_le_zpow_right₀ (by norm_num) hk'
    have h3 := le_abs_self ((m : ℚ) * 2 ^ k)
    have h4 : (2 : ℚ) ^ (-1 : ℤ) = 1 / 2 := by norm_num
    rw [h4] at h2
    have : (1 : ℚ) / 2 ≤ 1 - 1 / 2 ^ 53 := by norm_num
    linarith

theorem roundDouble_fifth :
    roundDouble (1 / 5) = 3602879701896397 / 18014398509481984 := by
  rw [roundDouble_eq_pos _ (-3) 7205759403792794 (by norm_num) (by norm_num)
    (by norm_num [roundHalfEven])]
  norm_num

theorem roundDouble_seven_tenths :
    roundDouble (7 / 10) = 3152519739159347 / 4503599627370496 := by
  rw [roundDouble_eq_pos _ (-1) 6305039478318694 (by norm_num) (by norm_num)
    (by norm_num [roundHalfEven])]
  norm_num

/-- The speed that `initParallaxElements` gives a floating shape lies in
`[0.2, 0.7)` for every double `r` in `[0, 1)`. -/
theorem shape_speed_range (r : ℚ) (hd : IsDouble r) (h0 : 0 ≤ r) (h1 : r < 1) :
    1 / 5 ≤ roundDouble (roundDouble (r * (1 / 2)) + roundDouble (1 / 5)) ∧
    roundDouble (roundDouble (r * (1 / 2)) + roundDouble (1 / 5)) < 7 / 10 ∧
    roundDouble (roundDouble (r * (1 / 2)) + roundDouble (1 / 5)) ≤ roundDouble (7 / 10) := by
  have hr := isDouble_lt_one hd h1
  have hhalf0 : 0 ≤ roundDouble (r * (1 / 2)) := roundDouble_nonneg (by linarith)
  have hhalf1 : roundDouble (r * (1 / 2)) ≤ 9007199254740991 / 18014398509481984 :=
    roundDouble_le_double ⟨9007199254740991, -54, by norm_num, by norm_num⟩ (by
      norm_num at hr ⊢
      linarith)
  have hfifth : IsDouble (roundDouble (1 / 5)) := roundDouble_isDouble _
  have hmax := roundDouble_le_double (q := roundDouble (r * (1 / 2)) + roundDouble (1 / 5))
    (d := 3152519739159347 / 4503599627370496)
    ⟨3152519739159347, -52, by norm_num, by norm_num⟩ (by
      rw [roundDouble_fifth]
      have : (9007199254740991 : ℚ) / 18014398509481984 +
          3602879701896397 / 18014398509481984 = 3152519739159347 / 4503599627370496 := by
        norm_num
      linarith)
  refine ⟨?_, ?_, ?_⟩
  · have h := double_le_roundDouble hfifth
      (show roundDouble (1 / 5) ≤ roundDouble (r * (1 / 2)) + roundDouble (1 / 5) by linarith)
    rw [roundDouble_fifth] at h
    have : (1 : ℚ) / 5 ≤ 3602879701896397 / 18014398509481984 := by norm_num
    rw [roundDouble_fifth]
    linarith
  · have : (3152519739159347 : ℚ) / 4503599627370496 < 7 / 10 := by norm_num
    linarith
  · rw [roundDouble_seven_tenths]
    exact hmax

/-- The largest speed that `initParallaxElements` can give, for the largest double
below `1`, is the double nearest to `0.7`. -/
theorem shape_speed_largest :
    roundDouble (roundDouble ((1 - 1 / 2 ^ 53) * (1 / 2)) + roundDouble (1 / 5)) =
      roundDouble (7 / 10) := by
  have h1 : roundDouble ((1 - 1 / 2 ^ 53) * (1 / 2)) = 9007199254740991 / 18014398509481984 := by
    have := roundDouble_dyadic 9007199254740991 (-54) (by norm_num)
    norm_num at this ⊢
    exact this
  have h2 : roundDouble (9007199254740991 / 18014398509481984 +
      3602879701896397 / 18014398509481984) = 3152519739159347 / 4503599627370496 := by
    have := roundDouble_dyadic 3152519739159347 (-52) (by norm_num)
    norm_num at this ⊢
    exact this
  rw [h1, roundDouble_fifth, h2, roundDouble_seven_tenths]

/-- The element that `initParallaxElements` makes of a floating shape. -/
theorem initParallaxElements_shape (random : Nat → ℚ) (p : Page) (i : Nat) (e : Element)
    (hlen : (p.select (fun e => e.hasClass "parallax-element")).length = 0)
    (he : p.doc[i]? = some e) (hshape : e.isFloatingShape = true) :
    (initParallaxElements random p).doc[i]? =
      some { (e.addClass "parallax-element") with
        dataSpeed := some (roundDouble (roundDouble (random i * (1 / 2)) +
          roundDouble (1 / 5))) } := by
  simp [initParallaxElements, hlen, List.getElem?_map, List.getElem?_enum, he, hshape]

/-- C12 fails for `data-speed="0"`: at scroll position `100` the offset is
`-(100 * 0.5) = -50`, not `-(100 * 0) = 0`, because `0` is falsy and the
fallback `0.5` is taken.  And the bound `0.7` is reached in double arithmetic: for
the largest `r` below `1` the speed of a floating shape is the double nearest to
`0.7`, the value of the literal `0.7`. -/
theorem parallax_zero_speed_falls_back :
    (updateParallax roundDouble 100 zeroSpeedPage).doc.map (fun e => e.translateY) =
      [some (-50)] ∧
    (zeroSpeedPage.doc.map (fun e => e.dataSpeed.map (fun s => -((100 : ℚ) * s)))) =
      [some 0] ∧
    (IsDouble (1 - 1 / 2 ^ 53) ∧ (0 : ℚ) ≤ 1 - 1 / 2 ^ 53 ∧ (1 : ℚ) - 1 / 2 ^ 53 < 1 ∧
      ∃ e', (initParallaxElements (fun _ => 1 - 1 / 2 ^ 53) shapePage).doc[0]? = some e' ∧
        e'.dataSpeed = some (roundDouble (7 / 10))) := by
  have h50 : roundDouble (100 * 2⁻¹) = 50 := by
    rw [show (100 * 2⁻¹ : ℚ) = ((50 : ℤ) : ℚ) by norm_num]
    rw [roundDouble_intCast 50 (abs_lt_two_pow_53 (by omega) (by omega))]
    norm_num
  refine ⟨?_, ?_, ⟨9007199254740991, -53, by norm_num, by norm_num⟩, by norm_num,
    by norm_num, ?_⟩
  · simp [updateParallax, zeroSpeedPage, Page.modify, parallaxSpeed, List.enum, List.enumFrom, h50]
  · simp [zeroSpeedPage]
  · refine ⟨_, initParallaxElements_shape (fun _ => 1 - 1 / 2 ^ 53) shapePage 0
      { isFloatingShape := true } (by decide) rfl rfl, ?_⟩
    show some _ = some _
    rw [shape_speed_largest]

/-- C12, amended: `updateParallax` sets the vertical offset of every parallax
element to `-(y * s)`, computed in the arithmetic of the page (exactly `-(y * s)`
when that product is a double), where `s` is the number in its `data-speed` when
that number is not `0`, and `0.5` when the attribute is absent, not a number or
`0`.  A floating shape that `initParallaxElements` registers gets the speed
`r * 0.5 + 0.2`, computed in double arithmetic, for its random double `r` in
`[0, 1)`; that speed lies in `[0.2, 0.7)` and is at most the double nearest to
`0.7`, and the fallback `0.5` lies in `[0.2, 0.7)` too. -/
theorem parallax_offset (rnd : ℚ → ℚ) (y : ℚ) (p : Page) :
    (∀ i e, i ∈ p.parallaxElements → p.doc[i]? = some e →
      (updateParallax rnd y p).doc[i]? =
        some { e with translateY := some (-(rnd (y * parallaxSpeed e))) }) ∧
    (∀ e : Element, IsDouble (y * parallaxSpeed e) →
      roundDouble (y * parallaxSpeed e) = y * parallaxSpeed e) ∧
    (∀ (e : Element) (s : ℚ), e.dataSpeed = some s → s ≠ 0 → parallaxSpeed e = s) ∧
    (∀ e : Element, e.dataSpeed = none ∨ e.dataSpeed = some 0 → parallaxSpeed e = 1 / 2) ∧
    (∀ (random : Nat → ℚ) i e,
      (∀ k, IsDouble (random k) ∧ 0 ≤ random k ∧ random k < 1) →
      (p.select (fun e => e.hasClass "parallax-element")).length = 0 →
      p.doc[i]? = some e → e.isFloatingShape = true →
      ∃ e', (initParallaxElements random p).doc[i]? = some e' ∧
        e'.dataSpeed = some (roundDouble (roundDouble (random i * (1 / 2)) +
          roundDouble (1 / 5))) ∧
        i ∈ (initParallaxElements random p).parallaxElements ∧
        1 / 5 ≤ parallaxSpeed e' ∧ parallaxSpeed e' < 7 / 10 ∧
        parallaxSpeed e' ≤ roundDouble (7 / 10)) ∧
    ((1 : ℚ) / 5 ≤ 1 / 2 ∧ (1 : ℚ) / 2 < 7 / 10) := by
  refine ⟨?_, fun e he => roundDouble_of_isDouble he, ?_, ?_, ?_, by norm_num⟩
  · intro i e hi he
    unfold updateParallax
    rw [foldl_modify_getElem
      (fun e => { e with translateY := some (-(rnd (y * parallaxSpeed e))) }) (fun e => rfl), he]
    simp [hi]
  · intro e s hs h0
    simp [parallaxSpeed, hs, h0]
  · rintro e (h | h) <;> simp [parallaxSpeed, h]
  · intro random i e hr hlen he hshape
    have hdoc := initParallaxElements_shape random p i e hlen he hshape
    obtain ⟨hlo, hhi, hmax⟩ := shape_speed_range (random i) (hr i).1 (hr i).2.1 (hr i).2.2
    refine ⟨_, hdoc, rfl, ?_, ?_, ?_, ?_⟩
    · have hsel : (initParallaxElements random p).parallaxElements =
          Page.select { p with doc := (initParallaxElements random p).doc }
            (fun e => e.hasClass "parallax-element") := by
        simp [initParallaxElements, hlen]
      rw [hsel, mem_select]
      refine ⟨_, hdoc, ?_⟩
      have := (hasClass_addClass e "parallax-element" "parallax-element").mpr (Or.inr rfl)
      simpa [Element.hasClass] using this
    · simp only [parallaxSpeed]
      split_ifs with h0
      · norm_num
      · exact hlo
    · simp only [parallaxSpeed]
      split_ifs with h0
      · norm_num
      · exact hhi
    · simp only [parallaxSpeed]
      split_ifs with h0
      · rw [h0] at hlo
        norm_num at hlo
      · exact hmax

theorem requestTick_burst (s : Animations) (n : Nat) (hs : s.ticking = false) (hn : 1 ≤ n) :
    ((List.replicate n LoopEvent.scroll).foldl (Animations.step id) s).frames = s.frames + 1 ∧
    ((List.replicate n LoopEvent.scroll).foldl (Animations.step id) s).ticking = true ∧
    ((List.replicate n LoopEvent.scroll).foldl (Animations.step id) s).updates = s.updates := by
  have hstay : ∀ (m : Nat) (t : Animations), t.ticking = true →
      (List.replicate m LoopEvent.scroll).foldl (Animations.step id) t = t := by
    intro m
    induction m with
    | zero => intro t _; rfl
    | succ m ih =>
      intro t ht
      rw [List.replicate_succ, List.foldl_cons]
      have : Animations.step id t LoopEvent.scroll = t := by
        simp [Animations.step, requestTick, ht]
      rw [this]
      exact ih t ht
  obtain ⟨m, rfl⟩ : ∃ m, n = m + 1 := ⟨n - 1, by omega⟩
  rw [List.replicate_succ, List.foldl_cons]
  have h1 : Animations.step id s LoopEvent.scroll =
      { s with frames := s.frames + 1, ticking := true } := by
    simp [Animations.step, requestTick, hs]
  rw [h1, hstay m _ rfl]
  exact ⟨rfl, rfl, rfl⟩

theorem burst_then_frame (s : Animations) (n : Nat) (hs : s.ticking = false) (hn : 1 ≤ n)
    (y : ℚ) :
    (Animations.run id s (List.replicate n LoopEvent.scroll ++ [LoopEvent.frame y])).ticking
      = false ∧
    (Animations.run id s (List.replicate n LoopEvent.scroll ++ [LoopEvent.frame y])).frames
      = s.frames ∧
    (Animations.run id s (List.replicate n LoopEvent.scroll ++ [LoopEvent.frame y])).updates
      = s.updates + 1 ∧
    (Animations.run id s
      (List.replicate n LoopEvent.scroll ++ [LoopEvent.frame y, LoopEvent.scroll])).frames
      = s.frames + 1 := by
  obtain ⟨hf, ht, hu⟩ := requestTick_burst s n hs hn
  simp only [Animations.run, List.foldl_append]
  generalize (List.replicate n LoopEvent.scroll).foldl (Animations.step id) s = t at hf ht hu ⊢
  have hne : t.frames ≠ 0 := by rw [hf]; omega
  simp only [List.foldl_cons, List.foldl_nil,
    Animations.step, hne, if_false, updateAnimations, requestTick, hf, hu, Bool.not_false,
    if_true]
  simp

/-- C6: `n ≥ 1` calls of `requestTick` with no run of `updateAnimations` in
between request exactly one animation frame: the first sets `ticking`, the
others do nothing.  The run of `updateAnimations` for that frame clears
`ticking`, and the next `requestTick` requests exactly one new frame.  A burst
of 50 scroll events followed by the frame gives one recompute. -/
theorem request_tick_once (s : Animations) (n : Nat) (hs : s.ticking = false) (hn : 1 ≤ n) :
    (Animations.run id s (List.replicate n LoopEvent.scroll)).frames = s.frames + 1 ∧
    (Animations.run id s (List.replicate n LoopEvent.scroll)).ticking = true ∧
    (∀ y, (Animations.run id s (List.replicate n LoopEvent.scroll ++ [LoopEvent.frame y])).ticking
        = false ∧
      (Animations.run id s (List.replicate n LoopEvent.scroll ++ [LoopEvent.frame y])).frames
        = s.frames ∧
      (Animations.run id s (List.replicate n LoopEvent.scroll ++ [LoopEvent.frame y])).updates
        = s.updates + 1 ∧
      (Animations.run id s
        (List.replicate n LoopEvent.scroll ++ [LoopEvent.frame y, LoopEvent.scroll])).frames
        = s.frames + 1) ∧
    (∀ y, (Animations.run id idleLoop
        (List.replicate 50 LoopEvent.scroll ++ [LoopEvent.frame y])).updates = 1) := by
  obtain ⟨hf, ht, _⟩ := requestTick_burst s n hs hn
  exact ⟨hf, ht, burst_then_frame s n hs hn,
    fun y => (burst_then_frame idleLoop 50 rfl (by omega) y).2.2.1⟩

/-- C6 at the idle loop with a burst of 50 scroll events. -/
theorem request_tick_once_witness :
    (Animations.run id idleLoop (List.replicate 50 LoopEvent.scroll)).frames = 1 ∧
    (Animations.run id idleLoop (List.replicate 50 LoopEvent.scroll)).ticking = true :=
  ⟨(request_tick_once idleLoop 50 rfl (by omega)).1,
   (request_tick_once idleLoop 50 rfl (by omega)).2.1⟩

/-- C13 fails when the resize handler runs while a frame is pending: after a
scroll event and a run of the resize handler `ticking` is `false` although the
frame callback is still pending, and the next scroll event queues a second one. -/
theorem resize_breaks_ticking :
    (Animations.run id idleLoop [LoopEvent.scroll, LoopEvent.resize 0]).ticking = false ∧
    (Animations.run id idleLoop [LoopEvent.scroll, LoopEvent.resize 0]).frames = 1 ∧
    (Animations.run id idleLoop
      [LoopEvent.scroll, LoopEvent.resize 0, LoopEvent.scroll]).frames = 2 := by
  decide

/-- C13, amended: `requestTick` and `updateAnimations` are the only writers of
`ticking` and `scrollY`; the debounced resize handler calls `updateAnimations`
too, which writes `scrollY` and clears `ticking` while leaving a pending frame
pending.  For every interleaving of scroll events and animation frames without
runs of the resize handler, `ticking` is true exactly when a frame callback is
pending and at most one is pending. -/
theorem ticking_tracks_frame (rnd : ℚ → ℚ) (s : Animations) (events : List LoopEvent)
    (hinv : (s.ticking = true ↔ s.frames = 1) ∧ s.frames ≤ 1)
    (hno : ∀ ev ∈ events, ev.isResize = false) :
    ((Animations.run rnd s events).ticking = true ↔ (Animations.run rnd s events).frames = 1) ∧
    (Animations.run rnd s events).frames ≤ 1 ∧
    (∀ y, (Animations.step rnd s (LoopEvent.resize y)).ticking = false ∧
      (Animations.step rnd s (LoopEvent.resize y)).scrollY = y ∧
      (Animations.step rnd s (LoopEvent.resize y)).frames = s.frames) := by
  refine ⟨?_, ?_, fun y => ⟨rfl, rfl, rfl⟩⟩ <;>
  · induction events generalizing s with
    | nil => first | exact hinv.1 | exact hinv.2
    | cons ev rest ih =>
      have hstep : ((Animations.step rnd s ev).ticking = true ↔
          (Animations.step rnd s ev).frames = 1) ∧ (Animations.step rnd s ev).frames ≤ 1 := by
        obtain ⟨h1, h2⟩ := hinv
        cases ev with
        | scroll =>
          by_cases ht : s.ticking = true
          · simp [Animations.step, requestTick, ht, h1.mp ht]
          · have hf : s.frames = 0 := by
              have : s.frames ≠ 1 := fun h => ht (h1.mpr h)
              omega
            simp [Animations.step, requestTick, ht, hf]
        | frame y =>
          by_cases hf : s.frames = 0
          · simp only [Animations.step, hf, if_true]
            exact ⟨by rw [h1, hf], by omega⟩
          · have hf1 : s.frames = 1 := by omega
            simp [Animations.step, hf, updateAnimations, hf1]
        | resize y =>
          have := hno (LoopEvent.resize y) (List.mem_cons_self _ _)
          simp [LoopEvent.isResize] at this
      exact ih (Animations.step rnd s ev) hstep
        (fun e he => hno e (List.mem_cons_of_mem _ he))

/-- The amended C13 at the idle loop, for two scroll events, a frame and a third
scroll event. -/
theorem ticking_tracks_frame_witness :
    (Animations.run id idleLoop
      [LoopEvent.scroll, LoopEvent.scroll, LoopEvent.frame 40, LoopEvent.scroll]).frames ≤ 1 :=
  (ticking_tracks_frame id idleLoop
    [LoopEvent.scroll, LoopEvent.scroll, LoopEvent.frame 40, LoopEvent.scroll]
    (by decide) (by decide)).2.1

/-! ## `throttle` and `debounce` (C5, C7) -/

/-- What holds of a throttle closure between two calls, the last call so far
having been made at time `m` or earlier. -/
theorem throttle_invariant (limit : Nat) (calls : List Nat) (m : Nat)
    (hsorted : calls.Pairwise (· ≤ ·)) (hm : ∀ c ∈ calls, c ≤ m) :
    ((Throttle.run limit calls).executed = [] ∧ (Throttle.run limit calls).inThrottle = false ∧
        (Throttle.run limit calls).resets = []) ∨
      (∃ last, last ∈ (Throttle.run limit calls).executed ∧ last ≤ m ∧
        (Throttle.run limit calls).inThrottle = true ∧
        (Throttle.run limit calls).resets = [last + limit] ∧
        (∀ e ∈ (Throttle.run limit calls).executed, e ≤ last) ∧
        (Throttle.run limit calls).executed.Pairwise (fun a b => a + limit ≤ b)) := by
  induction calls using List.reverseRecOn generalizing m with
  | nil => exact Or.inl ⟨rfl, rfl, rfl⟩
  | append_singleton pre t ih =>
    have hpre : pre.Pairwise (· ≤ ·) := (List.pairwise_append.mp hsorted).1
    have hle : ∀ c ∈ pre, c ≤ t := fun c hc =>
      (List.pairwise_append.mp hsorted).2.2 c hc t (List.mem_singleton_self t)
    have htm : t ≤ m := hm t (by simp)
    have hrun : Throttle.run limit (pre ++ [t]) = (Throttle.run limit pre).call limit t := by
      simp [Throttle.run, List.foldl_append]
    rw [hrun]
    right
    rcases ih t hpre hle with ⟨h1, h2, h3⟩ | ⟨last, hl1, hl2, hl3, hl4, hl5, hl6⟩
    · refine ⟨t, ?_, htm, ?_, ?_, ?_, ?_⟩ <;>
        simp [Throttle.call, Throttle.settle, h1, h2, h3]
    · by_cases hdue : last + limit ≤ t
      · refine ⟨t, ?_, htm, ?_, ?_, ?_, ?_⟩
        · simp [Throttle.call, Throttle.settle, hl3, hl4, hdue]
        · simp [Throttle.call, Throttle.settle, hl3, hl4, hdue]
        · simp [Throttle.call, Throttle.settle, hl3, hl4, hdue]
        · intro e he
          simp only [Throttle.call, Throttle.settle, hl3, hl4, hdue, List.any_cons,
            List.any_nil, decide_True, Bool.or_false, if_true, Bool.not_false,
            List.mem_append, List.mem_singleton] at he
          rcases he with he | he
          · have := hl5 e he
            omega
          · omega
        · simp only [Throttle.call, Throttle.settle, hl3, hl4, hdue, List.any_cons,
            List.any_nil, decide_True, Bool.or_false, if_true, Bool.not_false]
          rw [List.pairwise_append]
          refine ⟨hl6, List.pairwise_singleton _ _, ?_⟩
          intro a ha b hb
          have := hl5 a ha
          simp only [List.mem_singleton] at hb
          omega
      · have hsame : (Throttle.run limit pre).call limit t = Throttle.run limit pre := by
          simp [Throttle.call, Throttle.settle, hl3, hl4, hdue]
        rw [hsame]
        exact ⟨last, hl1, by omega, hl3, hl4, hl5, hl6⟩

/-- C5: in any sequence of calls of a throttled function, at non-decreasing
times, a call runs `func` if and only if no earlier call that ran `func` came
less than `limit` ms before it.  A call that does not run `func` leaves nothing
behind: the runs of `func` are exactly the calls that ran it, at their own
times.  Any two runs are at least `limit` ms apart, and of two scroll events
less than 16 ms apart only the first reaches the wrapped update. -/
theorem throttle_executes_iff (limit : Nat) (calls : List Nat) (t : Nat)
    (hsorted : (calls ++ [t]).Pairwise (· ≤ ·)) :
    ((Throttle.run limit calls).executes t = true ↔
      ∀ e ∈ (Throttle.run limit calls).executed, e + limit ≤ t) ∧
    (Throttle.run limit (calls ++ [t])).executed =
      (Throttle.run limit calls).executed ++
        (if (Throttle.run limit calls).executes t = true then [t] else []) ∧
    (Throttle.run limit (calls ++ [t])).executed.Pairwise (fun a b => a + limit ≤ b) ∧
    (∀ t1 t2, t1 ≤ t2 → t2 < t1 + scrollLimit →
      (Throttle.run scrollLimit [t1, t2]).executed = [t1]) := by
  have hpre : calls.Pairwise (· ≤ ·) := (List.pairwise_append.mp hsorted).1
  have hle : ∀ c ∈ calls, c ≤ t := fun c hc =>
    (List.pairwise_append.mp hsorted).2.2 c hc t (List.mem_singleton_self t)
  have hrun : Throttle.run limit (calls ++ [t]) = (Throttle.run limit calls).call limit t := by
    simp [Throttle.run, List.foldl_append]
  refine ⟨?_, ?_, ?_, ?_⟩
  · rcases throttle_invariant limit calls t hpre hle with
      ⟨h1, h2, h3⟩ | ⟨last, hl1, hl2, hl3, hl4, hl5, hl6⟩
    · simp [Throttle.executes, Throttle.settle, h1, h2, h3]
    · by_cases hdue : last + limit ≤ t
      · have : (Throttle.run limit calls).executes t = true := by
          simp [Throttle.executes, Throttle.settle, hl3, hl4, hdue]
        simp only [this, true_iff]
        intro e he
        have := hl5 e he
        omega
      · have : (Throttle.run limit calls).executes t = false := by
          simp [Throttle.executes, Throttle.settle, hl3, hl4, hdue]
        simp only [this, Bool.false_eq_true, false_iff, not_forall]
        exact ⟨last, hl1, hdue⟩
  · rw [hrun]
    have hset : ((Throttle.run limit calls).settle t).executed =
        (Throttle.run limit calls).executed := by
      unfold Throttle.settle
      split_ifs <;> rfl
    unfold Throttle.call Throttle.executes
    by_cases h : ((Throttle.run limit calls).settle t).inThrottle = true
    · simp [h, hset]
    · simp only [Bool.not_eq_true] at h
      simp [h, hset]
  · rcases throttle_invariant limit (calls ++ [t]) t hsorted
      (by
        intro c hc
        rcases List.mem_append.mp hc with h | h
        · exact hle c h
        · simp only [List.mem_singleton] at h; omega) with
      ⟨h1, _, _⟩ | ⟨_, _, _, _, _, _, h6⟩
    · rw [h1]; exact List.Pairwise.nil
    · exact h6
  · intro t1 t2 h12 hlt
    have hnot : ¬ t1 + scrollLimit ≤ t2 := by omega
    simp [Throttle.run, Throttle.call, Throttle.settle, hnot]

/-- C5 at three scroll events at 0, 5 and 20 ms: the third runs the update, since
the only earlier run, at 0 ms, is 16 ms or more before it. -/
theorem throttle_executes_iff_witness :
    ((Throttle.run 16 [0, 5]).executes 20 = true ↔
      ∀ e ∈ (Throttle.run 16 [0, 5]).executed, e + 16 ≤ 20) ∧
    (Throttle.run 16 [0, 5, 20]).executed = [0, 20] := by
  have h := throttle_executes_iff 16 [0, 5] 20 (by decide)
  refine ⟨h.1, ?_⟩
  have h2 := h.2.1
  simp only [List.cons_append, List.nil_append] at h2
  rw [h2]
  decide

theorem debounce_run_burst {α : Type} (wait : Nat) (first : Nat × α) (rest : List (Nat × α))
    (hburst : List.Chain (fun a b => a.1 ≤ b.1 ∧ b.1 < a.1 + wait) first rest) :
    Debounce.run wait (first :: rest) =
      { timeout := some (((first :: rest).getLast (List.cons_ne_nil _ _)).1 + wait,
          ((first :: rest).getLast (List.cons_ne_nil _ _)).2),
        executed := [] } := by
  have hgen : ∀ (rest : List (Nat × α)) (c : Nat × α),
      List.Chain (fun a b => a.1 ≤ b.1 ∧ b.1 < a.1 + wait) c rest →
      rest.foldl (Debounce.call wait) { timeout := some (c.1 + wait, c.2), executed := [] } =
        { timeout := some (((c :: rest).getLast (List.cons_ne_nil _ _)).1 + wait,
            ((c :: rest).getLast (List.cons_ne_nil _ _)).2),
          executed := [] } := by
    intro rest
    induction rest with
    | nil => intro c _; rfl
    | cons d ds ih =>
      intro c hc
      rw [List.chain_cons] at hc
      have hnot : ¬ c.1 + wait ≤ d.1 := by omega
      have hstep : Debounce.call wait
          ({ timeout := some (c.1 + wait, c.2), executed := [] } : Debounce α) d =
          { timeout := some (d.1 + wait, d.2), executed := [] } := by
        simp [Debounce.call, Debounce.settle, hnot]
      rw [List.foldl_cons, hstep, ih d hc.2]
      simp [List.getLast_cons]
  have hfirst : Debounce.call wait ({} : Debounce α) first =
      { timeout := some (first.1 + wait, first.2), executed := [] } := by
    simp [Debounce.call, Debounce.settle]
  simp only [Debounce.run, List.foldl_cons, hfirst]
  exact hgen rest first hburst

/-- C7: over a burst of calls of a debounced function, each less than `wait` ms
after the one before, `func` does not run while the burst lasts and runs exactly
once afterwards, `wait` ms after the last call and with the arguments of that
call; nothing is left pending.  The resize handler waits 250 ms. -/
theorem debounce_burst {α : Type} (wait : Nat) (first : Nat × α) (rest : List (Nat × α))
    (hburst : List.Chain (fun a b => a.1 ≤ b.1 ∧ b.1 < a.1 + wait) first rest) :
    (∀ now, now < ((first :: rest).getLast (List.cons_ne_nil _ _)).1 + wait →
      ((Debounce.run wait (first :: rest)).settle now).executed = []) ∧
    (∀ now, ((first :: rest).getLast (List.cons_ne_nil _ _)).1 + wait ≤ now →
      ((Debounce.run wait (first :: rest)).settle now).executed =
        [(((first :: rest).getLast (List.cons_ne_nil _ _)).1 + wait,
          ((first :: rest).getLast (List.cons_ne_nil _ _)).2)] ∧
      ((Debounce.run wait (first :: rest)).settle now).timeout = none) ∧
    resizeWait = 250 := by
  rw [debounce_run_burst wait first rest hburst]
  refine ⟨?_, ?_, rfl⟩
  · intro now hnow
    have : ¬ ((first :: rest).getLast (List.cons_ne_nil _ _)).1 + wait ≤ now := by omega
    simp [Debounce.settle, this]
  · intro now hnow
    simp [Debounce.settle, hnow]

/-- C7 at three resize events at 0, 100 and 300 ms: the handler runs once, at
550 ms, with the arguments of the third. -/
theorem debounce_burst_witness :
    ((Debounce.run 250 [(0, "a"), (100, "b"), (300, "c")]).settle 1000).executed =
      [(550, "c")] :=
  ((debounce_burst 250 (0, "a") [(100, "b"), (300, "c")]
    (by simp [List.chain_cons])).2.1 1000 (by decide)).1

/-! ## The contact form (C15, C16) -/

theorem matchesSeq_nil (s : Str) : matchesSeq [] s = true ↔ s = [] := by
  simp [matchesSeq]

/-- A string matches a quantified class followed by more when it splits into a
run of the class, of an allowed length, and a rest that matches the rest. -/
theorem matchesSeq_cons (q : Quantified) (qs : List Quantified) (s : Str) :
    matchesSeq (q :: qs) s = true ↔
      ∃ a b, s = a ++ b ∧ q.min ≤ a.length ∧ (∀ m, q.max = some m → a.length ≤ m) ∧
        (∀ c ∈ a, q.cls c = true) ∧ matchesSeq qs b = true := by
  simp only [matchesSeq, List.any_eq_true, List.mem_range, Bool.and_eq_true, decide_eq_true_eq,
    List.all_eq_true]
  constructor
  · rintro ⟨k, hk, ⟨⟨⟨hmin, hmax⟩, hall⟩, hrest⟩⟩
    have hlen : (s.take k).length = k := by
      rw [List.length_take]; omega
    refine ⟨s.take k, s.drop k, (List.take_append_drop k s).symm, by omega, ?_, hall, hrest⟩
    intro m hm
    rw [hm] at hmax
    simp only [decide_eq_true_eq] at hmax
    omega
  · rintro ⟨a, b, rfl, hmin, hmax, hall, hrest⟩
    refine ⟨a.length, by simp; omega, ⟨⟨⟨hmin, ?_⟩, ?_⟩, ?_⟩⟩
    · cases hq : q.max with
      | none => rfl
      | some m => simpa using hmax m hq
    · simpa using hall
    · simpa using hrest

theorem single_char_run {a : Str} {ch : Char} (h1 : 1 ≤ a.length) (h2 : a.length ≤ 1)
    (h3 : ∀ c ∈ a, (c == ch) = true) : a = [ch] := by
  match a, h1, h2, h3 with
  | [c], _, _, h3 =>
    have := h3 c (List.mem_singleton_self c)
    simp only [beq_iff_eq] at this
    rw [this]

theorem plainRun_iff (a : Str) :
    (1 ≤ a.length ∧ ∀ c ∈ a, notSpaceNorAt c = true) ↔ PlainRun a := by
  unfold PlainRun notSpaceNorAt
  constructor
  · rintro ⟨h1, h2⟩
    refine ⟨by intro h; rw [h] at h1; simp at h1, ?_⟩
    intro c hc
    simpa using h2 c hc
  · rintro ⟨h1, h2⟩
    refine ⟨Nat.one_le_iff_ne_zero.mpr (by simpa using h1), ?_⟩
    intro c hc
    simpa using h2 c hc

theorem emailRegex_iff (v : Str) : matchesSeq emailRegex v = true ↔ EmailForm v := by
  unfold emailRegex EmailForm
  simp only [matchesSeq_cons, matchesSeq_nil]
  constructor
  · rintro ⟨x, r1, rfl, hx1, -, hx2, a1, r2, rfl, ha1, ha2, ha3, y, r3, rfl, hy1, -, hy2,
      a2, r4, rfl, hb1, hb2, hb3, z, r5, rfl, hz1, -, hz2, rfl⟩
    have hat : a1 = ['@'] := single_char_run ha1 (ha2 1 rfl) ha3
    have hdot : a2 = ['.'] := single_char_run hb1 (hb2 1 rfl) hb3
    subst hat hdot
    exact ⟨x, y, z, by simp, (plainRun_iff x).mp ⟨hx1, hx2⟩, (plainRun_iff y).mp ⟨hy1, hy2⟩,
      (plainRun_iff z).mp ⟨hz1, hz2⟩⟩
  · rintro ⟨x, y, z, rfl, hx, hy, hz⟩
    obtain ⟨hx1, hx2⟩ := (plainRun_iff x).mpr hx
    obtain ⟨hy1, hy2⟩ := (plainRun_iff y).mpr hy
    obtain ⟨hz1, hz2⟩ := (plainRun_iff z).mpr hz
    exact ⟨x, '@' :: (y ++ '.' :: z), rfl, hx1, by simp, hx2,
      ['@'], y ++ '.' :: z, rfl, by simp, by simp, by simp,
      y, '.' :: z, rfl, hy1, by simp, hy2,
      ['.'], z, rfl, by simp, by simp, by simp,
      z, [], by simp, hz1, by simp, hz2, rfl⟩

theorem phoneRegex_iff (w : Str) : matchesSeq phoneRegex w = true ↔ PhoneForm w := by
  unfold phoneRegex PhoneForm
  simp only [matchesSeq_cons, matchesSeq_nil]
  constructor
  · rintro ⟨sign, r1, rfl, -, hs2, hs3, a1, r2, rfl, ha1, ha2, ha3, ds, r3, rfl, -, hd2, hd3, rfl⟩
    have hs : sign = [] ∨ sign = ['+'] := by
      have hlen := hs2 1 rfl
      match sign, hlen, hs3 with
      | [], _, _ => exact Or.inl rfl
      | [c], _, h3 =>
        have := h3 c (List.mem_singleton_self c)
        simp only [beq_iff_eq] at this
        exact Or.inr (by rw [this])
    have hlen1 := ha2 1 rfl
    match a1, ha1, hlen1, ha3 with
    | [d], _, _, h3 =>
      have hd := h3 d (List.mem_singleton_self d)
      simp only [isNonZeroDigit, Bool.and_eq_true, decide_eq_true_eq] at hd
      exact ⟨sign, d, ds, by simp, hs, hd, hd2 15 rfl, hd3⟩
  · rintro ⟨sign, d, ds, rfl, hs, hd, hlen, hds⟩
    refine ⟨sign, d :: ds, rfl, Nat.zero_le _, ?_, ?_, [d], ds, rfl, by simp, by simp, ?_,
      ds, [], by simp, Nat.zero_le _, ?_, hds, rfl⟩
    · intro m hm
      simp only [Option.some.injEq] at hm
      subst hm
      rcases hs with rfl | rfl <;> simp
    · intro c hc
      rcases hs with rfl | rfl
      · simp at hc
      · simp only [List.mem_singleton] at hc
        simp [hc]
    · intro c hc
      simp only [List.mem_singleton] at hc
      subst hc
      simp [isNonZeroDigit, hd]
    · intro m hm
      simp only [Option.some.injEq] at hm
      omega

theorem fieldVerdict_valid (f : Field) :
    (fieldVerdict f).1 =
      !((f.required && (trim f.value).isEmpty) ||
        (f.name == "email" && !(trim f.value).isEmpty && !matchesSeq emailRegex (trim f.value)) ||
        (f.name == "phone" && !(trim f.value).isEmpty &&
          !matchesSeq phoneRegex (removeWhiteSpace (trim f.value))) ||
        (f.name == "message" && !(trim f.value).isEmpty &&
          decide ((trim f.value).length < 10))) := by
  unfold fieldVerdict
  simp only
  generalize (f.required && (trim f.value).isEmpty) = b1
  generalize (f.name == "email" && !(trim f.value).isEmpty &&
    !matchesSeq emailRegex (trim f.value)) = b2
  generalize (f.name == "phone" && !(trim f.value).isEmpty &&
    !matchesSeq phoneRegex (removeWhiteSpace (trim f.value))) = b3
  generalize (f.name == "message" && !(trim f.value).isEmpty &&
    decide ((trim f.value).length < 10)) = b4
  cases b1 <;> cases b2 <;> cases b3 <;> cases b4 <;> rfl

theorem hasError_showFieldError (f : Field) (m : String) :
    "error" ∈ (showFieldError f m).classes := by
  unfold showFieldError
  simp only
  split_ifs with h
  · simpa using h
  · simp

theorem hasError_clearFieldError (f : Field) :
    "error" ∉ (clearFieldError f).classes := by
  simp [clearFieldError]

/-- C15: with `v` the trimmed value, `validateField` returns `false` exactly when
the field is required and `v` is empty, or it is the `email` field and `v` is
not empty and not of the form `run @ run . run` (runs non-empty, without white
space or `@`), or it is the `phone` field and `v` is not empty and, white space
removed, is not an optional `+`, a digit 1-9 and up to 15 digits, or it is the
`message` field and `v` is not empty and shorter than 10.  The field has the
class `error` afterwards exactly when the result is `false`. -/
theorem validateField_spec (f : Field) :
    ((validateField f).1 = false ↔
      (f.required = true ∧ trim f.value = []) ∨
      (f.name = "email" ∧ trim f.value ≠ [] ∧ ¬ EmailForm (trim f.value)) ∨
      (f.name = "phone" ∧ trim f.value ≠ [] ∧
        ¬ PhoneForm (removeWhiteSpace (trim f.value))) ∨
      (f.name = "message" ∧ trim f.value ≠ [] ∧ (trim f.value).length < 10)) ∧
    ((validateField f).2.classes.contains "error" = !(validateField f).1) := by
  have h1 : (validateField f).1 = (fieldVerdict f).1 := by
    unfold validateField
    split_ifs with h
    · simp only [Bool.not_eq_true'] at h
      exact h.symm
    · simp only [Bool.not_eq_true', Bool.not_eq_false] at h
      exact h.symm
  constructor
  · rw [h1, fieldVerdict_valid]
    simp only [Bool.not_eq_false', Bool.or_eq_true, Bool.and_eq_true, beq_iff_eq,
      Bool.not_eq_true', List.isEmpty_eq_false, decide_eq_true_eq, List.isEmpty_iff,
      ← emailRegex_iff, ← phoneRegex_iff, Bool.not_eq_true, ne_eq]
    tauto
  · unfold validateField
    split_ifs with h
    · simpa using hasError_showFieldError (clearFieldError f) (fieldVerdict f).2
    · simpa using hasError_clearFieldError f

/-- C15 at three fields: an e-mail without a dot after the `@`, a phone number
written with spaces, and a message of nine characters. -/
theorem validateField_spec_witness :
    (validateField { name := "email", value := " a@b ".toList }).1 = false ∧
    (validateField { name := "phone", value := "+91 98765 43210".toList }).1 = true ∧
    (validateField { name := "message", value := "too short".toList }).1 = false := by
  refine ⟨?_, ?_, ?_⟩
  · rw [(validateField_spec _).1]
    right; left
    refine ⟨rfl, by decide, ?_⟩
    rw [← emailRegex_iff]
    decide
  · decide
  · rw [(validateField_spec _).1]
    right; right; right
    exact ⟨rfl, by decide, by decide⟩

/-- C16 fails for an invalid field that is not required: the form whose required
name is filled in and whose optional e-mail field holds `abc` enters the sending
state with no error notification, although `validateField` returns `false` for
the e-mail field. -/
theorem optional_field_not_validated :
    (validateField { name := "email", value := "abc".toList }).1 = false ∧
    (handleContactForm formWithBadOptionalEmail).submitDisabled = true ∧
    (handleContactForm formWithBadOptionalEmail).sending = true ∧
    (handleContactForm formWithBadOptionalEmail).notification = none := by
  decide

/-! ## FAQ, notifications and project filter (C17, C18, C20) -/

theorem hasClass_removeClass (e : Element) (c : String) :
    (e.removeClass c).hasClass c = false := by
  simp [Element.removeClass, Element.hasClass]

theorem hasClass_addClass_self (e : Element) (c : String) :
    (e.addClass c).hasClass c = true :=
  (hasClass_addClass e c c).mpr (Or.inr rfl)

/-- The state of one item after a click on the question of item `i`. -/
theorem faqClick_getElem (items : List Element) (i j : Nat) (e' : Element)
    (h : (faqClick items i)[j]? = some e') :
    e'.hasClass "active" = true ↔
      (j = i ∧ ∃ e, items[i]? = some e ∧ e.hasClass "active" = false) := by
  unfold faqClick at h
  cases hi : items[i]? with
  | none =>
    have hlen : items.length ≤ i := List.getElem?_eq_none_iff.mp hi
    simp only [hi, Bool.not_false, if_true, List.getElem?_map, List.getElem?_enum,
      Option.map_map] at h
    cases hj : items[j]? with
    | none => simp [hj] at h
    | some e =>
      have hjlt : j < items.length := (List.getElem?_eq_some_iff.mp hj).1
      have hne : j ≠ i := by omega
      simp only [hj, Option.map_some', Function.comp_apply, hne, if_false,
        Option.some.injEq] at h
      subst h
      simp [hasClass_removeClass, hne]
  | some e =>
    simp only [hi] at h
    by_cases hact : e.hasClass "active" = true
    · simp only [hact, Bool.not_true, Bool.false_eq_true, if_false, List.getElem?_map] at h
      cases hj : items[j]? with
      | none => simp [hj] at h
      | some ej =>
        simp only [hj, Option.map_some', Option.some.injEq] at h
        subst h
        simp [hasClass_removeClass, hact]
    · simp only [Bool.not_eq_true] at hact
      simp only [hact, Bool.not_false, if_true, List.getElem?_map, List.getElem?_enum,
        Option.map_map] at h
      cases hj : items[j]? with
      | none => simp [hj] at h
      | some ej =>
        simp only [hj, Option.map_some', Function.comp_apply, Option.some.injEq] at h
        by_cases hji : j = i
        · simp only [hji, if_true] at h
          subst h
          simp [hasClass_addClass_self, hji, hact]
        · simp only [hji, if_false] at h
          subst h
          simp [hasClass_removeClass, hji]

/-- C17: after a click on the question of item `i`, whatever the items were,
the clicked item is active exactly when it was not active before, every other
item is inactive, and so at most one item is active. -/
theorem faq_single_active (items : List Element) (i : Nat) (clicked : Element)
    (hi : items[i]? = some clicked) :
    (faqClick items i).length = items.length ∧
    (∃ e', (faqClick items i)[i]? = some e' ∧
      (e'.hasClass "active" = true ↔ clicked.hasClass "active" = false)) ∧
    (∀ (j : Nat) (e' : Element), j ≠ i → (faqClick items i)[j]? = some e' →
      e'.hasClass "active" = false) ∧
    (∀ (j k : Nat) (e1 e2 : Element),
      (faqClick items i)[j]? = some e1 → (faqClick items i)[k]? = some e2 →
      e1.hasClass "active" = true → e2.hasClass "active" = true → j = k) := by
  have hlen : (faqClick items i).length = items.length := by
    unfold faqClick
    simp only
    split_ifs <;> simp
  refine ⟨hlen, ?_, ?_, ?_⟩
  · have hlt : i < (faqClick items i).length := by
      rw [hlen]; exact (List.getElem?_eq_some_iff.mp hi).1
    refine ⟨(faqClick items i)[i], List.getElem?_eq_getElem hlt, ?_⟩
    rw [faqClick_getElem items i i _ (List.getElem?_eq_getElem hlt)]
    constructor
    · rintro ⟨_, e, he, hact⟩
      rw [hi] at he
      cases he
      exact hact
    · intro h
      exact ⟨rfl, clicked, hi, h⟩
  · intro j e' hj he'
    by_contra hact
    have := (faqClick_getElem items i j e' he').mp (by simpa using hact)
    exact hj this.1
  · intro j k e1 e2 h1 h2 a1 a2
    have := ((faqClick_getElem items i j e1 h1).mp a1).1
    have := ((faqClick_getElem items i k e2 h2).mp a2).1
    omega

/-- C17 at three items of which the second is open, after a click on the third:
only the third is open. -/
theorem faq_single_active_witness :
    (faqClick [{}, { classes := ["active"] }, {}] 2).map (fun e => e.hasClass "active") =
      [false, false, true] ∧
    (∀ (j k : Nat) (e1 e2 : Element),
      (faqClick [{}, { classes := ["active"] }, {}] 2)[j]? = some e1 →
      (faqClick [{}, { classes := ["active"] }, {}] 2)[k]? = some e2 →
      e1.hasClass "active" = true → e2.hasClass "active" = true → j = k) :=
  ⟨by decide, (faq_single_active [{}, { classes := ["active"] }, {}] 2 {} rfl).2.2.2⟩

theorem runTimer_length (s : Toasts) (t : NotificationTimer) :
    (s.runTimer t).attached.length ≤ s.attached.length := by
  cases t with
  | autoRemove id =>
    simp only [Toasts.runTimer]
    split_ifs <;> simp
  | remove id => exact List.length_filter_le _ _

theorem runTimer_ids (s : Toasts) (t : NotificationTimer) :
    (∀ n ∈ (s.runTimer t).attached, ∃ m ∈ s.attached, m.id = n.id) ∧
      (s.runTimer t).shown = s.shown := by
  cases t with
  | autoRemove id =>
    simp only [Toasts.runTimer]
    split_ifs
    · refine ⟨?_, rfl⟩
      intro n hn
      simp only [List.mem_map] at hn
      obtain ⟨m, hm, rfl⟩ := hn
      refine ⟨m, hm, ?_⟩
      split_ifs <;> rfl
    · exact ⟨fun n hn => ⟨n, hn, rfl⟩, rfl⟩
  | remove id =>
    exact ⟨fun n hn => ⟨n, (List.mem_filter.mp hn).1, rfl⟩, rfl⟩

theorem step_length (s : Toasts) (ev : ToastEvent) (h : s.attached.length ≤ 1) :
    (s.step ev).attached.length ≤ 1 := by
  cases ev with
  | notify message type =>
    simp only [Toasts.step, showNotification]
    match hs : s.attached, h with
    | [], _ => simp
    | [a], _ => simp
  | close id =>
    exact (List.length_filter_le _ _).trans h
  | fire position =>
    simp only [Toasts.step]
    split
    · exact (runTimer_length _ _).trans h
    · exact h

theorem run_length (s : Toasts) (events : List ToastEvent) (h : s.attached.length ≤ 1) :
    (s.run events).attached.length ≤ 1 := by
  induction events generalizing s with
  | nil => exact h
  | cons ev rest ih => exact ih (s.step ev) (step_length s ev h)

theorem step_notify_latest (s : Toasts) (message type : String) (h : s.attached.length ≤ 1) :
    ∀ n ∈ (s.step (ToastEvent.notify message type)).attached,
      n.id + 1 = (s.step (ToastEvent.notify message type)).shown := by
  intro n hn
  simp only [Toasts.step, showNotification] at hn ⊢
  match hs : s.attached, h with
  | [], _ =>
    simp only [hs, List.nil_append, List.mem_singleton] at hn
    rw [hn]
  | [a], _ =>
    simp only [hs, List.nil_append, List.mem_singleton] at hn
    rw [hn]

theorem step_keeps_latest (s : Toasts) (ev : ToastEvent) (hev : ev.isNotify = false)
    (h : ∀ n ∈ s.attached, n.id + 1 = s.shown) :
    ∀ n ∈ (s.step ev).attached, n.id + 1 = (s.step ev).shown := by
  cases ev with
  | notify message type => simp [ToastEvent.isNotify] at hev
  | close id =>
    intro n hn
    exact h n (List.mem_filter.mp hn).1
  | fire position =>
    intro n hn
    simp only [Toasts.step] at hn ⊢
    split at hn
    · rename_i t _
      obtain ⟨hids, hshown⟩ := runTimer_ids { s with timers := s.timers.eraseIdx position } t
      obtain ⟨m, hm, hmn⟩ := hids n hn
      rw [hshown, ← hmn]
      exact h m hm
    · exact h n hn

theorem run_latest (s : Toasts) (events : List ToastEvent) (h : s.attached.length ≤ 1)
    (hev : ∃ ev ∈ events, ev.isNotify = true) :
    ∀ n ∈ (s.run events).attached, n.id + 1 = (s.run events).shown := by
  induction events generalizing s with
  | nil => simp at hev
  | cons ev rest ih =>
    by_cases hrest : ∃ e ∈ rest, e.isNotify = true
    · exact ih (s.step ev) (step_length s ev h) hrest
    · have hev' : ev.isNotify = true := by
        obtain ⟨e, he, hn⟩ := hev
        rcases List.mem_cons.mp he with rfl | he'
        · exact hn
        · exact absurd ⟨e, he', hn⟩ hrest
      have hstart : ∀ n ∈ (s.step ev).attached, n.id + 1 = (s.step ev).shown := by
        cases ev with
        | notify message type => exact step_notify_latest s message type h
        | close id => simp [ToastEvent.isNotify] at hev'
        | fire position => simp [ToastEvent.isNotify] at hev'
      have hkeep : ∀ (l : List ToastEvent) (t : Toasts), (∀ e ∈ l, e.isNotify = false) →
          (∀ n ∈ t.attached, n.id + 1 = t.shown) →
          ∀ n ∈ (t.run l).attached, n.id + 1 = (t.run l).shown := by
        intro l
        induction l with
        | nil => intro t _ ht; exact ht
        | cons e l ihl =>
          intro t hl ht
          exact ihl (t.step e) (fun x hx => hl x (List.mem_cons_of_mem _ hx))
            (step_keeps_latest t e (hl e (List.mem_cons_self _ _)) ht)
      exact hkeep rest (s.step ev)
        (fun e he => by
          by_contra hc
          exact hrest ⟨e, he, by simpa using hc⟩)
        hstart

/-- C18 fails for a type that names a member of `Object.prototype`: the type
`constructor` is none of `success`, `error`, `warning`, `info`, yet the lookup
`icons[type]` finds the inherited `constructor`, which is truthy, and the icon of
the notification is not the info icon. -/
theorem notification_icon_inherited :
    "constructor" ∉ ["success", "error", "warning", "info"] ∧
    getNotificationIcon "constructor" = Icon.inherited "constructor" ∧
    getNotificationIcon "constructor" ≠ Icon.text "fa-info-circle" ∧
    getNotificationIcon "constructor" ≠ getNotificationIcon "info" ∧
    (Toasts.run {} [ToastEvent.notify "saved" "constructor"]).attached.map (fun n => n.icon) =
      [Icon.inherited "constructor"] := by
  decide

/-- C18, amended: from a document with at most one notification, after every
sequence of calls of `showNotification`, clicks on close buttons and timer runs the
document holds at most one notification, and once a notification has been shown
the one in the document is the latest.  The timers of a notification leave every
other notification in the document.  The icon of a notification is the one its
type maps to; for a type that is none of `success`, `error`, `warning`, `info` it
is the info icon unless the type names a member of `Object.prototype`
(`constructor`, `toString`, …), for which it is that member. -/
theorem notification_single (s : Toasts) (events : List ToastEvent)
    (h : s.attached.length ≤ 1) :
    (s.run events).attached.length ≤ 1 ∧
    ((∃ ev ∈ events, ev.isNotify = true) →
      ∀ n ∈ (s.run events).attached, n.id + 1 = (s.run events).shown) ∧
    (∀ (t : Toasts) (id : Nat) (n : Notification), n ∈ t.attached → n.id ≠ id →
      n ∈ (t.runTimer (NotificationTimer.autoRemove id)).attached ∧
      n ∈ (t.runTimer (NotificationTimer.remove id)).attached) ∧
    (∀ (t : Toasts) (message type : String),
      { id := t.shown, message := message, type := type, icon := getNotificationIcon type } ∈
        (showNotification t message type).attached) ∧
    getNotificationIcon "success" = Icon.text "fa-check-circle" ∧
    getNotificationIcon "error" = Icon.text "fa-exclamation-circle" ∧
    getNotificationIcon "warning" = Icon.text "fa-exclamation-triangle" ∧
    getNotificationIcon "info" = Icon.text "fa-info-circle" ∧
    (∀ type : String, type ∉ ["success", "error", "warning", "info"] →
      type ∉ objectPrototypeKeys → getNotificationIcon type = Icon.text "fa-info-circle") ∧
    (∀ type : String, type ∈ objectPrototypeKeys →
      getNotificationIcon type = Icon.inherited type) := by
  refine ⟨run_length s events h, run_latest s events h, ?_, ?_, by decide, by decide, by decide,
    by decide, ?_, ?_⟩
  · intro t id n hn hid
    constructor
    · simp only [Toasts.runTimer]
      split_ifs
      · simp only [List.mem_map]
        exact ⟨n, hn, by simp [hid]⟩
      · exact hn
    · simp only [Toasts.runTimer, List.mem_filter]
      exact ⟨hn, by simpa using hid⟩
  · intro t message type
    simp [showNotification]
  · intro type htype hproto
    simp only [List.mem_cons, List.mem_singleton, not_or, List.not_mem_nil, or_false] at htype
    obtain ⟨h1, h2, h3, h4⟩ := htype
    have e1 : (type == "success") = false := by simpa using h1
    have e2 : (type == "error") = false := by simpa using h2
    have e3 : (type == "warning") = false := by simpa using h3
    have e4 : (type == "info") = false := by simpa using h4
    simp [getNotificationIcon, List.lookup, e1, e2, e3, e4, hproto]
  · intro type htype
    have hall : ∀ t ∈ objectPrototypeKeys, getNotificationIcon t = Icon.inherited t := by
      decide
    exact hall type htype

/-- C18 from an empty document: two notifications are shown, the timer of the
first runs, and the second is the one in the document. -/
theorem notification_single_witness :
    (Toasts.run {} [ToastEvent.notify "saved" "success", ToastEvent.notify "failed" "error",
      ToastEvent.fire 0]).attached.length ≤ 1 ∧
    (Toasts.run {} [ToastEvent.notify "saved" "success", ToastEvent.notify "failed" "error",
      ToastEvent.fire 0]).attached.map (fun n => (n.id, n.icon)) =
      [(1, Icon.text "fa-exclamation-circle")] :=
  ⟨(notification_single {} [ToastEvent.notify "saved" "success",
      ToastEvent.notify "failed" "error", ToastEvent.fire 0] (by decide)).1, by decide⟩

/-- C20 fails when a filter is clicked within 300 ms of another: after a click on
`web` at 0 ms and a click on `all` at 100 ms, the hide timer set by the first
click runs at 300 ms and leaves the `design` card with display `none`, although
the card does not have the class `hidden` and the filter is `all`. -/
theorem stale_hide_timer :
    ((designProjects.run [(0, 1), (100, 0)]).finish.cards.map
      (fun c => (c.display, c.hasClass "hidden"))) = [(some "none", false)] ∧
    (designProjects.run [(0, 1), (100, 0)]).finish.currentProjectFilter = some "all".toList ∧
    ((designProjects.run [(0, 1), (100, 0)]).finish.buttons.map
      (fun b => b.hasClass "active")) = [true, false] := by
  decide

end Portfolio
